import Mathlib

/-!
# anyshift: GitHub push-event ingestion pipeline

A shallow embedding of the Go sources

* `internal/github/types.go`, `internal/github/client.go`  (the fetcher),
* `internal/store/store.go`                                 (row shapes, the `Store` interface),
* `internal/pubsub/job.go`, `producer.go`, `consumer.go`    (producer and worker),
* `internal/config/config.go`                               (the configuration),
* `cmd/server/main.go`                                      (the shutdown path of `main`),

followed by theorems about them.

Conventions of the embedding.

* Go `string` is `String`; Go `int`/`int64` are `Int`, with an explicit wrap to 64 bits
  where the source does arithmetic that can overflow.  `time.Time` values that are only
  copied around are `Int` (Unix nanoseconds).
* A Go `(value, error)` result is kept as a pair whose second component is
  `Option GoError` (`none` is `nil`).
* Interfaces injected into a component (`store.Store`, `EventsFetcher`,
  `CommitStatsFetcher`), the HTTP transport, `json.Unmarshal`, the wall clock and the
  scheduling of `select` are the environment: they are functions that the component
  consults, and every theorem quantifies over them.  The calls a component makes are
  recorded in its state, in order.
-/

/-! ## Pieces of the Go standard library used by the sources -/

/-- Go `error` values, as far as the sources tell them apart: the two sentinel errors of
`internal/github/client.go` and every other error (transport, JSON, `fmt.Errorf`). -/
inductive GoError where
  | ErrNotFound
  | ErrRateLimited
  | other (msg : String)
deriving DecidableEq, Repr

deriving instance DecidableEq for Except

/-- Wrap an integer to the range of a Go `int64` (two's complement). -/
def wrapInt64 (x : Int) : Int := (x + 2 ^ 63) % 2 ^ 64 - 2 ^ 63

/-- Go `a - b` on `int64` operands. -/
def subInt64 (a b : Int) : Int := wrapInt64 (a - b)

namespace strings

/-- Model of `strings.SplitN(s, sep, n)` for a one-character separator and `n ≥ 0`, on
the characters of `s`: at most `n` pieces, the last one being the unsplit remainder. -/
def splitNChars (sep : Char) : Nat → List Char → List (List Char)
  | 0, _ => []
  | 1, s => [s]
  | n + 2, s =>
    match s.span (fun c => c != sep) with
    | (a, []) => [a]
    | (a, _ :: rest) => a :: splitNChars sep (n + 1) rest

/-- Model of `strings.SplitN(s, sep, n)` for a one-character separator. -/
def SplitN (s : String) (sep : Char) (n : Nat) : List String :=
  (splitNChars sep n s.data).map String.mk

/-- Model of `strings.Trim(s, cutset)` for a one-character cutset: all leading and all
trailing occurrences of the character are removed. -/
def Trim (s : String) (cut : Char) : String :=
  String.mk ((s.data.dropWhile (fun c => c == cut)).reverse.dropWhile (fun c => c == cut)).reverse

end strings

namespace strconv

/-- The two error kinds of `strconv.NumError`. -/
inductive NumError where
  | ErrSyntax
  | ErrRange
deriving DecidableEq, Repr

/-- The digit loop of `strconv.ParseUint(s, 10, 64)` from accumulator `n`: a byte that is
not a decimal digit is a syntax error with value 0; an overflow is a range error with
value `2^64 - 1`, reported as soon as it is met (the rest of the input is not looked at). -/
def parseUintLoop : List Char → Nat → Nat × Option NumError
  | [], n => (n, none)
  | c :: cs, n =>
    if '0' ≤ c ∧ c ≤ '9' then
      if n ≥ (2 ^ 64 - 1) / 10 + 1 then (2 ^ 64 - 1, some NumError.ErrRange)
      else
        let n1 := n * 10 + (c.toNat - 48)
        if n1 > 2 ^ 64 - 1 then (2 ^ 64 - 1, some NumError.ErrRange)
        else parseUintLoop cs n1
    else (0, some NumError.ErrSyntax)

/-- Model of `strconv.ParseUint(s, 10, 64)`. -/
def ParseUint (s : List Char) : Nat × Option NumError :=
  match s with
  | [] => (0, some NumError.ErrSyntax)
  | _ => parseUintLoop s 0

/-- Model of `strconv.ParseInt(s, 10, 64)`: optional sign, then `ParseUint`; a syntax
error gives 0, a range error gives the nearest `int64` bound. -/
def ParseInt (s : String) : Int × Option NumError :=
  match s.data with
  | [] => (0, some NumError.ErrSyntax)
  | c :: cs =>
    let neg := c == '-'
    let digits := if c == '+' ∨ c == '-' then cs else c :: cs
    match ParseUint digits with
    | (_, some NumError.ErrSyntax) => (0, some NumError.ErrSyntax)
    | (un, _) =>
      if ¬ neg ∧ un ≥ 2 ^ 63 then (2 ^ 63 - 1, some NumError.ErrRange)
      else if neg ∧ un > 2 ^ 63 then (-(2 ^ 63), some NumError.ErrRange)
      else (if neg then -(un : Int) else (un : Int), none)

end strconv

namespace time

/-- A `time.Duration` is an `int64` count of nanoseconds. -/
abbrev Duration := Int

def Second : Duration := 1000000000

def Minute : Duration := 60 * Second

def minDuration : Duration := -(2 ^ 63)

def maxDuration : Duration := 2 ^ 63 - 1

/-- Seconds between the internal epoch of `time.Time` (year 1) and the Unix epoch. -/
def unixToInternal : Int := 62135596800

/-- A `time.Time` without monotonic reading: seconds since year 1 and nanoseconds. -/
structure Time where
  sec : Int
  nsec : Int
deriving DecidableEq, Repr

/-- Model of `time.Unix(sec, nsec)`: the seconds are shifted to the internal epoch in
`int64` arithmetic. -/
def Unix (sec nsec : Int) : Time :=
  ⟨wrapInt64 (sec + nsec / 1000000000 + unixToInternal), nsec % 1000000000⟩

/-- The instant `time.Now()` returns when the wall clock reads `clock` Unix nanoseconds. -/
def Now (clock : Int) : Time :=
  ⟨clock / 1000000000 + unixToInternal, clock % 1000000000⟩

/-- Model of `t.Before(u)`. -/
def Before (t u : Time) : Bool :=
  decide (t.sec < u.sec ∨ (t.sec = u.sec ∧ t.nsec < u.nsec))

/-- Model of `t.Sub(u)`: the difference in nanoseconds, saturated to the range of a
`Duration` when it does not fit. -/
def Sub (t u : Time) : Duration :=
  let d := (t.sec - u.sec) * Second + (t.nsec - u.nsec)
  if minDuration ≤ d ∧ d ≤ maxDuration then d
  else if Before t u then minDuration
  else maxDuration

/-- Model of `time.Until(t)` when the wall clock reads `clock` Unix nanoseconds. -/
def Until (t : Time) (clock : Int) : Duration := Sub t (Now clock)

end time

/-! ## `internal/github/types.go` -/

namespace github

structure Actor where
  Login : String
deriving DecidableEq, Repr

structure Repo where
  FullName : String
deriving DecidableEq, Repr

/-- The struct `Event`.  The field `Type` of the source is `Type_` here. -/
structure Event where
  ID : String
  Type_ : String
  CreatedAt : Int
  Actor : Option Actor
  Repo : Option Repo
  RawPayload : String
deriving DecidableEq, Repr

structure PushCommit where
  SHA : String
deriving DecidableEq, Repr

structure PushEventPayload where
  Before : String
  After : String
  Head : String
  Commits : List PushCommit
deriving DecidableEq, Repr

structure CommitStats where
  SHA : String
  Additions : Int
  Deletions : Int
  Total : Int
  Net : Int
  Author : String
  CommittedAt : Int
deriving DecidableEq, Repr

/-- The anonymous struct behind `CommitAPIResponse.Stats`; a `nil` pointer is `none`. -/
structure APIStats where
  Additions : Option Int
  Deletions : Option Int
  Total : Option Int
deriving DecidableEq, Repr

/-- The anonymous struct `CommitDetail.Author`. -/
structure CommitAuthor where
  Name : String
  Email : String
  Date : Int
deriving DecidableEq, Repr

structure CommitDetail where
  Author : CommitAuthor
deriving DecidableEq, Repr

structure CommitAPIResponse where
  SHA : String
  Commit : CommitDetail
  Stats : Option APIStats
deriving DecidableEq, Repr

end github

/-! ## `internal/store/store.go` -/

namespace store

structure PushEventRow where
  ID : String
  Type_ : String
  CreatedAt : Int
  ActorLogin : String
  Repo : String
  RawPayload : String
deriving DecidableEq, Repr

structure CommitStatsRow where
  Sha : String
  Repo : String
  Author : String
  CommittedAt : Int
  Additions : Int
  Deletions : Int
  Total : Int
  Net : Int
deriving DecidableEq, Repr

end store

/-! ## `internal/pubsub/job.go`, `internal/pubsub/producer.go` -/

namespace pubsub

structure CommitJob where
  EventID : String
  Owner : String
  Repo : String
  SHA : String
deriving DecidableEq, Repr

/-- A line written to the component's logger: level and message. -/
structure LogLine where
  level : String
  msg : String
deriving DecidableEq, Repr

/-- What a `Producer` is built from and runs against.

* `FetchEvents hist etag` is the answer of the injected `EventsFetcher` to a call with
  cursor `etag`, `hist` being the cursors of the calls made before.
* `InsertPushEvent hist row` is the answer `(inserted, err)` of the injected
  `store.Store`, `hist` being the rows of the calls made before.
* `Unmarshal raw` is the outcome of `json.Unmarshal(raw, payload)` on a fresh payload.
* `ctxDone k` tells, for the `k`-th `select` the producer executes (counted from 0),
  whether the case `<-ctx.Done()` is the one taken.  The other case of that `select`
  (`default`, the channel send, or the poll timer) is taken otherwise. -/
structure ProducerEnv where
  FetchEvents : List String → String → List github.Event × String × Option GoError
  InsertPushEvent : List store.PushEventRow → store.PushEventRow → Bool × Option GoError
  Unmarshal : String → Except GoError github.PushEventPayload
  ctxDone : Nat → Bool

/-- The variable `etag` of `Producer.Run` and the record of what the producer has done. -/
structure ProducerState where
  etag : String
  selects : Nat
  fetches : List String
  inserts : List store.PushEventRow
  sent : List CommitJob
  polls : Nat
  logs : List LogLine
deriving DecidableEq, Repr

/-- The method `Producer.eventToRow`. -/
def eventToRow (e : github.Event) : store.PushEventRow :=
  { ID := e.ID
    Type_ := e.Type_
    CreatedAt := e.CreatedAt
    ActorLogin := match e.Actor with
      | some a => a.Login
      | none => ""
    Repo := match e.Repo with
      | some r => r.FullName
      | none => ""
    RawPayload := e.RawPayload }

/-- The function `splitRepo`. -/
def splitRepo (r : Option github.Repo) : String × String :=
  match r with
  | none => ("", "")
  | some r =>
    match strings.SplitN r.FullName '/' 2 with
    | [owner, repo] => (owner, repo)
    | _ => (r.FullName, "")

/-- Lines 72-85 of `producer.go`: the non-empty SHAs of the payload's commits, in order,
or else the tip (`Head`, else `After`) when there is none. -/
def commitSHAs (payload : github.PushEventPayload) : List String :=
  let shas := (payload.Commits.filter (fun c => c.SHA != "")).map (fun c => c.SHA)
  if shas.length = 0 then
    if payload.Head ≠ "" then shas ++ [payload.Head]
    else if payload.After ≠ "" then shas ++ [payload.After]
    else shas
  else shas

/-- Lines 87-95 of `producer.go`: the loop `for _, sha := range shas` with its `select`.
The second component is `true` when `Run` has returned (the `ctx.Done()` case). -/
def enqueue (env : ProducerEnv) (e : github.Event) (owner repo : String) :
    List String → ProducerState → ProducerState × Bool
  | [], st => (st, false)
  | sha :: rest, st =>
    let job : CommitJob := { EventID := e.ID, Owner := owner, Repo := repo, SHA := sha }
    if env.ctxDone st.selects then
      ({ st with selects := st.selects + 1, logs := st.logs ++ [⟨"INFO", "producer stopping"⟩] }, true)
    else
      enqueue env e owner repo rest { st with selects := st.selects + 1, sent := st.sent ++ [job] }

/-- Lines 55-95 of `producer.go`: the body of `for _, e := range events` for one event.
The second component is `true` when `Run` has returned. -/
def processEvent (env : ProducerEnv) (e : github.Event) (st : ProducerState) :
    ProducerState × Bool :=
  if e.Type_ ≠ "PushEvent" then (st, false)
  else
    let row := eventToRow e
    let ans := env.InsertPushEvent st.inserts row
    let st := { st with inserts := st.inserts ++ [row] }
    match ans with
    | (_, some _) => ({ st with logs := st.logs ++ [⟨"WARN", "insert push event"⟩] }, false)
    | (false, none) => (st, false)
    | (true, none) =>
      match env.Unmarshal e.RawPayload with
      | .error _ => ({ st with logs := st.logs ++ [⟨"WARN", "parse push payload"⟩] }, false)
      | .ok payload =>
        let (owner, repo) := splitRepo e.Repo
        let shas := commitSHAs payload
        enqueue env e owner repo shas
          { st with logs := st.logs ++ [⟨"INFO", "push event processed"⟩] }

/-- Lines 54-96 of `producer.go`: the loop `for _, e := range events`. -/
def processEvents (env : ProducerEnv) : List github.Event → ProducerState → ProducerState × Bool
  | [], st => (st, false)
  | e :: rest, st =>
    match processEvent env e st with
    | (st1, true) => (st1, true)
    | (st1, false) => processEvents env rest st1

/-- The method `Producer.Run`, for at most `fuel` passes of its outer loop.  The second
component is `true` when `Run` has returned and `false` when it is still looping after
`fuel` passes. -/
def Run (env : ProducerEnv) : Nat → ProducerState → ProducerState × Bool
  | 0, st => (st, false)
  | fuel + 1, st =>
    if env.ctxDone st.selects then
      ({ st with selects := st.selects + 1, logs := st.logs ++ [⟨"INFO", "producer stopping"⟩] }, true)
    else
      let st := { st with selects := st.selects + 1 }
      let ans := env.FetchEvents st.fetches st.etag
      let st := { st with fetches := st.fetches ++ [st.etag] }
      match ans with
      | (_, _, some _) => Run env fuel { st with logs := st.logs ++ [⟨"WARN", "fetch events"⟩] }
      | (events, newEtag, none) =>
        let st := { st with etag := newEtag }
        let st := if events.length > 0 then
            { st with logs := st.logs ++ [⟨"INFO", "events fetched"⟩] } else st
        match processEvents env events st with
        | (st1, true) => (st1, true)
        | (st1, false) =>
          if env.ctxDone st1.selects then
            ({ st1 with selects := st1.selects + 1,
                        logs := st1.logs ++ [⟨"INFO", "producer stopping"⟩] }, true)
          else Run env fuel { st1 with selects := st1.selects + 1, polls := st1.polls + 1 }

/-- The state in which `Producer.Run` starts: `var etag string` and nothing done yet. -/
def ProducerState.init : ProducerState :=
  { etag := "", selects := 0, fetches := [], inserts := [], sent := [], polls := 0,
    logs := [⟨"INFO", "producer running"⟩] }

/-! ## `internal/pubsub/consumer.go` -/

/-- What a `Consumer` is built from and runs against.

* `GetCommitStats hist owner repo ref` is the answer `(stats, err)` of the injected
  `CommitStatsFetcher`, `hist` being the arguments of the calls made before; a `nil`
  `*CommitStats` is `none`.
* `InsertCommitStats hist row` is the answer `(inserted, err)` of the injected store.
* `ctxDone k` tells, for the `k`-th `select` of the worker, whether the case
  `<-ctx.Done()` is the one taken. -/
structure ConsumerEnv where
  GetCommitStats : List (String × String × String) → String → String → String →
    Option github.CommitStats × Option GoError
  InsertCommitStats : List store.CommitStatsRow → store.CommitStatsRow → Bool × Option GoError
  ctxDone : Nat → Bool

/-- The record of what one worker has done.  `panicked` is set when the worker
dereferenced a `nil` `*CommitStats`. -/
structure ConsumerState where
  selects : Nat
  fetches : List (String × String × String)
  inserts : List store.CommitStatsRow
  logs : List LogLine
  panicked : Bool
deriving DecidableEq, Repr

/-- The method `Consumer.process`. -/
def process (env : ConsumerEnv) (job : CommitJob) (st : ConsumerState) : ConsumerState :=
  let ans := env.GetCommitStats st.fetches job.Owner job.Repo job.SHA
  let st := { st with fetches := st.fetches ++ [(job.Owner, job.Repo, job.SHA)] }
  match ans with
  | (_, some err) =>
    if err = GoError.ErrNotFound then
      { st with logs := st.logs ++ [⟨"DEBUG", "commit not found, skipping"⟩] }
    else
      { st with logs := st.logs ++ [⟨"WARN", "get commit stats"⟩] }
  | (none, none) => { st with panicked := true }
  | (some stats, none) =>
    let row : store.CommitStatsRow :=
      { Sha := stats.SHA
        Repo := job.Owner ++ "/" ++ job.Repo
        Author := stats.Author
        CommittedAt := stats.CommittedAt
        Additions := stats.Additions
        Deletions := stats.Deletions
        Total := stats.Total
        Net := stats.Net }
    let ins := env.InsertCommitStats st.inserts row
    let st := { st with inserts := st.inserts ++ [row] }
    match ins with
    | (_, some _) => { st with logs := st.logs ++ [⟨"WARN", "insert commit stats"⟩] }
    | (true, none) => { st with logs := st.logs ++ [⟨"DEBUG", "commit stats saved"⟩] }
    | (false, none) => st

/-- The method `Consumer.Run` of one worker, on a channel that delivers the jobs of
`queue` in order and is then closed: each pass of the loop is one `select`, which either
takes `<-ctx.Done()` and returns, or receives (a job, or the end of the channel). -/
def Consumer.Run (env : ConsumerEnv) : List CommitJob → ConsumerState → ConsumerState
  | [], st =>
    if env.ctxDone st.selects then
      { st with selects := st.selects + 1,
                logs := st.logs ++ [⟨"DEBUG", "consumer worker stopping"⟩] }
    else
      { st with selects := st.selects + 1,
                logs := st.logs ++ [⟨"DEBUG", "consumer jobs channel closed"⟩] }
  | job :: rest, st =>
    if env.ctxDone st.selects then
      { st with selects := st.selects + 1,
                logs := st.logs ++ [⟨"DEBUG", "consumer worker stopping"⟩] }
    else
      let st1 := process env job { st with selects := st.selects + 1 }
      if st1.panicked then st1 else Consumer.Run env rest st1

end pubsub

/-! ## `internal/github/client.go` -/

namespace github

/-- An HTTP response as the client reads it: status, the two headers it looks at
(`Header.Get` gives `""` for an absent header), and `Body`, the outcome of
`io.ReadAll(resp.Body)` followed by `json.Unmarshal` into a value of type `β`. -/
structure Response (β : Type) where
  StatusCode : Int
  Status : String
  ETag : String
  RateLimitReset : String
  Body : Except GoError β

/-- One round trip: the outcome of `c.httpClient.Do(req)`, and the wall clock (Unix
nanoseconds) that `time.Until` reads while the response is handled. -/
structure Exchange (β : Type) where
  Do : Except GoError (Response β)
  now : Int

/-- The remote source seen from one call: `NewRequest` is the error, if any, of
`http.NewRequestWithContext` for the call's URL, and `Do k` is the round trip of the
`k`-th request sent (counted from 0). -/
structure Source (β : Type) where
  NewRequest : Option GoError
  Do : Nat → Exchange β

/-- What a call has done so far: the number of requests sent and the durations passed to
`time.Sleep`, in order. -/
structure Net where
  requests : Nat
  sleeps : List time.Duration
deriving DecidableEq, Repr

/-- A call of `time.Sleep(d)`. -/
def Net.Sleep (n : Net) (d : time.Duration) : Net := { n with sleeps := n.sleeps ++ [d] }

/-- The test guarding the back-off of the `http.StatusForbidden` case (the same lines in
`FetchEvents` and `GetCommitStats`): the time to sleep when the response carries a
reset header that parses to a positive timestamp less than 5 minutes ahead. -/
def rateLimitWait (reset : String) (now : Int) : Option time.Duration :=
  if reset ≠ "" then
    let ts := (strconv.ParseInt reset).1
    if ts > 0 then
      let wait := time.Until (time.Unix ts 0) now
      if wait > 0 ∧ wait < 5 * time.Minute then some wait else none
    else none
  else none

/-- The loop `for attempt := 0; attempt < 3; attempt++` of the 5xx case, entered at
`attempt` with `todo` passes left: sleep `1<<attempt` seconds, call the method again
(`call`), return its result if it has no error, return `last r` if this was attempt 2.
`after` is the statement after the loop.  `none` is a call that has not returned. -/
def retryLoop {ρ : Type} (call : Net → Net × Option ρ) (err : ρ → Option GoError)
    (last : ρ → ρ) (after : ρ) : Nat → Nat → Net → Net × Option ρ
  | 0, _, n => (n, some after)
  | todo + 1, attempt, n =>
    match call (n.Sleep (((1 <<< attempt : Nat) : Int) * time.Second)) with
    | (n1, none) => (n1, none)
    | (n1, some r) =>
      if err r = none then (n1, some r)
      else if attempt = 2 then (n1, some (last r))
      else retryLoop call err last after todo (attempt + 1) n1

/-- The triple `FetchEvents` returns; a `nil` slice is `[]`. -/
structure EventsResult where
  events : List Event
  newEtag : String
  err : Option GoError
deriving DecidableEq, Repr

/-- The method `Client.FetchEvents`.  The method calls itself; `fuel` bounds the depth of
these calls, and the result is `none` when the call has not returned within that depth. -/
def FetchEvents (src : Source (List Event)) : Nat → String → Net → Net × Option EventsResult
  | 0, _, n => (n, none)
  | fuel + 1, etag, n =>
    match src.NewRequest with
    | some e => (n, some ⟨[], "", some e⟩)
    | none =>
      let x := src.Do n.requests
      let n := { n with requests := n.requests + 1 }
      match x.Do with
      | .error e => (n, some ⟨[], "", some e⟩)
      | .ok resp =>
        let newEtag := strings.Trim resp.ETag '\x22'
        if resp.StatusCode = 304 then (n, some ⟨[], newEtag, none⟩)
        else if resp.StatusCode = 403 then
          match rateLimitWait resp.RateLimitReset x.now with
          | some wait => FetchEvents src fuel etag (n.Sleep wait)
          | none => (n, some ⟨[], newEtag, some GoError.ErrRateLimited⟩)
        else if resp.StatusCode = 200 then
          match resp.Body with
          | .error e => (n, some ⟨[], newEtag, some e⟩)
          | .ok events => (n, some ⟨events, newEtag, none⟩)
        else if resp.StatusCode ≥ 500 then
          retryLoop (FetchEvents src fuel etag) (fun r => r.err)
            (fun r => ⟨[], newEtag, r.err⟩)
            ⟨[], newEtag, some (GoError.other ("events API: " ++ resp.Status))⟩ 3 0 n
        else (n, some ⟨[], newEtag, some (GoError.other ("events API: " ++ resp.Status))⟩)

/-- The pair `GetCommitStats` returns; a `nil` pointer is `none`. -/
structure StatsResult where
  stats : Option CommitStats
  err : Option GoError
deriving DecidableEq, Repr

/-- Lines 169-192 of `client.go`: the `CommitStats` built from a decoded response.  Go `int`
is 64 bits wide here, so the conversions `int64(*p)` keep the value; the subtraction is
the one of `int64`. -/
def statsOf (api : CommitAPIResponse) : CommitStats :=
  let additions : Int := match api.Stats with
    | some s => (match s.Additions with
      | some a => a
      | none => 0)
    | none => 0
  let deletions : Int := match api.Stats with
    | some s => (match s.Deletions with
      | some d => d
      | none => 0)
    | none => 0
  let total : Int := match api.Stats with
    | some s => (match s.Total with
      | some t => t
      | none => 0)
    | none => 0
  let net := subInt64 additions deletions
  { SHA := api.SHA
    Additions := additions
    Deletions := deletions
    Total := total
    Net := net
    Author := api.Commit.Author.Name
    CommittedAt := api.Commit.Author.Date }

/-- The method `Client.GetCommitStats` (the URL, and so `owner`, `repo` and `ref`, reach
the model through `src`).  `fuel` bounds the depth of the method's calls of itself, and
the result is `none` when the call has not returned within that depth. -/
def GetCommitStats (src : Source CommitAPIResponse) : Nat → Net → Net × Option StatsResult
  | 0, n => (n, none)
  | fuel + 1, n =>
    match src.NewRequest with
    | some e => (n, some ⟨none, some e⟩)
    | none =>
      let x := src.Do n.requests
      let n := { n with requests := n.requests + 1 }
      match x.Do with
      | .error e => (n, some ⟨none, some e⟩)
      | .ok resp =>
        if resp.StatusCode = 404 then (n, some ⟨none, some GoError.ErrNotFound⟩)
        else if resp.StatusCode = 403 then
          match rateLimitWait resp.RateLimitReset x.now with
          | some wait => GetCommitStats src fuel (n.Sleep wait)
          | none => (n, some ⟨none, some GoError.ErrRateLimited⟩)
        else if resp.StatusCode = 200 then
          match resp.Body with
          | .error e => (n, some ⟨none, some e⟩)
          | .ok api => (n, some ⟨some (statsOf api), none⟩)
        else if resp.StatusCode ≥ 500 then
          retryLoop (GetCommitStats src fuel) (fun r => r.err)
            (fun r => ⟨none, r.err⟩)
            ⟨none, some (GoError.other ("commit API: " ++ resp.Status))⟩ 3 0 n
        else (n, some ⟨none, some (GoError.other ("commit API: " ++ resp.Status))⟩)

/-- The state of a call that has done nothing yet. -/
def Net.start : Net := { requests := 0, sleeps := [] }

end github

/-! ## `internal/config/config.go` -/

namespace strconv

/-- Model of `strconv.Atoi(s)`: as the library documents it, `ParseInt(s, 10, 0)`
converted to type `int`, which is 64 bits wide here. -/
def Atoi (s : String) : Int × Option NumError := ParseInt s

end strconv

namespace config

structure Config where
  GHToken : String
  DatabaseURL : String
  PollIntervalSec : Int
  HTTPAddr : String
  ConsumerWorkers : Int
  ChannelSize : Int
deriving DecidableEq, Repr

def DefaultPollIntervalSec : Int := 60

def DefaultHTTPAddr : String := ":8080"

def DefaultConsumerWorkers : Int := 3

def DefaultChannelSize : Int := 1000

/-- The function `Load`.  The environment is `getenv`, the function `os.Getenv`, which
gives `""` for a variable that is not set. -/
def Load (getenv : String → String) : Config :=
  let c : Config :=
    { GHToken := getenv "GH_TOKEN"
      DatabaseURL := getenv "DATABASE_URL"
      PollIntervalSec := DefaultPollIntervalSec
      HTTPAddr := DefaultHTTPAddr
      ConsumerWorkers := DefaultConsumerWorkers
      ChannelSize := DefaultChannelSize }
  let c :=
    if getenv "POLL_INTERVAL_SEC" ≠ "" then
      match strconv.Atoi (getenv "POLL_INTERVAL_SEC") with
      | (n, none) => if n > 0 then { c with PollIntervalSec := n } else c
      | (_, some _) => c
    else c
  let c :=
    if getenv "HTTP_ADDR" ≠ "" then { c with HTTPAddr := getenv "HTTP_ADDR" } else c
  let c :=
    if getenv "CONSUMER_WORKERS" ≠ "" then
      match strconv.Atoi (getenv "CONSUMER_WORKERS") with
      | (n, none) => if n > 0 then { c with ConsumerWorkers := n } else c
      | (_, some _) => c
    else c
  let c :=
    if getenv "CHANNEL_SIZE" ≠ "" then
      match strconv.Atoi (getenv "CHANNEL_SIZE") with
      | (n, none) => if n > 0 then { c with ChannelSize := n } else c
      | (_, some _) => c
    else c
  c

end config

/-! ## `cmd/server/main.go` -/

namespace cmd.server

/-- The calls that `main` defers. -/
inductive Deferred where
  | poolClose
  | closeJobs
  | shutdownCancel
deriving DecidableEq, Repr

/-- The part of the scheduling that `main` does not control: `producerExit` is the number
of statements that `main` completes after `cancel()` before the goroutine of
`Producer.Run` has observed the cancellation and returned (cancellation is cooperative:
`Run` looks at `ctx.Done()` only at its `select`s), and `producerSends` tells whether
`Run`, if it is still running once the channel is closed, takes the send case of its
`select`. -/
structure Schedule where
  producerExit : Nat
  producerSends : Bool
deriving DecidableEq, Repr

/-- The state of the process as far as the jobs channel is concerned.  `closes` has one
entry for every executed `close(jobs)`, telling whether `Producer.Run` was still running
at that moment; `panic` is the panic in flight, if any; `crashed` is set when a panic in
another goroutine has ended the process. -/
structure MainState where
  jobsClosed : Bool
  cancelled : Bool
  sinceCancel : Nat
  deferred : List Deferred
  closes : List Bool
  workersExited : Bool
  panic : Option String
  crashed : Bool
deriving DecidableEq, Repr

/-- Whether the goroutine of `Producer.Run` is still running. -/
def producerRunning (sched : Schedule) (s : MainState) : Bool :=
  !s.cancelled || decide (s.sinceCancel < sched.producerExit)

/-- A statement of `main` in normal flow: it is not executed once a panic is in flight or
the process has crashed. -/
def stmt (f : MainState → MainState) (s : MainState) : MainState :=
  if s.panic.isSome || s.crashed then s
  else
    let s1 := f s
    if s.cancelled then { s1 with sinceCancel := s1.sinceCancel + 1 } else s1

/-- The statement `defer f()`. -/
def deferCall (d : Deferred) (s : MainState) : MainState :=
  { s with deferred := d :: s.deferred }

/-- The call `cancel()`. -/
def cancel (s : MainState) : MainState := { s with cancelled := true }

/-- The built-in `close(jobs)`: closing a closed channel panics.  When `Producer.Run` is
still running and goes on to send on the closed channel, that send panics in its
goroutine and the process ends. -/
def closeJobs (sched : Schedule) (s : MainState) : MainState :=
  let running := producerRunning sched s
  if s.jobsClosed then
    { s with closes := s.closes ++ [running], panic := some "close of closed channel" }
  else if running && sched.producerSends then
    { s with jobsClosed := true, closes := s.closes ++ [running],
             panic := some "send on closed channel", crashed := true }
  else
    { s with jobsClosed := true, closes := s.closes ++ [running] }

/-- The call `wg.Wait()`: the workers, whose context is never cancelled, return once the
channel is closed and drained. -/
def wgWait (s : MainState) : MainState :=
  if s.jobsClosed then { s with workersExited := true } else s

/-- The deferred calls run when `main` returns or panics, most recent first; they run
also while a panic is in flight, but not after the process has crashed. -/
def runDeferred (sched : Schedule) : List Deferred → MainState → MainState
  | [], s => { s with deferred := [] }
  | d :: rest, s =>
    if s.crashed then s
    else
      match d with
      | Deferred.closeJobs => runDeferred sched rest (closeJobs sched { s with deferred := rest })
      | Deferred.poolClose => runDeferred sched rest { s with deferred := rest }
      | Deferred.shutdownCancel => runDeferred sched rest { s with deferred := rest }

/-- The function `main`, on the path that reaches `<-sig` and receives a signal: lines
36 (`defer pool.Close()`), 43-44 (`jobs := make(...)`, `defer close(jobs)`), 79
(`cancel()`), 80 (`close(jobs)`), 81 (`wg.Wait()`), 84 (`defer shutdownCancel()`), 85
(`srv.Shutdown`), and the return. -/
def main (sched : Schedule) : MainState :=
  let s : MainState :=
    { jobsClosed := false, cancelled := false, sinceCancel := 0, deferred := [],
      closes := [], workersExited := false, panic := none, crashed := false }
  let s := stmt (deferCall Deferred.poolClose) s
  let s := stmt (deferCall Deferred.closeJobs) s
  let s := stmt cancel s
  let s := stmt (closeJobs sched) s
  let s := stmt wgWait s
  let s := stmt (deferCall Deferred.shutdownCancel) s
  let s := stmt id s
  runDeferred sched s.deferred s

end cmd.server

/-! ## Reference definitions and concrete inputs used by the theorems -/

/-- The part of `s` before its first `'/'`; all of `s` when it has none. -/
def beforeFirstSlash (s : String) : String :=
  String.mk (s.data.takeWhile (fun c => c != '/'))

/-- The part of `s` after its first `'/'`; empty when it has none. -/
def afterFirstSlash (s : String) : String :=
  String.mk ((s.data.dropWhile (fun c => c != '/')).drop 1)

namespace pubsub

/-- The payload of the first event of `TestProducer_EnqueuesJobsForInsertedEvent`. -/
def payloadTwoCommits : github.PushEventPayload :=
  { Before := "", After := "", Head := "", Commits := [⟨"sha1"⟩, ⟨"sha2"⟩] }

/-- The payload of `TestProducer_EnqueuesTipCommitWhenCommitsEmpty`. -/
def payloadTipOnly : github.PushEventPayload :=
  { Before := "", After := "", Head := "abc123tip", Commits := [] }

/-- The first event of `TestProducer_EnqueuesJobsForInsertedEvent`. -/
def eventTwoCommits : github.Event :=
  { ID := "e1", Type_ := "PushEvent", CreatedAt := 0, Actor := none,
    Repo := some ⟨"owner/repo"⟩,
    RawPayload := "\x7b\"before\":\"\",\"after\":\"\",\"head\":\"\",\"commits\":[\x7b\"sha\":\"sha1\"\x7d,\x7b\"sha\":\"sha2\"\x7d]\x7d" }

/-- The event of `TestProducer_EnqueuesTipCommitWhenCommitsEmpty`. -/
def eventTipOnly : github.Event :=
  { ID := "e1", Type_ := "PushEvent", CreatedAt := 0, Actor := none,
    Repo := some ⟨"owner/repo"⟩,
    RawPayload := "\x7b\"before\":\"\",\"after\":\"\",\"head\":\"abc123tip\",\"commits\":null\x7d" }

/-- An event that is not a push. -/
def eventWatch : github.Event :=
  { ID := "e9", Type_ := "WatchEvent", CreatedAt := 0, Actor := none,
    Repo := some ⟨"owner/repo"⟩, RawPayload := "\x7b\"action\":\"started\"\x7d" }

/-- A producer environment in the manner of the tests of `producer_test.go`: the first
fetch returns `batch` and the later ones nothing, the store reports every row as
`inserted`, the two payloads above decode as written, and the context is cancelled
from the `cancelAt`-th `select` on. -/
def testEnv (batch : List github.Event) (inserted : Bool) (cancelAt : Nat) : ProducerEnv :=
  { FetchEvents := fun hist _ =>
      if hist.length = 0 then (batch, "etag1", none) else ([], "etag1", none)
    InsertPushEvent := fun _ _ => (inserted, none)
    Unmarshal := fun raw =>
      if raw = eventTwoCommits.RawPayload then .ok payloadTwoCommits
      else if raw = eventTipOnly.RawPayload then .ok payloadTipOnly
      else .error (GoError.other "unexpected end of JSON input")
    ctxDone := fun k => decide (cancelAt ≤ k) }

end pubsub

namespace pubsub

/-- The job of `TestConsumer_ProcessJob_InsertsStats`. -/
def testJob : CommitJob := { EventID := "e1", Owner := "o", Repo := "r", SHA := "sha1" }

/-- A second job, for the next commit of the same repository. -/
def testJobNext : CommitJob := { EventID := "e1", Owner := "o", Repo := "r", SHA := "sha2" }

/-- The statistics of `TestConsumer_ProcessJob_InsertsStats`. -/
def testStats : github.CommitStats :=
  { SHA := "sha1", Additions := 10, Deletions := 3, Total := 13, Net := 7,
    Author := "author", CommittedAt := 0 }

/-- A worker environment in the manner of the tests of `consumer_test.go`: the fetcher
answers `ans` to every call, the store answers `(inserted, nil)`, and the context is never
cancelled. -/
def testConsumerEnv (ans : Option github.CommitStats × Option GoError) (inserted : Bool) :
    ConsumerEnv :=
  { GetCommitStats := fun _ _ _ _ => ans
    InsertCommitStats := fun _ _ => (inserted, none)
    ctxDone := fun _ => false }

/-- A worker that has done nothing yet. -/
def ConsumerState.init : ConsumerState :=
  { selects := 0, fetches := [], inserts := [], logs := [], panicked := false }

end pubsub

namespace github

/-- A response with the given status, no `ETag`, no `X-RateLimit-Reset`, and a body the
client does not read.  The clock, which the client reads only for a 403 response that
carries a reset header, is set to 1700000000 s. -/
def statusOnly (β : Type) (code : Int) (status : String) : Exchange β :=
  { Do := .ok { StatusCode := code, Status := status, ETag := "", RateLimitReset := "",
                Body := .error (GoError.other "body not read") }
    now := 1700000000000000000 }

/-- A 403 response whose `X-RateLimit-Reset` header is `reset`, handled while the clock
reads `now` nanoseconds. -/
def rateLimited (β : Type) (reset : String) (now : Int) : Exchange β :=
  { Do := .ok { StatusCode := 403, Status := "403 Forbidden", ETag := "",
                RateLimitReset := reset, Body := .error (GoError.other "body not read") }
    now := now }

/-- A 200 response whose body decodes to `v`. -/
def okWith {β : Type} (v : β) : Exchange β :=
  { Do := .ok { StatusCode := 200, Status := "200 OK", ETag := "\"abc\"", RateLimitReset := "",
                Body := .ok v }
    now := 1700000100000000000 }

/-- The source that answers the successive requests with the exchanges of `xs`, and with
`rest` once they are used up. -/
def script {β : Type} (xs : List (Exchange β)) (rest : Exchange β) : Source β :=
  { NewRequest := none, Do := fun k => xs.getD k rest }

/-- A decoded commit: 10 additions, 3 deletions, reported total 13. -/
def apiCommit : CommitAPIResponse :=
  { SHA := "sha1", Commit := { Author := { Name := "author", Email := "a@b.c", Date := 0 } },
    Stats := some { Additions := some 10, Deletions := some 3, Total := some 13 } }

/-- An exchange after which the method returns without calling itself: a transport error,
or a response that is neither a 5xx nor a 403 with a wait to sleep. -/
def Exchange.final {β : Type} (x : Exchange β) : Bool :=
  match x.Do with
  | .error _ => true
  | .ok resp =>
    decide (resp.StatusCode < 500) &&
      (resp.StatusCode != 403 || (rateLimitWait resp.RateLimitReset x.now).isNone)

end github

namespace github

/-- A 304 response whose `ETag` header is `etag` (`""` for a response without the
header). -/
def notModified (etag : String) : Exchange (List Event) :=
  { Do := .ok { StatusCode := 304, Status := "304 Not Modified", ETag := etag,
                RateLimitReset := "", Body := .error (GoError.other "body not read") }
    now := 1700000000000000000 }

end github

namespace pubsub

/-- A producer environment whose fetcher answers every call with an unchanged result (no
event, cursor `v2`, no error) and whose context is cancelled from the `cancelAt`-th
`select` on. -/
def unchangedEnv (cancelAt : Nat) : ProducerEnv :=
  { FetchEvents := fun _ _ => ([], "v2", none)
    InsertPushEvent := fun _ _ => (true, none)
    Unmarshal := fun _ => .error (GoError.other "unexpected end of JSON input")
    ctxDone := fun k => decide (cancelAt ≤ k) }

end pubsub

namespace github

/-- The wait, in nanoseconds, from a clock reading `now` (Unix nanoseconds) until the
instant `ts` (Unix seconds). -/
def resetWait (ts now : Int) : Int := ts * 1000000000 - now

/-- The order of progress on `Net`: at least as many requests, and the sleeps extended. -/
def Net.le (a b : Net) : Prop := a.requests ≤ b.requests ∧ a.sleeps <+: b.sleeps

end github

namespace github

/-- The condition under which a 403 response is to be waited out: its reset header is
present and parses, without error, to a positive timestamp, and the wait until that
timestamp is strictly greater than 0 and strictly less than 5 minutes. -/
def rateLimitWindow (reset : String) (now : Int) : Prop :=
  reset ≠ "" ∧ (strconv.ParseInt reset).2 = none ∧ 0 < (strconv.ParseInt reset).1 ∧
    0 < resetWait (strconv.ParseInt reset).1 now ∧
    resetWait (strconv.ParseInt reset).1 now < 300000000000

instance (reset : String) (now : Int) : Decidable (rateLimitWindow reset now) := by
  unfold rateLimitWindow
  infer_instance

end github

namespace config

/-- The number written by a string of decimal digits. -/
def decimalValue (cs : List Char) : Nat :=
  cs.foldl (fun n c => n * 10 + (c.toNat - 48)) 0

/-- A non-empty string of decimal digits. -/
def isDecimal (s : String) : Prop :=
  s.data ≠ [] ∧ ∀ c, c ∈ s.data → '0' ≤ c ∧ c ≤ '9'

/-- What the claim says of one of the three numeric settings, for the value `v` of its
variable, its default `dflt` and the loaded `field`: `n` when `v` parses as an integer
`n > 0` (in particular when `v` is a string of decimal digits writing a positive number
below `2^63`), the default when `v` is unset or empty, does not parse, or parses to zero
or a negative number, and in all cases a strictly positive number. -/
def loadedAs (v : String) (dflt field : Int) : Prop :=
  (∀ n, strconv.Atoi v = (n, none) → 0 < n → field = n) ∧
  ((v = "" ∨ (strconv.Atoi v).2 ≠ none ∨ (strconv.Atoi v).1 ≤ 0) → field = dflt) ∧
  (isDecimal v → 0 < decimalValue v.data → decimalValue v.data < 2 ^ 63 →
    field = decimalValue v.data) ∧
  0 < field

/-- The environment of `TestLoad_FromEnv`. -/
def envFromTest (key : String) : String :=
  if key = "POLL_INTERVAL_SEC" then "120"
  else if key = "HTTP_ADDR" then ":9090"
  else if key = "CONSUMER_WORKERS" then "5"
  else if key = "CHANNEL_SIZE" then "500"
  else if key = "GH_TOKEN" then "secret"
  else if key = "DATABASE_URL" then "postgres://local/db"
  else ""

/-- The environment of `TestLoad_InvalidValuesUseDefaults`. -/
def envInvalid (key : String) : String :=
  if key = "POLL_INTERVAL_SEC" then "invalid"
  else if key = "CONSUMER_WORKERS" then "0"
  else if key = "CHANNEL_SIZE" then "-1"
  else ""

end config

namespace pubsub

/-- A payload that lists one commit, without SHA, and has a head. -/
def payloadEmptySha : github.PushEventPayload :=
  { Before := "", After := "", Head := "abc123tip", Commits := [⟨""⟩] }

/-- A payload that lists a commit with a SHA and a commit without. -/
def payloadMixed : github.PushEventPayload :=
  { Before := "", After := "", Head := "abc123tip", Commits := [⟨"sha1"⟩, ⟨""⟩] }

/-- A push event with the payload `payloadEmptySha`. -/
def eventEmptySha : github.Event :=
  { ID := "e3", Type_ := "PushEvent", CreatedAt := 0, Actor := none,
    Repo := some ⟨"owner/repo"⟩,
    RawPayload := "\x7b\"head\":\"abc123tip\",\"commits\":[\x7b\"sha\":\"\"\x7d]\x7d" }

/-- A push event with the payload `payloadMixed`. -/
def eventMixed : github.Event :=
  { ID := "e4", Type_ := "PushEvent", CreatedAt := 0, Actor := none,
    Repo := some ⟨"owner/repo"⟩,
    RawPayload := "\x7b\"head\":\"abc123tip\",\"commits\":[\x7b\"sha\":\"sha1\"\x7d,\x7b\"sha\":\"\"\x7d]\x7d" }

/-- The outcome of `json.Unmarshal` into a `PushEventPayload` on the raw payloads of the
events defined in this file; any other input is taken as malformed. -/
def decodePayload (raw : String) : Except GoError github.PushEventPayload :=
  if raw = eventTwoCommits.RawPayload then .ok payloadTwoCommits
  else if raw = eventTipOnly.RawPayload then .ok payloadTipOnly
  else if raw = eventEmptySha.RawPayload then .ok payloadEmptySha
  else if raw = eventMixed.RawPayload then .ok payloadMixed
  else .error (GoError.other "unexpected end of JSON input")

/-- A producer environment made of a store, the decoder `decodePayload`, a fetcher that
returns nothing, and a context cancelled from the `cancelAt`-th `select` on. -/
def envWith (insert : List store.PushEventRow → store.PushEventRow → Bool × Option GoError)
    (cancelAt : Nat) : ProducerEnv :=
  { FetchEvents := fun _ _ => ([], "", none)
    InsertPushEvent := insert
    Unmarshal := decodePayload
    ctxDone := fun k => decide (cancelAt ≤ k) }

/-- A store that reports every row as newly inserted. -/
def freshStore : List store.PushEventRow → store.PushEventRow → Bool × Option GoError :=
  fun _ _ => (true, none)

end pubsub

namespace pubsub

/-- The answers of `Postgres.InsertPushEvent` (`INSERT ... ON CONFLICT (id) DO NOTHING`,
`RowsAffected() > 0`) on a table that was empty before the calls of `hist`, when the
connection does not fail: a row is newly inserted when no earlier call had its `ID`. -/
def dedupStore : List store.PushEventRow → store.PushEventRow → Bool × Option GoError :=
  fun hist row => (decide (row.ID ∉ hist.map (fun r => r.ID)), none)

/-- A push event with the identifier `e1` of `eventTwoCommits` and an empty payload,
which `json.Unmarshal` rejects. -/
def eventMalformedSameID : github.Event :=
  { ID := "e1", Type_ := "PushEvent", CreatedAt := 0, Actor := none,
    Repo := some ⟨"owner/repo"⟩, RawPayload := "" }

/-- A push event with an identifier of its own and an empty payload, which
`json.Unmarshal` rejects. -/
def eventMalformed : github.Event :=
  { ID := "e0", Type_ := "PushEvent", CreatedAt := 0, Actor := none,
    Repo := some ⟨"owner/repo"⟩, RawPayload := "" }

end pubsub

/-! # Theorems -/

/-! ## Lemmas on the producer -/

namespace pubsub

theorem SplitN_two (s : String) :
    strings.SplitN s '/' 2 =
      if s.data.dropWhile (fun c => c != '/') = [] then [s]
      else [beforeFirstSlash s, afterFirstSlash s] := by
  unfold strings.SplitN strings.splitNChars beforeFirstSlash afterFirstSlash
  rw [List.span_eq_take_drop]
  cases h : s.data.dropWhile (fun c => c != '/') with
  | nil =>
    have h2 := List.takeWhile_append_dropWhile (fun c => c != '/') s.data
    rw [h, List.append_nil] at h2
    simp [h2]
  | cons a rest => simp [strings.splitNChars]

/-- The function `splitRepo` cuts the repository's full name (`""` for a `nil` repository,
as in `eventToRow`) at its first `'/'`. -/
theorem splitRepo_eq (e : github.Event) :
    splitRepo e.Repo =
      (beforeFirstSlash (eventToRow e).Repo, afterFirstSlash (eventToRow e).Repo) := by
  cases hr : e.Repo with
  | none => simp [splitRepo, eventToRow, hr, beforeFirstSlash, afterFirstSlash]
  | some r =>
    simp only [splitRepo, eventToRow, hr, SplitN_two]
    by_cases h : r.FullName.data.dropWhile (fun c => c != '/') = []
    · have h2 := List.takeWhile_append_dropWhile (fun c => c != '/') r.FullName.data
      rw [h, List.append_nil] at h2
      simp [h, beforeFirstSlash, afterFirstSlash, h2]
    · simp [h]

theorem enqueue_all (env : ProducerEnv) (e : github.Event) (o r : String) :
    ∀ (shas : List String) (st : ProducerState),
      (∀ i, i < shas.length → env.ctxDone (st.selects + i) = false) →
      enqueue env e o r shas st =
        ({ st with selects := st.selects + shas.length,
                   sent := st.sent ++ shas.map (fun sha => CommitJob.mk e.ID o r sha) },
          false) := by
  intro shas
  induction shas with
  | nil => intro st _; cases st; simp [enqueue]
  | cons sha rest ih =>
    intro st h
    have h0 : env.ctxDone st.selects = false := by simpa using h 0 (by simp)
    have hrest : ∀ i, i < rest.length → env.ctxDone (st.selects + 1 + i) = false := by
      intro i hi
      have := h (i + 1) (by simpa using hi)
      rwa [show st.selects + 1 + i = st.selects + (i + 1) by omega]
    simp only [enqueue, h0]
    rw [ih _ hrest]
    simp [Nat.add_assoc, Nat.add_comm 1]

theorem enqueue_prefix (env : ProducerEnv) (e : github.Event) (o r : String) :
    ∀ (shas : List String) (st : ProducerState),
      ∃ k, k ≤ shas.length ∧
        (enqueue env e o r shas st).1.sent =
          st.sent ++ (shas.take k).map (fun sha => CommitJob.mk e.ID o r sha) ∧
        ((enqueue env e o r shas st).2 = true ↔ k < shas.length) ∧
        (enqueue env e o r shas st).1.inserts = st.inserts := by
  intro shas
  induction shas with
  | nil => intro st; exact ⟨0, by simp [enqueue]⟩
  | cons sha rest ih =>
    intro st
    by_cases h0 : env.ctxDone st.selects = true
    · exact ⟨0, by simp [enqueue, h0]⟩
    · obtain ⟨k, hk, hs, hr, hi⟩ := ih
        { st with selects := st.selects + 1, sent := st.sent ++ [CommitJob.mk e.ID o r sha] }
      refine ⟨k + 1, by simpa using hk, ?_, ?_, ?_⟩
      · simp [enqueue, h0, hs]
      · simp [enqueue, h0, hr]
      · simp [enqueue, h0, hi]

theorem enqueue_cancelled (env : ProducerEnv) (e : github.Event) (o r : String) :
    ∀ (shas : List String) (st : ProducerState) (k : Nat), k < shas.length →
      (∀ i, i < k → env.ctxDone (st.selects + i) = false) →
      env.ctxDone (st.selects + k) = true →
      enqueue env e o r shas st =
        ({ st with selects := st.selects + k + 1,
                   sent := st.sent ++ (shas.take k).map (fun sha => CommitJob.mk e.ID o r sha),
                   logs := st.logs ++ [⟨"INFO", "producer stopping"⟩] }, true) := by
  intro shas
  induction shas with
  | nil => intro st k hk; simp at hk
  | cons sha rest ih =>
    intro st k hk hpre hk1
    cases k with
    | zero =>
      have h0 : env.ctxDone st.selects = true := by simpa using hk1
      simp [enqueue, h0]
    | succ k =>
      have h0 : env.ctxDone st.selects = false := by simpa using hpre 0 (by omega)
      have hpre1 : ∀ i, i < k → env.ctxDone (st.selects + 1 + i) = false := by
        intro i hi
        have := hpre (i + 1) (by omega)
        rwa [show st.selects + 1 + i = st.selects + (i + 1) by omega]
      have hk2 : env.ctxDone (st.selects + 1 + k) = true := by
        rwa [show st.selects + 1 + k = st.selects + (k + 1) by omega]
      simp only [enqueue, h0]
      rw [ih { st with selects := st.selects + 1, sent := st.sent ++ [CommitJob.mk e.ID o r sha] }
        k (by simpa using hk) hpre1 hk2]
      simp [Nat.add_assoc, Nat.add_comm 1]

theorem processEvents_append (env : ProducerEnv) (b : List github.Event) :
    ∀ (a : List github.Event) (st : ProducerState),
      processEvents env (a ++ b) st =
        match processEvents env a st with
        | (s, true) => (s, true)
        | (s, false) => processEvents env b s := by
  intro a
  induction a with
  | nil => intro st; simp [processEvents]
  | cons e rest ih =>
    intro st
    simp only [List.cons_append, processEvents]
    rcases hpe : processEvent env e st with ⟨st1, ret⟩
    cases ret with
    | true => rfl
    | false => exact ih st1

/-- A pass of `Run` whose fetch answers a batch, and in which the loop body returns at an
event `e` of the batch: `Run` returns there, in the state the loop body left. -/
theorem Run_returns_at_event (env : ProducerEnv) (fuel : Nat) (st0 st : ProducerState)
    (pre rest : List github.Event) (e : github.Event) (c : String)
    (h0 : env.ctxDone st0.selects = false)
    (hF : env.FetchEvents st0.fetches st0.etag = (pre ++ e :: rest, c, none))
    (hpre : processEvents env pre
      { st0 with selects := st0.selects + 1, fetches := st0.fetches ++ [st0.etag], etag := c,
                 logs := st0.logs ++ [⟨"INFO", "events fetched"⟩] } = (st, false))
    (hret : (processEvent env e st).2 = true) :
    Run env (fuel + 1) st0 = ((processEvent env e st).1, true) := by
  have hpe : processEvents env (pre ++ e :: rest)
      { st0 with selects := st0.selects + 1, fetches := st0.fetches ++ [st0.etag], etag := c,
                 logs := st0.logs ++ [⟨"INFO", "events fetched"⟩] }
        = ((processEvent env e st).1, true) := by
    rw [processEvents_append, hpre]
    simp only [processEvents]
    rcases h : processEvent env e st with ⟨s1, b⟩
    rw [h] at hret
    simp only at hret
    subst hret
    rfl
  rw [Run]
  simp only [h0, hF, Bool.false_eq_true, if_false]
  have hlen : (pre ++ e :: rest).length > 0 := by simp
  simp only [hlen, if_true]
  rw [hpe]

/-- The loop body on a push event that the store reports as newly inserted and whose
payload decodes: the jobs of `commitSHAs` are enqueued. -/
theorem processEvent_inserted (env : ProducerEnv) (st : ProducerState) (e : github.Event)
    (payload : github.PushEventPayload)
    (hType : e.Type_ = "PushEvent")
    (hIns : env.InsertPushEvent st.inserts (eventToRow e) = (true, none))
    (hPayload : env.Unmarshal e.RawPayload = .ok payload) :
    processEvent env e st =
      enqueue env e (splitRepo e.Repo).1 (splitRepo e.Repo).2 (commitSHAs payload)
        { st with inserts := st.inserts ++ [eventToRow e],
                  logs := st.logs ++ [⟨"INFO", "push event processed"⟩] } := by
  unfold processEvent
  simp only [hType, hIns, hPayload, ne_eq, not_true_eq_false, if_false]

theorem commitSHAs_of_listed (payload : github.PushEventPayload)
    (hne : payload.Commits ≠ [])
    (hsha : ∀ c, c ∈ payload.Commits → c.SHA ≠ "") :
    commitSHAs payload = payload.Commits.map (fun c => c.SHA) := by
  have hf : payload.Commits.filter (fun c => c.SHA != "") = payload.Commits := by
    rw [List.filter_eq_self]
    intro c hc
    simpa using hsha c hc
  unfold commitSHAs
  simp only [hf]
  have hlen : (payload.Commits.map (fun c => c.SHA)).length ≠ 0 := by
    simpa using hne
  rw [if_neg hlen]

end pubsub

/-! ## C1 - C3: the producer's fan-out -/

namespace pubsub

/-- C1 (as stated, refuted).  `Run` on the batch of `TestProducer_EnqueuesJobsForInsertedEvent`
with a context cancelled after the first check of the loop: the event is a push event, its
insert returns `(true, nil)`, its payload lists `sha1` and `sha2`, and yet `Run` returns
without having enqueued any job, because the `select` of the first send takes
`<-ctx.Done()`. -/
theorem C1_counterexample_cancelled_send :
    eventTwoCommits.Type_ = "PushEvent" ∧
    (testEnv [eventTwoCommits] true 1).InsertPushEvent [] (eventToRow eventTwoCommits)
      = (true, none) ∧
    (testEnv [eventTwoCommits] true 1).Unmarshal eventTwoCommits.RawPayload
      = .ok payloadTwoCommits ∧
    payloadTwoCommits.Commits = [⟨"sha1"⟩, ⟨"sha2"⟩] ∧
    (Run (testEnv [eventTwoCommits] true 1) 3 ProducerState.init).2 = true ∧
    (Run (testEnv [eventTwoCommits] true 1) 3 ProducerState.init).1.inserts
      = [eventToRow eventTwoCommits] ∧
    (Run (testEnv [eventTwoCommits] true 1) 3 ProducerState.init).1.sent = [] ∧
    (processEvent (testEnv [eventTwoCommits] true 0) eventTwoCommits ProducerState.init).1.sent
      ≠ [⟨"e1", "owner", "repo", "sha1"⟩, ⟨"e1", "owner", "repo", "sha2"⟩] := by
  decide

/-- C1 (amended).  For a push event whose insert returned `(true, nil)` and whose payload
decodes to commits `c1..cn` (`n ≥ 1`, every SHA non-empty), the loop body of `Producer.Run`
enqueues, in the payload's order, the jobs `CommitJob{e.ID, owner, repo, ci}`, with `owner`
and `repo` the parts of the repository's full name before and after its first `'/'`:
all `n` of them when no `select` of these sends takes `<-ctx.Done()` (and `Run` goes on);
and when the `select` of the send of `c(k+1)` is the first to take `<-ctx.Done()`, exactly
the jobs of `c1..ck`, after which `Run` returns: that `select` is the last one executed,
the remaining events of the batch are not looked at, and the call of `Run` in whose pass the
event was fetched ends there.  In every case the jobs enqueued are a prefix of the `n`. -/
theorem C1_jobs_in_payload_order (env : ProducerEnv) (st : ProducerState)
    (e : github.Event) (payload : github.PushEventPayload)
    (hType : e.Type_ = "PushEvent")
    (hIns : env.InsertPushEvent st.inserts (eventToRow e) = (true, none))
    (hPayload : env.Unmarshal e.RawPayload = .ok payload)
    (hne : payload.Commits ≠ [])
    (hsha : ∀ c, c ∈ payload.Commits → c.SHA ≠ "") :
    ((∀ i, i < payload.Commits.length → env.ctxDone (st.selects + i) = false) →
      (processEvent env e st).1.sent =
        st.sent ++ payload.Commits.map (fun c =>
          CommitJob.mk e.ID (beforeFirstSlash (eventToRow e).Repo)
            (afterFirstSlash (eventToRow e).Repo) c.SHA) ∧
      (processEvent env e st).2 = false) ∧
    (∃ k, k ≤ payload.Commits.length ∧
      (processEvent env e st).1.sent =
        st.sent ++ (payload.Commits.take k).map (fun c =>
          CommitJob.mk e.ID (beforeFirstSlash (eventToRow e).Repo)
            (afterFirstSlash (eventToRow e).Repo) c.SHA) ∧
      ((processEvent env e st).2 = true ↔ k < payload.Commits.length)) ∧
    (∀ k, k < payload.Commits.length →
      (∀ i, i < k → env.ctxDone (st.selects + i) = false) →
      env.ctxDone (st.selects + k) = true →
      (processEvent env e st).1.sent =
        st.sent ++ (payload.Commits.take k).map (fun c =>
          CommitJob.mk e.ID (beforeFirstSlash (eventToRow e).Repo)
            (afterFirstSlash (eventToRow e).Repo) c.SHA) ∧
      (processEvent env e st).1.selects = st.selects + k + 1 ∧
      (processEvent env e st).2 = true ∧
      (∀ rest : List github.Event,
        processEvents env (e :: rest) st = ((processEvent env e st).1, true)) ∧
      (∀ (fuel : Nat) (st0 : ProducerState) (pre rest : List github.Event) (c : String),
        env.ctxDone st0.selects = false →
        env.FetchEvents st0.fetches st0.etag = (pre ++ e :: rest, c, none) →
        processEvents env pre
          { st0 with selects := st0.selects + 1, fetches := st0.fetches ++ [st0.etag],
                     etag := c, logs := st0.logs ++ [⟨"INFO", "events fetched"⟩] }
            = (st, false) →
        Run env (fuel + 1) st0 = ((processEvent env e st).1, true))) := by
  have hcancel : ∀ k, k < payload.Commits.length →
      (∀ i, i < k → env.ctxDone (st.selects + i) = false) →
      env.ctxDone (st.selects + k) = true →
      processEvent env e st =
        ({ st with selects := st.selects + k + 1,
                   inserts := st.inserts ++ [eventToRow e],
                   sent := st.sent ++ (payload.Commits.take k).map (fun c =>
                     CommitJob.mk e.ID (beforeFirstSlash (eventToRow e).Repo)
                       (afterFirstSlash (eventToRow e).Repo) c.SHA),
                   logs := st.logs ++ [⟨"INFO", "push event processed"⟩] ++
                     [⟨"INFO", "producer stopping"⟩] }, true) := by
    intro k hk hpre hk1
    rw [processEvent_inserted env st e payload hType hIns hPayload,
      commitSHAs_of_listed payload hne hsha, splitRepo_eq]
    have hq := enqueue_cancelled env e (beforeFirstSlash (eventToRow e).Repo)
      (afterFirstSlash (eventToRow e).Repo) (payload.Commits.map (fun c => c.SHA))
      { st with inserts := st.inserts ++ [eventToRow e],
                logs := st.logs ++ [⟨"INFO", "push event processed"⟩] }
      k (by simpa using hk) hpre hk1
    dsimp only at hq ⊢
    rw [hq]
    simp [← List.map_take, List.map_map, Function.comp_def]
  refine ⟨?_, ?_, ?_⟩
  · rw [processEvent_inserted env st e payload hType hIns hPayload,
      commitSHAs_of_listed payload hne hsha, splitRepo_eq]
    intro hrun
    rw [enqueue_all]
    · simp [List.map_map, Function.comp_def]
    · simpa using hrun
  · rw [processEvent_inserted env st e payload hType hIns hPayload,
      commitSHAs_of_listed payload hne hsha, splitRepo_eq]
    obtain ⟨k, hk, hs, hr, _⟩ := enqueue_prefix env e
      (beforeFirstSlash (eventToRow e).Repo) (afterFirstSlash (eventToRow e).Repo)
      (payload.Commits.map (fun c => c.SHA))
      { st with inserts := st.inserts ++ [eventToRow e],
                logs := st.logs ++ [⟨"INFO", "push event processed"⟩] }
    refine ⟨k, by simpa using hk, ?_, by simpa using hr⟩
    rw [hs]
    simp [← List.map_take, List.map_map, Function.comp_def]
  · intro k hk hpre hk1
    have hc := hcancel k hk hpre hk1
    have hret : (processEvent env e st).2 = true := by rw [hc]
    refine ⟨by rw [hc], by rw [hc], hret, ?_, ?_⟩
    · intro rest
      simp only [processEvents]
      rw [hc]
    · intro fuel st0 pre rest c h0 hF hp
      exact Run_returns_at_event env fuel st0 st pre rest e c h0 hF hp hret

/-- The amended C1 at the first event of `TestProducer_EnqueuesJobsForInsertedEvent`: with a
context that is never cancelled while the jobs are sent, both jobs are enqueued and `Run`
goes on; with a context cancelled when the second job is to be sent, the call of `Run`
returns having enqueued the first job only. -/
theorem C1_jobs_in_payload_order_witness :
    ((processEvent (testEnv [eventTwoCommits] true 5) eventTwoCommits ProducerState.init).1.sent
      = [⟨"e1", "owner", "repo", "sha1"⟩, ⟨"e1", "owner", "repo", "sha2"⟩] ∧
    (processEvent (testEnv [eventTwoCommits] true 5) eventTwoCommits ProducerState.init).2
      = false) ∧
    ((Run (testEnv [eventTwoCommits] true 2) 1 ProducerState.init).1.sent
      = [⟨"e1", "owner", "repo", "sha1"⟩] ∧
    (Run (testEnv [eventTwoCommits] true 2) 1 ProducerState.init).2 = true) := by
  have h := (C1_jobs_in_payload_order (testEnv [eventTwoCommits] true 5) ProducerState.init
    eventTwoCommits payloadTwoCommits (by decide) (by decide) (by decide) (by decide)
    (by decide)).1 (by decide)
  have h2 := (C1_jobs_in_payload_order (testEnv [eventTwoCommits] true 2)
    (ProducerState.mk "etag1" 1 [""] [] [] 0
      [⟨"INFO", "producer running"⟩, ⟨"INFO", "events fetched"⟩])
    eventTwoCommits payloadTwoCommits (by decide) (by decide) (by decide) (by decide)
    (by decide)).2.2 1 (by decide) (by decide) (by decide)
  have hrun := h2.2.2.2.2 0 ProducerState.init [] [] "etag1" (by decide) (by decide)
    (by decide)
  refine ⟨⟨h.1.trans (by decide), h.2⟩, ?_, ?_⟩
  · rw [hrun]
    exact h2.1.trans (by decide)
  · rw [hrun]

/-- C2 (as stated, refuted).  `Run` on the batch of
`TestProducer_EnqueuesTipCommitWhenCommitsEmpty` with a context cancelled after the first
check of the loop: the event is newly inserted, its commit list is empty and its head is
`abc123tip`, and `Run` returns without having enqueued the job for that head. -/
theorem C2_counterexample_cancelled_tip :
    eventTipOnly.Type_ = "PushEvent" ∧
    (testEnv [eventTipOnly] true 1).InsertPushEvent [] (eventToRow eventTipOnly)
      = (true, none) ∧
    (testEnv [eventTipOnly] true 1).Unmarshal eventTipOnly.RawPayload = .ok payloadTipOnly ∧
    payloadTipOnly.Commits = [] ∧ payloadTipOnly.Head = "abc123tip" ∧
    (Run (testEnv [eventTipOnly] true 1) 3 ProducerState.init).2 = true ∧
    (Run (testEnv [eventTipOnly] true 1) 3 ProducerState.init).1.inserts
      = [eventToRow eventTipOnly] ∧
    (Run (testEnv [eventTipOnly] true 1) 3 ProducerState.init).1.sent = [] := by
  decide

/-- C2 (amended).  For a newly inserted push event whose payload decodes to an empty commit
list, the loop body of `Producer.Run` enqueues exactly one job, for the payload's head, when
the head is non-empty (whatever `After` is), exactly one job, for `After`, when the head is
empty and `After` is not, both provided the `select` of that send does not take
`<-ctx.Done()`; it enqueues no job when both are empty (and `Run` goes on); and when there
is a job to send and the `select` of that send takes `<-ctx.Done()`, no job is enqueued and
`Run` returns: that `select` is the last one executed, the remaining events of the batch are
not looked at, and the call of `Run` in whose pass the event was fetched ends there. -/
theorem C2_tip_fallback (env : ProducerEnv) (st : ProducerState)
    (e : github.Event) (payload : github.PushEventPayload)
    (hType : e.Type_ = "PushEvent")
    (hIns : env.InsertPushEvent st.inserts (eventToRow e) = (true, none))
    (hPayload : env.Unmarshal e.RawPayload = .ok payload)
    (hEmpty : payload.Commits = []) :
    (payload.Head ≠ "" → env.ctxDone st.selects = false →
      (processEvent env e st).1.sent =
        st.sent ++ [CommitJob.mk e.ID (splitRepo e.Repo).1 (splitRepo e.Repo).2 payload.Head] ∧
      (processEvent env e st).2 = false) ∧
    (payload.Head = "" → payload.After ≠ "" → env.ctxDone st.selects = false →
      (processEvent env e st).1.sent =
        st.sent ++ [CommitJob.mk e.ID (splitRepo e.Repo).1 (splitRepo e.Repo).2 payload.After] ∧
      (processEvent env e st).2 = false) ∧
    (payload.Head = "" → payload.After = "" →
      (processEvent env e st).1.sent = st.sent ∧ (processEvent env e st).2 = false) ∧
    (env.ctxDone st.selects = true → (processEvent env e st).1.sent = st.sent) ∧
    (env.ctxDone st.selects = true → (payload.Head ≠ "" ∨ payload.After ≠ "") →
      (processEvent env e st).1.sent = st.sent ∧
      (processEvent env e st).1.selects = st.selects + 1 ∧
      (processEvent env e st).2 = true ∧
      (∀ rest : List github.Event,
        processEvents env (e :: rest) st = ((processEvent env e st).1, true)) ∧
      (∀ (fuel : Nat) (st0 : ProducerState) (pre rest : List github.Event) (c : String),
        env.ctxDone st0.selects = false →
        env.FetchEvents st0.fetches st0.etag = (pre ++ e :: rest, c, none) →
        processEvents env pre
          { st0 with selects := st0.selects + 1, fetches := st0.fetches ++ [st0.etag],
                     etag := c, logs := st0.logs ++ [⟨"INFO", "events fetched"⟩] }
            = (st, false) →
        Run env (fuel + 1) st0 = ((processEvent env e st).1, true))) := by
  have hc : env.ctxDone st.selects = true → (payload.Head ≠ "" ∨ payload.After ≠ "") →
      processEvent env e st =
        ({ st with selects := st.selects + 1,
                   inserts := st.inserts ++ [eventToRow e],
                   logs := st.logs ++ [⟨"INFO", "push event processed"⟩] ++
                     [⟨"INFO", "producer stopping"⟩] }, true) := by
    intro hdone htip
    rw [processEvent_inserted env st e payload hType hIns hPayload]
    by_cases hHead : payload.Head = ""
    · have hAfter : payload.After ≠ "" := by
        rcases htip with h | h
        · exact absurd hHead h
        · exact h
      simp [commitSHAs, hEmpty, hHead, hAfter, enqueue, hdone]
    · simp [commitSHAs, hEmpty, hHead, enqueue, hdone]
  refine ⟨?_, ?_, ?_, ?_, ?_⟩
  · rw [processEvent_inserted env st e payload hType hIns hPayload]
    intro hHead hrun
    simp [commitSHAs, hEmpty, hHead, enqueue, hrun]
  · rw [processEvent_inserted env st e payload hType hIns hPayload]
    intro hHead hAfter hrun
    simp [commitSHAs, hEmpty, hHead, hAfter, enqueue, hrun]
  · rw [processEvent_inserted env st e payload hType hIns hPayload]
    intro hHead hAfter
    simp [commitSHAs, hEmpty, hHead, hAfter, enqueue]
  · rw [processEvent_inserted env st e payload hType hIns hPayload]
    intro hdone
    by_cases hHead : payload.Head = ""
    · by_cases hAfter : payload.After = ""
      · simp [commitSHAs, hEmpty, hHead, hAfter, enqueue]
      · simp [commitSHAs, hEmpty, hHead, hAfter, enqueue, hdone]
    · simp [commitSHAs, hEmpty, hHead, enqueue, hdone]
  · intro hdone htip
    have h := hc hdone htip
    have hret : (processEvent env e st).2 = true := by rw [h]
    refine ⟨by rw [h], by rw [h], hret, ?_, ?_⟩
    · intro rest
      simp only [processEvents]
      rw [h]
    · intro fuel st0 pre rest c h0 hF hp
      exact Run_returns_at_event env fuel st0 st pre rest e c h0 hF hp hret

/-- The amended C2 at the event of `TestProducer_EnqueuesTipCommitWhenCommitsEmpty`: with a
context that is not cancelled, the job for the head is enqueued and `Run` goes on; with a
context cancelled when that job is to be sent, the call of `Run` returns without a job. -/
theorem C2_tip_fallback_witness :
    ((processEvent (testEnv [eventTipOnly] true 5) eventTipOnly ProducerState.init).1.sent
      = [⟨"e1", "owner", "repo", "abc123tip"⟩] ∧
    (processEvent (testEnv [eventTipOnly] true 5) eventTipOnly ProducerState.init).2 = false) ∧
    ((Run (testEnv [eventTipOnly] true 1) 1 ProducerState.init).1.sent = [] ∧
    (Run (testEnv [eventTipOnly] true 1) 1 ProducerState.init).2 = true) := by
  have h := (C2_tip_fallback (testEnv [eventTipOnly] true 5) ProducerState.init
    eventTipOnly payloadTipOnly (by decide) (by decide) (by decide) (by decide)).1
    (by decide) (by decide)
  have h2 := (C2_tip_fallback (testEnv [eventTipOnly] true 1)
    (ProducerState.mk "etag1" 1 [""] [] [] 0
      [⟨"INFO", "producer running"⟩, ⟨"INFO", "events fetched"⟩])
    eventTipOnly payloadTipOnly (by decide) (by decide) (by decide) (by decide)).2.2.2.2
    (by decide) (by decide)
  have hrun := h2.2.2.2.2 0 ProducerState.init [] [] "etag1" (by decide) (by decide)
    (by decide)
  refine ⟨⟨h.1.trans (by decide), h.2⟩, ?_, ?_⟩
  · rw [hrun]
    exact h2.1
  · rw [hrun]

theorem enqueue_mem (env : ProducerEnv) (e : github.Event) (o r : String)
    (shas : List String) (st : ProducerState) (j : CommitJob)
    (hj : j ∈ (enqueue env e o r shas st).1.sent) : j ∈ st.sent ∨ j.EventID = e.ID := by
  obtain ⟨k, _, hs, _, _⟩ := enqueue_prefix env e o r shas st
  rw [hs, List.mem_append] at hj
  rcases hj with h | h
  · exact Or.inl h
  · right
    obtain ⟨sha, _, rfl⟩ := List.mem_map.mp h
    rfl

/-- The loop body enqueues something only for a push event whose insert answered
`(true, nil)`, and what it enqueues carries that event's identifier. -/
theorem processEvent_sent (env : ProducerEnv) (e : github.Event) (st : ProducerState) :
    (processEvent env e st).1.sent = st.sent ∨
    (e.Type_ = "PushEvent" ∧ env.InsertPushEvent st.inserts (eventToRow e) = (true, none) ∧
      ∀ j, j ∈ (processEvent env e st).1.sent → j ∈ st.sent ∨ j.EventID = e.ID) := by
  by_cases hType : e.Type_ = "PushEvent"
  · rcases hIns : env.InsertPushEvent st.inserts (eventToRow e) with ⟨b, err⟩
    cases err with
    | some err => left; simp [processEvent, hType, hIns]
    | none =>
      cases b with
      | false => left; simp [processEvent, hType, hIns]
      | true =>
        cases hP : env.Unmarshal e.RawPayload with
        | error err => left; simp [processEvent, hType, hIns, hP]
        | ok payload =>
          right
          refine ⟨hType, rfl, ?_⟩
          rw [processEvent_inserted env st e payload hType hIns hP]
          intro j hj
          exact enqueue_mem env e _ _ _ _ j hj |>.imp (fun h => by simpa using h) id
  · left; simp [processEvent, hType]

/-- C3.  `Producer.Run` emits a job for an event only if the event is a `PushEvent` whose
`InsertPushEvent` returned `(true, nil)`: every job enqueued while a batch is processed
carries the identifier of such an event of the batch; the loop body changes the queue only
for such an event; an event whose insert answers `(false, nil)` yields no job, whatever
its payload; and a non-push event leaves the whole state as it is (no insert call, no
job). -/
theorem C3_jobs_only_for_new_push_events (env : ProducerEnv) :
    (∀ (evs : List github.Event) (st : ProducerState) (j : CommitJob),
      j ∈ (processEvents env evs st).1.sent →
      j ∈ st.sent ∨ ∃ e, e ∈ evs ∧ e.Type_ = "PushEvent" ∧ j.EventID = e.ID ∧
        ∃ hist, env.InsertPushEvent hist (eventToRow e) = (true, none)) ∧
    (∀ (e : github.Event) (st : ProducerState),
      (processEvent env e st).1.sent ≠ st.sent →
      e.Type_ = "PushEvent" ∧ env.InsertPushEvent st.inserts (eventToRow e) = (true, none)) ∧
    (∀ (e : github.Event) (st : ProducerState),
      env.InsertPushEvent st.inserts (eventToRow e) = (false, none) →
      (processEvent env e st).1.sent = st.sent ∧ (processEvent env e st).2 = false) ∧
    (∀ (e : github.Event) (st : ProducerState),
      e.Type_ ≠ "PushEvent" → processEvent env e st = (st, false)) := by
  refine ⟨?_, ?_, ?_, ?_⟩
  · intro evs
    induction evs with
    | nil => intro st j hj; exact Or.inl (by simpa [processEvents] using hj)
    | cons e rest ih =>
      intro st j hj
      have hstep : j ∈ (processEvent env e st).1.sent →
          j ∈ st.sent ∨ ∃ e1, e1 ∈ e :: rest ∧ e1.Type_ = "PushEvent" ∧ j.EventID = e1.ID ∧
            ∃ hist, env.InsertPushEvent hist (eventToRow e1) = (true, none) := by
        intro hj1
        rcases processEvent_sent env e st with h | ⟨hT, hI, hmem⟩
        · exact Or.inl (h ▸ hj1)
        · rcases hmem j hj1 with h | h
          · exact Or.inl h
          · exact Or.inr ⟨e, by simp, hT, h, st.inserts, hI⟩
      rcases hpe : processEvent env e st with ⟨st1, ret⟩
      rw [hpe] at hstep
      cases ret with
      | true =>
        simp only [processEvents, hpe] at hj
        exact hstep hj
      | false =>
        simp only [processEvents, hpe] at hj
        rcases ih st1 j hj with h | ⟨e1, he1, hrest⟩
        · exact hstep h
        · exact Or.inr ⟨e1, List.mem_cons_of_mem _ he1, hrest⟩
  · intro e st hne
    rcases processEvent_sent env e st with h | ⟨hT, hI, _⟩
    · exact absurd h hne
    · exact ⟨hT, hI⟩
  · intro e st hIns
    by_cases hType : e.Type_ = "PushEvent"
    · simp [processEvent, hType, hIns]
    · simp [processEvent, hType]
  · intro e st hType
    simp [processEvent, hType]

/-- C3 at the batch of `TestProducer_DoesNotEnqueueWhenInsertReturnsFalse` preceded by a
non-push event: the store answers `(false, nil)`, one insert call is made (for the push
event) and nothing is enqueued. -/
theorem C3_jobs_only_for_new_push_events_witness :
    (processEvent (testEnv [eventWatch, eventTwoCommits] false 9) eventTwoCommits
        ProducerState.init).1.sent = [] ∧
    processEvent (testEnv [eventWatch, eventTwoCommits] false 9) eventWatch ProducerState.init
      = (ProducerState.init, false) ∧
    (processEvents (testEnv [eventWatch, eventTwoCommits] false 9)
        [eventWatch, eventTwoCommits] ProducerState.init).1.inserts
      = [eventToRow eventTwoCommits] := by
  have h := C3_jobs_only_for_new_push_events (testEnv [eventWatch, eventTwoCommits] false 9)
  exact ⟨(h.2.2.1 eventTwoCommits ProducerState.init (by decide)).1,
    h.2.2.2 eventWatch ProducerState.init (by decide), by decide⟩

end pubsub

/-! ## C4: statistics of a commit response -/

theorem wrapInt64_of_fits (x : Int) (hlo : -(2 ^ 63) ≤ x) (hhi : x < 2 ^ 63) :
    wrapInt64 x = x := by
  unfold wrapInt64
  omega

namespace github

theorem retryLoop_invariant {ρ : Type} (P : ρ → Prop) (call : Net → Net × Option ρ)
    (err : ρ → Option GoError) (last : ρ → ρ) (after : ρ)
    (hcall : ∀ m m1 r, call m = (m1, some r) → P r)
    (hlast : ∀ r, P (last r)) (hafter : P after) :
    ∀ (todo attempt : Nat) (n n1 : Net) (r : ρ),
      retryLoop call err last after todo attempt n = (n1, some r) → P r := by
  intro todo
  induction todo with
  | zero =>
    intro attempt n n1 r h
    simp only [retryLoop, Prod.mk.injEq, Option.some.injEq] at h
    exact h.2 ▸ hafter
  | succ todo ih =>
    intro attempt n n1 r h
    simp only [retryLoop] at h
    rcases hc : call (n.Sleep (((1 <<< attempt : Nat) : Int) * time.Second)) with ⟨m1, res⟩
    rw [hc] at h
    cases res with
    | none => simp at h
    | some r1 =>
      simp only at h
      by_cases he : err r1 = none
      · simp only [he, if_true, Prod.mk.injEq, Option.some.injEq] at h
        exact h.2 ▸ hcall _ _ _ hc
      · by_cases ha : attempt = 2
        · simp only [he, ha, if_true, if_false, Prod.mk.injEq, Option.some.injEq] at h
          exact h.2 ▸ hlast r1
        · simp only [he, ha, if_false] at h
          exact ih _ _ _ _ h

/-- Every `CommitStats` that `GetCommitStats` returns, from whichever of its calls of
itself, has `Net` equal to the `int64` difference of its `Additions` and `Deletions`. -/
theorem GetCommitStats_net (src : Source CommitAPIResponse) :
    ∀ (fuel : Nat) (n n1 : Net) (r : StatsResult),
      GetCommitStats src fuel n = (n1, some r) →
      ∀ s, r.stats = some s → s.Net = subInt64 s.Additions s.Deletions := by
  intro fuel
  induction fuel with
  | zero => intro n n1 r h; simp [GetCommitStats] at h
  | succ fuel ih =>
    intro n n1 r h
    unfold GetCommitStats at h
    split at h
    · simp only [Prod.mk.injEq, Option.some.injEq] at h
      intro s hs; rw [← h.2] at hs; simp at hs
    · dsimp only at h
      split at h
      · simp only [Prod.mk.injEq, Option.some.injEq] at h
        intro s hs; rw [← h.2] at hs; simp at hs
      · split at h
        · simp only [Prod.mk.injEq, Option.some.injEq] at h
          intro s hs; rw [← h.2] at hs; simp at hs
        · split at h
          · split at h
            · exact ih _ _ _ h
            · simp only [Prod.mk.injEq, Option.some.injEq] at h
              intro s hs; rw [← h.2] at hs; simp at hs
          · split at h
            · split at h
              · simp only [Prod.mk.injEq, Option.some.injEq] at h
                intro s hs; rw [← h.2] at hs; simp at hs
              · simp only [Prod.mk.injEq, Option.some.injEq] at h
                intro s hs; rw [← h.2] at hs
                simp only [Option.some.injEq] at hs
                rw [← hs]; rfl
            · split at h
              · refine retryLoop_invariant
                  (fun r => ∀ s, r.stats = some s → s.Net = subInt64 s.Additions s.Deletions)
                  _ _ _ _ (fun m m1 r hc => ih m m1 r hc) ?_ ?_ _ _ _ _ _ h
                · intro r s hs; simp at hs
                · intro s hs; simp at hs
              · simp only [Prod.mk.injEq, Option.some.injEq] at h
                intro s hs; rw [← h.2] at hs; simp at hs

/-- C4.  When the request of a call of `GetCommitStats` is answered 200 with a body that
decodes to `api`, the call returns, without error and after that one request, statistics
whose `Additions`, `Deletions` and `Total` are the values reported in `api.Stats`, each 0
when the field or the whole `Stats` object is absent, and whose `Net` is
`Additions - Deletions` in `int64` arithmetic (the exact difference whenever that fits in
an `int64`), whatever `Total` is.  Moreover every `CommitStats` that any call returns has
`Net` equal to the `int64` difference of its `Additions` and `Deletions`. -/
theorem C4_stats_of_ok_response (src : Source CommitAPIResponse) (n : Net) (fuel : Nat)
    (resp : Response CommitAPIResponse) (api : CommitAPIResponse)
    (hReq : src.NewRequest = none)
    (hDo : (src.Do n.requests).Do = .ok resp)
    (h200 : resp.StatusCode = 200)
    (hBody : resp.Body = .ok api) :
    (∃ s : CommitStats,
      GetCommitStats src (fuel + 1) n
        = ({ n with requests := n.requests + 1 }, some ⟨some s, none⟩) ∧
      s.Additions = (api.Stats.bind (fun st => st.Additions)).getD 0 ∧
      s.Deletions = (api.Stats.bind (fun st => st.Deletions)).getD 0 ∧
      s.Total = (api.Stats.bind (fun st => st.Total)).getD 0 ∧
      s.Net = subInt64 s.Additions s.Deletions ∧
      (-(2 ^ 63) ≤ s.Additions - s.Deletions → s.Additions - s.Deletions < 2 ^ 63 →
        s.Net = s.Additions - s.Deletions)) ∧
    (∀ (src1 : Source CommitAPIResponse) (fuel1 : Nat) (m m1 : Net) (s : CommitStats)
        (e : Option GoError),
      GetCommitStats src1 fuel1 m = (m1, some ⟨some s, e⟩) →
      s.Net = subInt64 s.Additions s.Deletions) := by
  constructor
  · refine ⟨statsOf api, ?_, ?_, ?_, ?_, rfl, ?_⟩
    · simp [GetCommitStats, hReq, hDo, h200, hBody]
    · cases hs : api.Stats with
      | none => simp [statsOf, hs]
      | some st => cases ha : st.Additions <;> simp [statsOf, hs, ha]
    · cases hs : api.Stats with
      | none => simp [statsOf, hs]
      | some st => cases ha : st.Deletions <;> simp [statsOf, hs, ha]
    · cases hs : api.Stats with
      | none => simp [statsOf, hs]
      | some st => cases ha : st.Total <;> simp [statsOf, hs, ha]
    · intro hlo hhi
      exact wrapInt64_of_fits _ hlo hhi
  · intro src1 fuel1 m m1 s e h
    exact GetCommitStats_net src1 fuel1 m m1 _ h s rfl

/-- C4 at a 200 response reporting 10 additions, 3 deletions and total 13: the call
returns these values and `Net = 7`. -/
theorem C4_stats_of_ok_response_witness :
    ∃ s : CommitStats,
      GetCommitStats (script [okWith apiCommit] (okWith apiCommit)) 1 Net.start
        = ({ requests := 1, sleeps := [] }, some ⟨some s, none⟩) ∧
      s.Additions = 10 ∧ s.Deletions = 3 ∧ s.Total = 13 ∧ s.Net = 7 := by
  obtain ⟨s, h, ha, hd, ht, hn, _⟩ :=
    (C4_stats_of_ok_response (script [okWith apiCommit] (okWith apiCommit)) Net.start 0
      { StatusCode := 200, Status := "200 OK", ETag := "\"abc\"", RateLimitReset := "",
        Body := .ok apiCommit } apiCommit rfl rfl rfl rfl).1
  refine ⟨s, h, ha, hd, ht, ?_⟩
  rw [hn, ha, hd]
  decide

end github

/-! ## C5, C6: the worker -/

namespace pubsub

/-- Whatever the fetcher answers, `Consumer.process` calls `GetCommitStats` exactly once,
with the job's owner, repository and SHA, and executes no `select`. -/
theorem process_fetches (env : ConsumerEnv) (job : CommitJob) (st : ConsumerState) :
    (process env job st).fetches = st.fetches ++ [(job.Owner, job.Repo, job.SHA)] ∧
    (process env job st).selects = st.selects := by
  unfold process
  rcases env.GetCommitStats st.fetches job.Owner job.Repo job.SHA with ⟨stats, err⟩
  cases err with
  | some err => by_cases hnf : err = GoError.ErrNotFound <;> simp [hnf]
  | none =>
    cases stats with
    | none => simp
    | some s =>
      simp only
      rcases env.InsertCommitStats st.inserts
          { Sha := s.SHA, Repo := job.Owner ++ "/" ++ job.Repo, Author := s.Author,
            CommittedAt := s.CommittedAt, Additions := s.Additions, Deletions := s.Deletions,
            Total := s.Total, Net := s.Net } with ⟨b, e⟩
      cases e with
      | some e => simp
      | none => cases b <;> simp

/-- The calls of `GetCommitStats` a worker has made are still on record when it returns,
and it makes at most one call for each job it is delivered. -/
theorem Consumer.Run_fetches (env : ConsumerEnv) :
    ∀ (queue : List CommitJob) (st : ConsumerState),
      st.fetches <+: (Consumer.Run env queue st).fetches ∧
      (Consumer.Run env queue st).fetches.length ≤ st.fetches.length + queue.length := by
  intro queue
  induction queue with
  | nil =>
    intro st
    rw [Consumer.Run]
    by_cases h : env.ctxDone st.selects = true <;> simp [h]
  | cons job rest ih =>
    intro st
    rw [Consumer.Run]
    by_cases h : env.ctxDone st.selects = true
    · simp [h]
    · simp only [h, Bool.false_eq_true, if_false]
      have hf := (process_fetches env job { st with selects := st.selects + 1 }).1
      have hpre : st.fetches <+: (process env job { st with selects := st.selects + 1 }).fetches := by
        rw [hf]
        exact List.prefix_append _ _
      have hlen : (process env job { st with selects := st.selects + 1 }).fetches.length
          = st.fetches.length + 1 := by
        rw [hf]
        simp
      by_cases hp : (process env job { st with selects := st.selects + 1 }).panicked = true
      · simp only [hp, if_true]
        refine ⟨hpre, ?_⟩
        rw [hlen]
        simp only [List.length_cons]
        omega
      · simp only [hp, Bool.false_eq_true, if_false]
        obtain ⟨h1, h2⟩ := ih (process env job { st with selects := st.selects + 1 })
        refine ⟨List.IsPrefix.trans hpre h1, ?_⟩
        rw [hlen] at h2
        simp only [List.length_cons]
        omega

/-- A worker that receives a job calls `GetCommitStats` for it. -/
theorem Consumer.Run_receives (env : ConsumerEnv) (job : CommitJob) (rest : List CommitJob)
    (st : ConsumerState) (hrun : env.ctxDone st.selects = false) :
    (st.fetches ++ [(job.Owner, job.Repo, job.SHA)])
      <+: (Consumer.Run env (job :: rest) st).fetches := by
  rw [Consumer.Run]
  simp only [hrun, Bool.false_eq_true, if_false]
  have hf := (process_fetches env job { st with selects := st.selects + 1 }).1
  by_cases hp : (process env job { st with selects := st.selects + 1 }).panicked = true
  · simp only [hp, if_true]
    rw [hf]
  · simp only [hp, Bool.false_eq_true, if_false]
    have h1 := (Consumer.Run_fetches env rest
      (process env job { st with selects := st.selects + 1 })).1
    rw [hf] at h1
    exact h1

/-- C5.  When the fetcher answers a job with an error (`ErrNotFound` or any other),
`Consumer.process` has called `GetCommitStats` exactly once, with the job's owner,
repository and SHA, has not called `InsertCommitStats`, and returns normally; the worker
that received the job then goes on with its loop on the jobs that remain in the channel,
the job itself not being among them again: when a next job is delivered and the context is
not done, the worker's next call of `GetCommitStats` is the one for that next job; when the
channel is closed instead, the worker returns; and over the whole run the worker makes no
more calls of `GetCommitStats` than it is delivered jobs. -/
theorem C5_fetch_error_skips_job (env : ConsumerEnv) (st : ConsumerState) (job : CommitJob)
    (stats : Option github.CommitStats) (err : GoError)
    (hErr : env.GetCommitStats st.fetches job.Owner job.Repo job.SHA = (stats, some err)) :
    (process env job st).fetches = st.fetches ++ [(job.Owner, job.Repo, job.SHA)] ∧
    (process env job st).inserts = st.inserts ∧
    (process env job st).panicked = st.panicked ∧
    (process env job st).selects = st.selects ∧
    (∀ rest : List CommitJob, env.ctxDone st.selects = false → st.panicked = false →
      Consumer.Run env (job :: rest) st =
        Consumer.Run env rest (process env job { st with selects := st.selects + 1 })) ∧
    (∀ (next : CommitJob) (rest : List CommitJob),
      env.ctxDone st.selects = false → st.panicked = false →
      env.ctxDone (st.selects + 1) = false →
      (st.fetches ++ [(job.Owner, job.Repo, job.SHA), (next.Owner, next.Repo, next.SHA)])
        <+: (Consumer.Run env (job :: next :: rest) st).fetches) ∧
    (env.ctxDone st.selects = false → st.panicked = false →
      Consumer.Run env [job] st =
        { process env job { st with selects := st.selects + 1 } with
          selects := st.selects + 2
          logs := (process env job { st with selects := st.selects + 1 }).logs ++
            [⟨"DEBUG", if env.ctxDone (st.selects + 1) then "consumer worker stopping"
              else "consumer jobs channel closed"⟩] }) ∧
    (∀ rest : List CommitJob,
      (Consumer.Run env (job :: rest) st).fetches.length
        ≤ st.fetches.length + (rest.length + 1)) := by
  have hp : ∀ st1 : ConsumerState, st1.fetches = st.fetches →
      (process env job st1).fetches = st1.fetches ++ [(job.Owner, job.Repo, job.SHA)] ∧
      (process env job st1).inserts = st1.inserts ∧
      (process env job st1).panicked = st1.panicked ∧
      (process env job st1).selects = st1.selects := by
    intro st1 h1
    unfold process
    simp only [h1, hErr]
    by_cases hnf : err = GoError.ErrNotFound <;> simp [hnf]
  obtain ⟨h1, h2, h3, h4⟩ := hp st rfl
  have hstep : ∀ rest : List CommitJob, env.ctxDone st.selects = false → st.panicked = false →
      Consumer.Run env (job :: rest) st =
        Consumer.Run env rest (process env job { st with selects := st.selects + 1 }) := by
    intro rest hrun hpanic
    have h5 : (process env job { st with selects := st.selects + 1 }).panicked = false :=
      ((hp { st with selects := st.selects + 1 } rfl).2.2.1).trans hpanic
    rw [Consumer.Run]
    simp only [hrun, h5, Bool.false_eq_true, if_false]
  obtain ⟨g1, g2, g3, g4⟩ := hp { st with selects := st.selects + 1 } rfl
  refine ⟨h1, h2, h3, h4, hstep, ?_, ?_, ?_⟩
  · intro next rest hrun hpanic hrun1
    rw [hstep _ hrun hpanic]
    have hsel : env.ctxDone (process env job { st with selects := st.selects + 1 }).selects
        = false := by
      rw [g4]
      exact hrun1
    have hrec := Consumer.Run_receives env next rest
      (process env job { st with selects := st.selects + 1 }) hsel
    rw [g1] at hrec
    simpa using hrec
  · intro hrun hpanic
    rw [hstep _ hrun hpanic, Consumer.Run, g4]
    by_cases hd : env.ctxDone (st.selects + 1) = true
    · simp [hd]
    · simp [hd]
  · intro rest
    have := (Consumer.Run_fetches env (job :: rest) st).2
    simpa using this

/-- C5 at the job of `TestConsumer_ProcessJob_Skips404`: one fetch, no insert; and on a
channel that delivers a second job after it, the worker fetches that second job next. -/
theorem C5_fetch_error_skips_job_witness :
    (process (testConsumerEnv (none, some GoError.ErrNotFound) true) testJob
        ConsumerState.init).fetches = [("o", "r", "sha1")] ∧
    (process (testConsumerEnv (none, some GoError.ErrNotFound) true) testJob
        ConsumerState.init).inserts = [] ∧
    [("o", "r", "sha1"), ("o", "r", "sha2")] <+:
      (Consumer.Run (testConsumerEnv (none, some GoError.ErrNotFound) true)
        [testJob, testJobNext] ConsumerState.init).fetches := by
  have h := C5_fetch_error_skips_job (testConsumerEnv (none, some GoError.ErrNotFound) true)
    ConsumerState.init testJob none GoError.ErrNotFound rfl
  exact ⟨h.1, h.2.1, h.2.2.2.2.2.1 testJobNext [] rfl rfl rfl⟩

/-- C6.  When the fetcher answers a job with statistics `s` and no error,
`Consumer.process` calls `InsertCommitStats` exactly once, with a row whose `Sha`,
`Author`, `CommittedAt`, `Additions`, `Deletions`, `Total` and `Net` are those of `s` and
whose `Repo` is `job.Owner + "/" + job.Repo`; the calls made and the state left are the
same whether the insert answers `inserted = true` or `false`, the only difference being
the debug line logged after `true`. -/
theorem C6_success_inserts_row (env : ConsumerEnv) (st : ConsumerState) (job : CommitJob)
    (s : github.CommitStats)
    (hOk : env.GetCommitStats st.fetches job.Owner job.Repo job.SHA = (some s, none)) :
    ∃ row : store.CommitStatsRow,
      row.Sha = s.SHA ∧ row.Author = s.Author ∧ row.CommittedAt = s.CommittedAt ∧
      row.Additions = s.Additions ∧ row.Deletions = s.Deletions ∧ row.Total = s.Total ∧
      row.Net = s.Net ∧ row.Repo = job.Owner ++ "/" ++ job.Repo ∧
      (process env job st).inserts = st.inserts ++ [row] ∧
      (process env job st).fetches = st.fetches ++ [(job.Owner, job.Repo, job.SHA)] ∧
      (process env job st).panicked = st.panicked ∧
      (process env job st).selects = st.selects ∧
      (env.InsertCommitStats st.inserts row = (true, none) →
        (process env job st).logs = st.logs ++ [⟨"DEBUG", "commit stats saved"⟩]) ∧
      (env.InsertCommitStats st.inserts row = (false, none) →
        (process env job st).logs = st.logs) := by
  refine ⟨{ Sha := s.SHA, Repo := job.Owner ++ "/" ++ job.Repo, Author := s.Author,
            CommittedAt := s.CommittedAt, Additions := s.Additions, Deletions := s.Deletions,
            Total := s.Total, Net := s.Net }, rfl, rfl, rfl, rfl, rfl, rfl, rfl, rfl, ?_⟩
  unfold process
  simp only [hOk]
  rcases hI : env.InsertCommitStats st.inserts
      { Sha := s.SHA, Repo := job.Owner ++ "/" ++ job.Repo, Author := s.Author,
        CommittedAt := s.CommittedAt, Additions := s.Additions, Deletions := s.Deletions,
        Total := s.Total, Net := s.Net } with ⟨b, e⟩
  cases e with
  | some e => simp
  | none => cases b <;> simp

/-- C6 at the job and statistics of `TestConsumer_ProcessJob_InsertsStats`, for a store
that answers `inserted = true` and for one that answers `inserted = false`: in both cases
exactly one row, for `sha1` of `o/r` with 10, 3, 13 and 7, is passed to
`InsertCommitStats`. -/
theorem C6_success_inserts_row_witness :
    (∃ row : store.CommitStatsRow,
      row.Sha = "sha1" ∧ row.Repo = "o/r" ∧ row.Additions = 10 ∧ row.Deletions = 3 ∧
      row.Total = 13 ∧ row.Net = 7 ∧
      (process (testConsumerEnv (some testStats, none) true) testJob
        ConsumerState.init).inserts = [row]) ∧
    (∃ row : store.CommitStatsRow,
      row.Sha = "sha1" ∧ row.Repo = "o/r" ∧ row.Additions = 10 ∧ row.Deletions = 3 ∧
      row.Total = 13 ∧ row.Net = 7 ∧
      (process (testConsumerEnv (some testStats, none) false) testJob
        ConsumerState.init).inserts = [row]) := by
  constructor
  · obtain ⟨row, h1, _, _, h4, h5, h6, h7, h8, hins, _⟩ :=
      C6_success_inserts_row (testConsumerEnv (some testStats, none) true)
        ConsumerState.init testJob testStats rfl
    exact ⟨row, h1, h8.trans (by decide), h4, h5, h6, h7, hins⟩
  · obtain ⟨row, h1, _, _, h4, h5, h6, h7, h8, hins, _⟩ :=
      C6_success_inserts_row (testConsumerEnv (some testStats, none) false)
        ConsumerState.init testJob testStats rfl
    exact ⟨row, h1, h8.trans (by decide), h4, h5, h6, h7, hins⟩

end pubsub

/-! ## C7 - C10: retries of the client -/

namespace github

/-- The three passes of the 5xx loop when each call of the method sends one request and
returns: the sleeps are 1 s, 2 s, 4 s, the first result without error is returned, and
after three errors `last` of the third result. -/
theorem retryLoop_three {ρ : Type} (call : Net → Net × Option ρ) (err : ρ → Option GoError)
    (last : ρ → ρ) (after : ρ) (k : Nat) (s0 : List time.Duration) (r1 r2 r3 : ρ)
    (h1 : ∀ s, call ⟨k, s⟩ = (⟨k + 1, s⟩, some r1))
    (h2 : ∀ s, call ⟨k + 1, s⟩ = (⟨k + 2, s⟩, some r2))
    (h3 : ∀ s, call ⟨k + 2, s⟩ = (⟨k + 3, s⟩, some r3)) :
    retryLoop call err last after 3 0 ⟨k, s0⟩ =
      if err r1 = none then (⟨k + 1, s0 ++ [1 * time.Second]⟩, some r1)
      else if err r2 = none then
        (⟨k + 2, s0 ++ [1 * time.Second, 2 * time.Second]⟩, some r2)
      else if err r3 = none then
        (⟨k + 3, s0 ++ [1 * time.Second, 2 * time.Second, 4 * time.Second]⟩, some r3)
      else
        (⟨k + 3, s0 ++ [1 * time.Second, 2 * time.Second, 4 * time.Second]⟩,
          some (last r3)) := by
  have e0 : ((1 <<< 0 : Nat) : Int) = 1 := by decide
  have e1 : ((1 <<< 1 : Nat) : Int) = 2 := by decide
  have e2 : ((1 <<< 2 : Nat) : Int) = 4 := by decide
  simp only [retryLoop, Net.Sleep, h1, h2, h3, e0, e1, e2]
  by_cases c1 : err r1 = none
  · simp [c1]
  · by_cases c2 : err r2 = none
    · simp [c1, c2]
    · by_cases c3 : err r3 = none <;> simp [c1, c2, c3]

theorem GetCommitStats_5xx (src : Source CommitAPIResponse) (fuel : Nat) (n : Net)
    (resp : Response CommitAPIResponse)
    (hReq : src.NewRequest = none)
    (hDo : (src.Do n.requests).Do = .ok resp)
    (h5 : resp.StatusCode ≥ 500) :
    GetCommitStats src (fuel + 1) n =
      retryLoop (GetCommitStats src fuel) (fun r => r.err) (fun r => ⟨none, r.err⟩)
        ⟨none, some (GoError.other ("commit API: " ++ resp.Status))⟩ 3 0
        ⟨n.requests + 1, n.sleeps⟩ := by
  have a : resp.StatusCode ≠ 404 := by omega
  have b : resp.StatusCode ≠ 403 := by omega
  have c : resp.StatusCode ≠ 200 := by omega
  simp [GetCommitStats, hReq, hDo, a, b, c, h5]

theorem FetchEvents_5xx (src : Source (List Event)) (fuel : Nat) (etag : String) (n : Net)
    (resp : Response (List Event))
    (hReq : src.NewRequest = none)
    (hDo : (src.Do n.requests).Do = .ok resp)
    (h5 : resp.StatusCode ≥ 500) :
    FetchEvents src (fuel + 1) etag n =
      retryLoop (FetchEvents src fuel etag) (fun r => r.err)
        (fun r => ⟨[], strings.Trim resp.ETag '\x22', r.err⟩)
        ⟨[], strings.Trim resp.ETag '\x22',
          some (GoError.other ("events API: " ++ resp.Status))⟩ 3 0
        ⟨n.requests + 1, n.sleeps⟩ := by
  have a : resp.StatusCode ≠ 304 := by omega
  have b : resp.StatusCode ≠ 403 := by omega
  have c : resp.StatusCode ≠ 200 := by omega
  simp [FetchEvents, hReq, hDo, a, b, c, h5]

/-- A call whose request meets a final exchange sends that one request, does not sleep,
and returns. -/
theorem GetCommitStats_final (src : Source CommitAPIResponse) (k : Nat)
    (hReq : src.NewRequest = none) (hfin : (src.Do k).final = true) :
    ∃ r : StatsResult, ∀ (fuel : Nat) (s : List time.Duration),
      GetCommitStats src (fuel + 1) ⟨k, s⟩ = (⟨k + 1, s⟩, some r) := by
  unfold Exchange.final at hfin
  cases hDo : (src.Do k).Do with
  | error e => exact ⟨_, fun fuel s => by simp only [GetCommitStats, hReq, hDo]; rfl⟩
  | ok resp =>
    rw [hDo] at hfin
    simp only [Bool.and_eq_true, decide_eq_true_eq, Bool.or_eq_true, bne_iff_ne, ne_eq,
      Option.isNone_iff_eq_none] at hfin
    obtain ⟨hlt, h403⟩ := hfin
    have h5 : ¬ resp.StatusCode ≥ 500 := by omega
    by_cases a : resp.StatusCode = 404
    · exact ⟨_, fun fuel s => by simp only [GetCommitStats, hReq, hDo, a]; rfl⟩
    · by_cases b : resp.StatusCode = 403
      · have hw : rateLimitWait resp.RateLimitReset (src.Do k).now = none := by
          rcases h403 with h | h
          · exact absurd b h
          · exact h
        exact ⟨_, fun fuel s => by simp only [GetCommitStats, hReq, hDo, a, b, hw]; rfl⟩
      · by_cases c : resp.StatusCode = 200
        · cases hB : resp.Body with
          | error e => exact ⟨_, fun fuel s => by simp only [GetCommitStats, hReq, hDo, a, b, c, hB]; rfl⟩
          | ok api => exact ⟨_, fun fuel s => by simp only [GetCommitStats, hReq, hDo, a, b, c, hB]; rfl⟩
        · exact ⟨_, fun fuel s => by simp only [GetCommitStats, hReq, hDo, a, b, c, h5]; rfl⟩

theorem FetchEvents_final (src : Source (List Event)) (etag : String) (k : Nat)
    (hReq : src.NewRequest = none) (hfin : (src.Do k).final = true) :
    ∃ r : EventsResult, ∀ (fuel : Nat) (s : List time.Duration),
      FetchEvents src (fuel + 1) etag ⟨k, s⟩ = (⟨k + 1, s⟩, some r) := by
  unfold Exchange.final at hfin
  cases hDo : (src.Do k).Do with
  | error e => exact ⟨_, fun fuel s => by simp only [FetchEvents, hReq, hDo]; rfl⟩
  | ok resp =>
    rw [hDo] at hfin
    simp only [Bool.and_eq_true, decide_eq_true_eq, Bool.or_eq_true, bne_iff_ne, ne_eq,
      Option.isNone_iff_eq_none] at hfin
    obtain ⟨hlt, h403⟩ := hfin
    have h5 : ¬ resp.StatusCode ≥ 500 := by omega
    by_cases a : resp.StatusCode = 304
    · exact ⟨_, fun fuel s => by simp only [FetchEvents, hReq, hDo, a]; rfl⟩
    · by_cases b : resp.StatusCode = 403
      · have hw : rateLimitWait resp.RateLimitReset (src.Do k).now = none := by
          rcases h403 with h | h
          · exact absurd b h
          · exact h
        exact ⟨_, fun fuel s => by simp only [FetchEvents, hReq, hDo, a, b, hw]; rfl⟩
      · by_cases c : resp.StatusCode = 200
        · cases hB : resp.Body with
          | error e => exact ⟨_, fun fuel s => by simp only [FetchEvents, hReq, hDo, a, b, c, hB]; rfl⟩
          | ok evs => exact ⟨_, fun fuel s => by simp only [FetchEvents, hReq, hDo, a, b, c, hB]; rfl⟩
        · exact ⟨_, fun fuel s => by simp only [FetchEvents, hReq, hDo, a, b, c, h5]; rfl⟩

/-- C7 (as stated, refuted).  A source that answers 500 and then 400 to every later
request: one call of `GetCommitStats`, and one call of `FetchEvents`, sends four requests,
not three, sleeping 1 s, 2 s and 4 s between them, before it returns the error of the
last one. -/
theorem C7_counterexample_four_requests :
    GetCommitStats
        (script [statusOnly CommitAPIResponse 500 "500 Internal Server Error"]
          (statusOnly CommitAPIResponse 400 "400 Bad Request")) 5 Net.start
      = ({ requests := 4, sleeps := [1000000000, 2000000000, 4000000000] },
          some ⟨none, some (GoError.other "commit API: 400 Bad Request")⟩) ∧
    FetchEvents
        (script [statusOnly (List Event) 500 "500 Internal Server Error"]
          (statusOnly (List Event) 400 "400 Bad Request")) 5 "" Net.start
      = ({ requests := 4, sleeps := [1000000000, 2000000000, 4000000000] },
          some ⟨[], "", some (GoError.other "events API: 400 Bad Request")⟩) := by
  decide

/-- C7 (amended).  When the request of a call of `FetchEvents` or `GetCommitStats` is
answered 5xx and each of the next three requests meets a final exchange (one that is
neither a 5xx nor a 403 with a wait to sleep), the call calls itself at most three times,
so that it sends at most four requests in all; it sleeps 1 s before the first of these
calls, 2 s before the second and 4 s before the third; it returns the result of the first
of them that has no error; and if all three have an error it returns the error of the
third.  Here `r1`, `r2`, `r3` are the results of the three calls. -/
theorem C7_retry_schedule :
    (∀ (src : Source CommitAPIResponse) (k fuel : Nat) (s0 : List time.Duration)
        (resp : Response CommitAPIResponse),
      src.NewRequest = none → (src.Do k).Do = .ok resp → resp.StatusCode ≥ 500 →
      (src.Do (k + 1)).final = true → (src.Do (k + 2)).final = true →
      (src.Do (k + 3)).final = true →
      ∃ r1 r2 r3 : StatsResult,
        (∀ s, GetCommitStats src 1 ⟨k + 1, s⟩ = (⟨k + 2, s⟩, some r1)) ∧
        (∀ s, GetCommitStats src 1 ⟨k + 2, s⟩ = (⟨k + 3, s⟩, some r2)) ∧
        (∀ s, GetCommitStats src 1 ⟨k + 3, s⟩ = (⟨k + 4, s⟩, some r3)) ∧
        GetCommitStats src (fuel + 2) ⟨k, s0⟩ =
          if r1.err = none then (⟨k + 2, s0 ++ [1 * time.Second]⟩, some r1)
          else if r2.err = none then
            (⟨k + 3, s0 ++ [1 * time.Second, 2 * time.Second]⟩, some r2)
          else if r3.err = none then
            (⟨k + 4, s0 ++ [1 * time.Second, 2 * time.Second, 4 * time.Second]⟩, some r3)
          else
            (⟨k + 4, s0 ++ [1 * time.Second, 2 * time.Second, 4 * time.Second]⟩,
              some ⟨none, r3.err⟩)) ∧
    (∀ (src : Source (List Event)) (etag : String) (k fuel : Nat) (s0 : List time.Duration)
        (resp : Response (List Event)),
      src.NewRequest = none → (src.Do k).Do = .ok resp → resp.StatusCode ≥ 500 →
      (src.Do (k + 1)).final = true → (src.Do (k + 2)).final = true →
      (src.Do (k + 3)).final = true →
      ∃ r1 r2 r3 : EventsResult,
        (∀ s, FetchEvents src 1 etag ⟨k + 1, s⟩ = (⟨k + 2, s⟩, some r1)) ∧
        (∀ s, FetchEvents src 1 etag ⟨k + 2, s⟩ = (⟨k + 3, s⟩, some r2)) ∧
        (∀ s, FetchEvents src 1 etag ⟨k + 3, s⟩ = (⟨k + 4, s⟩, some r3)) ∧
        FetchEvents src (fuel + 2) etag ⟨k, s0⟩ =
          if r1.err = none then (⟨k + 2, s0 ++ [1 * time.Second]⟩, some r1)
          else if r2.err = none then
            (⟨k + 3, s0 ++ [1 * time.Second, 2 * time.Second]⟩, some r2)
          else if r3.err = none then
            (⟨k + 4, s0 ++ [1 * time.Second, 2 * time.Second, 4 * time.Second]⟩, some r3)
          else
            (⟨k + 4, s0 ++ [1 * time.Second, 2 * time.Second, 4 * time.Second]⟩,
              some ⟨[], strings.Trim resp.ETag '\x22', r3.err⟩)) := by
  constructor
  · intro src k fuel s0 resp hReq hDo h5 f1 f2 f3
    obtain ⟨r1, h1⟩ := GetCommitStats_final src (k + 1) hReq f1
    obtain ⟨r2, h2⟩ := GetCommitStats_final src (k + 2) hReq f2
    obtain ⟨r3, h3⟩ := GetCommitStats_final src (k + 3) hReq f3
    refine ⟨r1, r2, r3, h1 0, h2 0, h3 0, ?_⟩
    rw [GetCommitStats_5xx src (fuel + 1) ⟨k, s0⟩ resp hReq hDo h5]
    exact retryLoop_three _ _ _ _ (k + 1) s0 r1 r2 r3 (h1 fuel) (h2 fuel) (h3 fuel)
  · intro src etag k fuel s0 resp hReq hDo h5 f1 f2 f3
    obtain ⟨r1, h1⟩ := FetchEvents_final src etag (k + 1) hReq f1
    obtain ⟨r2, h2⟩ := FetchEvents_final src etag (k + 2) hReq f2
    obtain ⟨r3, h3⟩ := FetchEvents_final src etag (k + 3) hReq f3
    refine ⟨r1, r2, r3, h1 0, h2 0, h3 0, ?_⟩
    rw [FetchEvents_5xx src (fuel + 1) etag ⟨k, s0⟩ resp hReq hDo h5]
    exact retryLoop_three _ _ _ _ (k + 1) s0 r1 r2 r3 (h1 fuel) (h2 fuel) (h3 fuel)

/-- The amended C7 at a source that answers 500, 400, 400 and then 200: the call of
`GetCommitStats` returns the statistics of the fourth response after sleeping 1 s, 2 s
and 4 s. -/
theorem C7_retry_schedule_witness :
    GetCommitStats
        (script [statusOnly CommitAPIResponse 500 "500 Internal Server Error",
            statusOnly CommitAPIResponse 400 "400 Bad Request",
            statusOnly CommitAPIResponse 400 "400 Bad Request"] (okWith apiCommit))
        2 ⟨0, []⟩
      = (⟨4, [1 * time.Second, 2 * time.Second, 4 * time.Second]⟩,
          some ⟨some (statsOf apiCommit), none⟩) := by
  obtain ⟨r1, r2, r3, h1, h2, h3, h⟩ := C7_retry_schedule.1
    (script [statusOnly CommitAPIResponse 500 "500 Internal Server Error",
        statusOnly CommitAPIResponse 400 "400 Bad Request",
        statusOnly CommitAPIResponse 400 "400 Bad Request"] (okWith apiCommit))
    0 0 []
    { StatusCode := 500, Status := "500 Internal Server Error", ETag := "",
      RateLimitReset := "", Body := .error (GoError.other "body not read") }
    rfl rfl (by decide) (by decide) (by decide) (by decide)
  have e1 : r1 = ⟨none, some (GoError.other "commit API: 400 Bad Request")⟩ := by
    have := h1 []
    simpa [GetCommitStats, script, statusOnly] using this.symm
  have e2 : r2 = ⟨none, some (GoError.other "commit API: 400 Bad Request")⟩ := by
    have := h2 []
    simpa [GetCommitStats, script, statusOnly] using this.symm
  have e3 : r3 = ⟨some (statsOf apiCommit), none⟩ := by
    have := h3 []
    simpa [GetCommitStats, script, okWith] using this.symm
  rw [h, e1, e2, e3]
  simp

end github

namespace github

theorem retryLoop_mono {ρ : Type} (call call1 : Net → Net × Option ρ)
    (err : ρ → Option GoError) (last : ρ → ρ) (after : ρ)
    (hcall : ∀ m m1 r, call m = (m1, some r) → call1 m = (m1, some r)) :
    ∀ (todo attempt : Nat) (n n1 : Net) (r : ρ),
      retryLoop call err last after todo attempt n = (n1, some r) →
      retryLoop call1 err last after todo attempt n = (n1, some r) := by
  intro todo
  induction todo with
  | zero => intro attempt n n1 r h; simpa [retryLoop] using h
  | succ todo ih =>
    intro attempt n n1 r h
    simp only [retryLoop] at h ⊢
    rcases hc : call (n.Sleep (((1 <<< attempt : Nat) : Int) * time.Second)) with ⟨m1, res⟩
    rw [hc] at h
    cases res with
    | none => simp at h
    | some r1 =>
      rw [hcall _ _ _ hc]
      simp only at h ⊢
      by_cases he : err r1 = none
      · simpa [he] using h
      · by_cases ha : attempt = 2
        · simpa [he, ha] using h
        · simp only [he, ha, if_false] at h ⊢
          exact ih _ _ _ _ h

/-- A call of `GetCommitStats` that returns within some depth of its calls of itself
returns the same, having done the same, within any greater depth. -/
theorem GetCommitStats_fuel_succ (src : Source CommitAPIResponse) :
    ∀ (fuel : Nat) (n n1 : Net) (r : StatsResult),
      GetCommitStats src fuel n = (n1, some r) →
      GetCommitStats src (fuel + 1) n = (n1, some r) := by
  intro fuel
  induction fuel with
  | zero => intro n n1 r h; simp [GetCommitStats] at h
  | succ fuel ih =>
    intro n n1 r h
    rw [GetCommitStats] at h ⊢
    cases hR : src.NewRequest with
    | some e => simpa [hR] using h
    | none =>
      simp only [hR] at h ⊢
      cases hDo : (src.Do n.requests).Do with
      | error e => simpa [hDo] using h
      | ok resp =>
        simp only [hDo] at h ⊢
        by_cases a : resp.StatusCode = 404
        · simpa [a] using h
        · by_cases b : resp.StatusCode = 403
          · simp only [a, b, if_true, if_false] at h ⊢
            cases hw : rateLimitWait resp.RateLimitReset (src.Do n.requests).now with
            | none => simpa [hw] using h
            | some w =>
              simp only [hw] at h ⊢
              exact ih _ _ _ h
          · by_cases c : resp.StatusCode = 200
            · simpa [a, b, c] using h
            · by_cases d : resp.StatusCode ≥ 500
              · simp only [a, b, c, d, if_true, if_false] at h ⊢
                exact retryLoop_mono _ _ _ _ _ (fun m m1 r hc => ih m m1 r hc) _ _ _ _ _ h
              · simpa [a, b, c, d] using h

/-- A call of `FetchEvents` that returns within some depth of its calls of itself returns
the same, having done the same, within any greater depth. -/
theorem FetchEvents_fuel_succ (src : Source (List Event)) (etag : String) :
    ∀ (fuel : Nat) (n n1 : Net) (r : EventsResult),
      FetchEvents src fuel etag n = (n1, some r) →
      FetchEvents src (fuel + 1) etag n = (n1, some r) := by
  intro fuel
  induction fuel with
  | zero => intro n n1 r h; simp [FetchEvents] at h
  | succ fuel ih =>
    intro n n1 r h
    rw [FetchEvents] at h ⊢
    cases hR : src.NewRequest with
    | some e => simpa [hR] using h
    | none =>
      simp only [hR] at h ⊢
      cases hDo : (src.Do n.requests).Do with
      | error e => simpa [hDo] using h
      | ok resp =>
        simp only [hDo] at h ⊢
        by_cases a : resp.StatusCode = 304
        · simpa [a] using h
        · by_cases b : resp.StatusCode = 403
          · simp only [a, b, if_true, if_false] at h ⊢
            cases hw : rateLimitWait resp.RateLimitReset (src.Do n.requests).now with
            | none => simpa [hw] using h
            | some w =>
              simp only [hw] at h ⊢
              exact ih _ _ _ h
          · by_cases c : resp.StatusCode = 200
            · simpa [a, b, c] using h
            · by_cases d : resp.StatusCode ≥ 500
              · simp only [a, b, c, d, if_true, if_false] at h ⊢
                exact retryLoop_mono _ _ _ _ _ (fun m m1 r hc => ih m m1 r hc) _ _ _ _ _ h
              · simpa [a, b, c, d] using h

end github

namespace github

/-- C8 (the code at the failing input).  A source that answers 403 with a reset 10 s ahead,
then, to the retry, 403 again with a reset 59.8 s ahead, then 200: the call of
`GetCommitStats`, and likewise the call of `FetchEvents`, sleeps a second time and sends a
third request, whose result it returns, where the claim has it return `ErrRateLimited`
after the second response. -/
theorem C8_rate_limited_retry_sleeps_again :
    GetCommitStats
        (script [rateLimited CommitAPIResponse "1700000010" 1700000000000000000,
            rateLimited CommitAPIResponse "1700000070" 1700000010200000000]
          (okWith apiCommit)) 5 Net.start
      = ({ requests := 3, sleeps := [10000000000, 59800000000] },
          some ⟨some (statsOf apiCommit), none⟩) ∧
    FetchEvents
        (script [rateLimited (List Event) "1700000010" 1700000000000000000,
            rateLimited (List Event) "1700000070" 1700000010200000000]
          (okWith [pubsub.eventTwoCommits])) 5 "" Net.start
      = ({ requests := 3, sleeps := [10000000000, 59800000000] },
          some ⟨[pubsub.eventTwoCommits], "abc", none⟩) := by
  decide

/-- C9 (the code at the failing input).  A 404 that answers the first request of a call of
`GetCommitStats` ends the call with `ErrNotFound` after that one request; but a 404 that
answers a request sent from the 5xx loop does not: after 500 and 404 the call sleeps 2 s
and sends a third request, whose statistics it returns, and when every later answer is
404 it sends four requests before it returns `ErrNotFound`. -/
theorem C9_not_found_in_retry_loop_is_retried :
    GetCommitStats
        (script [] (statusOnly CommitAPIResponse 404 "404 Not Found")) 5 Net.start
      = ({ requests := 1, sleeps := [] }, some ⟨none, some GoError.ErrNotFound⟩) ∧
    GetCommitStats
        (script [statusOnly CommitAPIResponse 500 "500 Internal Server Error",
            statusOnly CommitAPIResponse 404 "404 Not Found"] (okWith apiCommit)) 5 Net.start
      = ({ requests := 3, sleeps := [1000000000, 2000000000] },
          some ⟨some (statsOf apiCommit), none⟩) ∧
    GetCommitStats
        (script [statusOnly CommitAPIResponse 500 "500 Internal Server Error"]
          (statusOnly CommitAPIResponse 404 "404 Not Found")) 5 Net.start
      = ({ requests := 4, sleeps := [1000000000, 2000000000, 4000000000] },
          some ⟨none, some GoError.ErrNotFound⟩) := by
  decide

theorem GetCommitStats_always_5xx (src : Source CommitAPIResponse)
    (hReq : src.NewRequest = none)
    (h5 : ∀ k, ∃ resp, (src.Do k).Do = .ok resp ∧ resp.StatusCode ≥ 500) :
    ∀ (fuel : Nat) (n : Net),
      GetCommitStats src fuel n =
        (⟨n.requests + fuel, n.sleeps ++ List.replicate fuel time.Second⟩, none) := by
  intro fuel
  induction fuel with
  | zero => intro n; simp [GetCommitStats]
  | succ fuel ih =>
    intro n
    obtain ⟨resp, hDo, hge⟩ := h5 n.requests
    rw [GetCommitStats_5xx src fuel n resp hReq hDo hge]
    have e0 : ((1 <<< 0 : Nat) : Int) * time.Second = time.Second := by decide
    simp only [retryLoop, Net.Sleep, ih, e0]
    simp [List.replicate_succ, Nat.add_assoc, Nat.add_comm 1]

theorem FetchEvents_always_5xx (src : Source (List Event)) (etag : String)
    (hReq : src.NewRequest = none)
    (h5 : ∀ k, ∃ resp, (src.Do k).Do = .ok resp ∧ resp.StatusCode ≥ 500) :
    ∀ (fuel : Nat) (n : Net),
      FetchEvents src fuel etag n =
        (⟨n.requests + fuel, n.sleeps ++ List.replicate fuel time.Second⟩, none) := by
  intro fuel
  induction fuel with
  | zero => intro n; simp [FetchEvents]
  | succ fuel ih =>
    intro n
    obtain ⟨resp, hDo, hge⟩ := h5 n.requests
    rw [FetchEvents_5xx src fuel etag n resp hReq hDo hge]
    have e0 : ((1 <<< 0 : Nat) : Int) * time.Second = time.Second := by decide
    simp only [retryLoop, Net.Sleep, ih, e0]
    simp [List.replicate_succ, Nat.add_assoc, Nat.add_comm 1]

/-- C10 (the code at the failing input).  Against a source that answers 500 to every
request, a call of `GetCommitStats` or of `FetchEvents` has not returned at any depth of
its calls of itself: within depth `fuel` it has sent `fuel` requests, each after the first
following a sleep of 1 s.  No number of requests bounds the call. -/
theorem C10_always_5xx_never_returns :
    (∀ fuel : Nat,
      GetCommitStats (script [] (statusOnly CommitAPIResponse 500 "500 Internal Server Error"))
          fuel Net.start
        = (⟨fuel, List.replicate fuel time.Second⟩, none)) ∧
    (∀ (fuel : Nat) (etag : String),
      FetchEvents (script [] (statusOnly (List Event) 500 "500 Internal Server Error"))
          fuel etag Net.start
        = (⟨fuel, List.replicate fuel time.Second⟩, none)) := by
  constructor
  · intro fuel
    have h := GetCommitStats_always_5xx
      (script [] (statusOnly CommitAPIResponse 500 "500 Internal Server Error")) rfl
      (fun k => ⟨_, rfl, by decide⟩) fuel Net.start
    simpa [Net.start] using h
  · intro fuel etag
    have h := FetchEvents_always_5xx
      (script [] (statusOnly (List Event) 500 "500 Internal Server Error")) etag rfl
      (fun k => ⟨_, rfl, by decide⟩) fuel Net.start
    simpa [Net.start] using h

end github

/-! ## C11, C12: the unchanged fetch -/

namespace strings

theorem dropWhile_of_all_false {α : Type} (p : α → Bool) (l : List α)
    (hl : ∀ x, x ∈ l → p x = false) : l.dropWhile p = l := by
  cases l with
  | nil => rfl
  | cons a t =>
    have ha : p a = false := hl a (by simp)
    simp [List.dropWhile, ha]

/-- Trimming the double quotes of a quoted string that has no double quote inside gives
the string between the quotes. -/
theorem Trim_quoted (v : String) (hv : '\x22' ∉ v.data) :
    Trim ("\"" ++ v ++ "\"") '\x22' = v := by
  have hp : ∀ x, x ∈ v.data → (x == '\x22') = false := by
    intro x hx
    have : x ≠ '\x22' := fun h => hv (h ▸ hx)
    simpa using this
  have hd : ("\"" ++ v ++ "\"").data = '\x22' :: (v.data ++ ['\x22']) := by
    simp only [String.data_append]
    rfl
  unfold Trim
  apply String.ext
  rw [hd]
  show ((List.dropWhile (fun c => c == '\x22') ('\x22' :: (v.data ++ ['\x22']))).reverse.dropWhile
    (fun c => c == '\x22')).reverse = v.data
  have h1 : List.dropWhile (fun c => c == '\x22') ('\x22' :: (v.data ++ ['\x22']))
      = List.dropWhile (fun c => c == '\x22') (v.data ++ ['\x22']) := by
    simp [List.dropWhile]
  rw [h1]
  cases hv2 : v.data with
  | nil => simp [List.dropWhile]
  | cons a t =>
    have ha : (a == '\x22') = false := hp a (by simp [hv2])
    have h2 : List.dropWhile (fun c => c == '\x22') (a :: t ++ ['\x22']) = a :: t ++ ['\x22'] := by
      simp [List.dropWhile, ha]
    rw [h2]
    have h3 : (a :: t ++ ['\x22']).reverse = '\x22' :: (a :: t).reverse := by simp
    rw [h3]
    have h4 : List.dropWhile (fun c => c == '\x22') ('\x22' :: (a :: t).reverse)
        = List.dropWhile (fun c => c == '\x22') (a :: t).reverse := by
      simp [List.dropWhile]
    rw [h4, dropWhile_of_all_false]
    · simp
    · intro x hx
      exact hp x (by rw [hv2]; exact List.mem_reverse.mp hx)

end strings

namespace github

/-- C11 (as stated, refuted).  A 304 response without `ETag` header makes `FetchEvents`
return the empty cursor, which is not the cursor `v1` it was called with; and a 304
response with the weak validator `W/"v2"` makes it return `W/"v2`, which is neither the
cursor passed in nor the validator the response carries. -/
theorem C11_counterexample_cursor_neither :
    FetchEvents (script [] (notModified "")) 1 "v1" Net.start
      = ({ requests := 1, sleeps := [] }, some ⟨[], "", none⟩) ∧
    ("" : String) ≠ "v1" ∧
    FetchEvents (script [] (notModified "W/\"v2\"")) 1 "v1" Net.start
      = ({ requests := 1, sleeps := [] }, some ⟨[], "W/\"v2", none⟩) ∧
    ("W/\"v2" : String) ≠ "v1" ∧ ("W/\"v2" : String) ≠ "W/\"v2\"" ∧
    ("W/\"v2" : String) ≠ "v2" := by
  decide

/-- C11 (amended).  When the request of a call `FetchEvents(c)` is answered 304, the call
returns, after that one request and without sleeping, an empty event list, no error, and
as new cursor the value of the response's `ETag` header with its leading and trailing
double quotes removed, whatever `c` is: the tag `v` for a header `"v"`, and the empty
cursor for a response without the header. -/
theorem C11_not_modified (src : Source (List Event)) (fuel : Nat) (c : String) (n : Net)
    (resp : Response (List Event))
    (hReq : src.NewRequest = none)
    (hDo : (src.Do n.requests).Do = .ok resp)
    (h304 : resp.StatusCode = 304) :
    FetchEvents src (fuel + 1) c n
      = (⟨n.requests + 1, n.sleeps⟩, some ⟨[], strings.Trim resp.ETag '\x22', none⟩) ∧
    (∀ v : String, '\x22' ∉ v.data → resp.ETag = "\"" ++ v ++ "\"" →
      strings.Trim resp.ETag '\x22' = v) ∧
    (resp.ETag = "" → strings.Trim resp.ETag '\x22' = "") := by
  refine ⟨?_, ?_, ?_⟩
  · simp [FetchEvents, hReq, hDo, h304]
  · intro v hv he
    rw [he]
    exact strings.Trim_quoted v hv
  · intro he
    rw [he]
    decide

/-- The amended C11 at a 304 response with header `ETag: "v2"`, for a call with cursor
`v1`: the new cursor is `v2`. -/
theorem C11_not_modified_witness :
    FetchEvents (script [] (notModified "\"v2\"")) 1 "v1" Net.start
      = (⟨1, []⟩, some ⟨[], "v2", none⟩) := by
  have h := C11_not_modified (script [] (notModified "\"v2\"")) 0 "v1" Net.start
    { StatusCode := 304, Status := "304 Not Modified", ETag := "\"v2\"",
      RateLimitReset := "", Body := .error (GoError.other "body not read") }
    rfl rfl rfl
  rw [h.1, h.2.1 "v2" (by decide) rfl]
  rfl

end github

namespace pubsub

theorem enqueue_fetches (env : ProducerEnv) (e : github.Event) (o r : String) :
    ∀ (shas : List String) (st : ProducerState),
      (enqueue env e o r shas st).1.fetches = st.fetches ∧
      (enqueue env e o r shas st).1.etag = st.etag := by
  intro shas
  induction shas with
  | nil => intro st; simp [enqueue]
  | cons sha rest ih =>
    intro st
    by_cases h0 : env.ctxDone st.selects = true
    · simp [enqueue, h0]
    · simp only [enqueue, h0]
      exact ih _

theorem processEvent_fetches (env : ProducerEnv) (e : github.Event) (st : ProducerState) :
    (processEvent env e st).1.fetches = st.fetches ∧
    (processEvent env e st).1.etag = st.etag := by
  by_cases hType : e.Type_ = "PushEvent"
  · rcases hIns : env.InsertPushEvent st.inserts (eventToRow e) with ⟨b, err⟩
    cases err with
    | some err => simp [processEvent, hType, hIns]
    | none =>
      cases b with
      | false => simp [processEvent, hType, hIns]
      | true =>
        cases hP : env.Unmarshal e.RawPayload with
        | error err => simp [processEvent, hType, hIns, hP]
        | ok payload =>
          rw [processEvent_inserted env st e payload hType hIns hP]
          exact enqueue_fetches env e _ _ _ _
  · simp [processEvent, hType]

theorem processEvents_fetches (env : ProducerEnv) :
    ∀ (evs : List github.Event) (st : ProducerState),
      (processEvents env evs st).1.fetches = st.fetches ∧
      (processEvents env evs st).1.etag = st.etag := by
  intro evs
  induction evs with
  | nil => intro st; simp [processEvents]
  | cons e rest ih =>
    intro st
    have h := processEvent_fetches env e st
    rcases hpe : processEvent env e st with ⟨st1, ret⟩
    rw [hpe] at h
    cases ret with
    | true => simpa [processEvents, hpe] using h
    | false =>
      simp only [processEvents, hpe]
      have h2 := ih st1
      exact ⟨h2.1.trans h.1, h2.2.trans h.2⟩

/-- The cursors that `Run` has passed to `FetchEvents` only grow: what was recorded stays
recorded, in order. -/
theorem Run_fetches_prefix (env : ProducerEnv) :
    ∀ (fuel : Nat) (st : ProducerState),
      ∃ rest, (Run env fuel st).1.fetches = st.fetches ++ rest := by
  intro fuel
  induction fuel with
  | zero => intro st; exact ⟨[], by simp [Run]⟩
  | succ fuel ih =>
    intro st
    rw [Run]
    by_cases h0 : env.ctxDone st.selects = true
    · exact ⟨[], by simp [h0]⟩
    · simp only [h0]
      rcases hF : env.FetchEvents st.fetches st.etag with ⟨events, newEtag, err⟩
      cases err with
      | some err =>
        obtain ⟨rest, hrest⟩ := ih
          { st with selects := st.selects + 1, fetches := st.fetches ++ [st.etag],
                    logs := st.logs ++ [⟨"WARN", "fetch events"⟩] }
        exact ⟨st.etag :: rest, by simpa using hrest⟩
      | none =>
        simp only
        generalize hst2 : (if events.length > 0 then
            ({ st with selects := st.selects + 1, fetches := st.fetches ++ [st.etag],
                       etag := newEtag, logs := st.logs ++ [⟨"INFO", "events fetched"⟩] } :
              ProducerState)
          else { st with selects := st.selects + 1, fetches := st.fetches ++ [st.etag],
                         etag := newEtag }) = st2
        have hf2 : st2.fetches = st.fetches ++ [st.etag] := by
          rw [← hst2]; split <;> rfl
        have hpf := (processEvents_fetches env events st2).1
        rcases hpe : processEvents env events st2 with ⟨st3, ret⟩
        rw [hpe] at hpf
        simp only at hpf
        cases ret with
        | true => exact ⟨[st.etag], by simp [hpf, hf2]⟩
        | false =>
          simp only
          by_cases h1 : env.ctxDone st3.selects = true
          · exact ⟨[st.etag], by simp [h1, hpf, hf2]⟩
          · simp only [h1]
            obtain ⟨rest, hrest⟩ := ih { st3 with selects := st3.selects + 1,
                                                  polls := st3.polls + 1 }
            exact ⟨st.etag :: rest, by simpa [hpf, hf2] using hrest⟩

/-- A pass of `Run` that is not stopped at its first check passes the current `etag` to
`FetchEvents`. -/
theorem Run_records_cursor (env : ProducerEnv) (fuel : Nat) (st : ProducerState)
    (h0 : env.ctxDone st.selects = false) :
    ∃ rest, (Run env (fuel + 1) st).1.fetches = st.fetches ++ st.etag :: rest := by
  rw [Run]
  simp only [h0, Bool.false_eq_true, if_false]
  rcases hF : env.FetchEvents st.fetches st.etag with ⟨events, newEtag, err⟩
  cases err with
  | some err =>
    obtain ⟨rest, hrest⟩ := Run_fetches_prefix env fuel
      { st with selects := st.selects + 1, fetches := st.fetches ++ [st.etag],
                logs := st.logs ++ [⟨"WARN", "fetch events"⟩] }
    exact ⟨rest, by simpa using hrest⟩
  | none =>
    simp only
    generalize hst2 : (if events.length > 0 then
        ({ st with selects := st.selects + 1, fetches := st.fetches ++ [st.etag],
                   etag := newEtag, logs := st.logs ++ [⟨"INFO", "events fetched"⟩] } :
          ProducerState)
      else { st with selects := st.selects + 1, fetches := st.fetches ++ [st.etag],
                     etag := newEtag }) = st2
    have hf2 : st2.fetches = st.fetches ++ [st.etag] := by
      rw [← hst2]; split <;> rfl
    have hpf := (processEvents_fetches env events st2).1
    rcases hpe : processEvents env events st2 with ⟨st3, ret⟩
    rw [hpe] at hpf
    simp only at hpf
    cases ret with
    | true => exact ⟨[], by simp [hpf, hf2]⟩
    | false =>
      simp only
      by_cases h1 : env.ctxDone st3.selects = true
      · exact ⟨[], by simp [h1, hpf, hf2]⟩
      · simp only [h1]
        obtain ⟨rest, hrest⟩ := Run_fetches_prefix env fuel
          { st3 with selects := st3.selects + 1, polls := st3.polls + 1 }
        exact ⟨rest, by simpa [hpf, hf2] using hrest⟩

/-- C12.  In a pass of `Producer.Run` whose `FetchEvents` call returns an unchanged result
(no event, cursor `c1`, no error), `InsertPushEvent` is not called, no job is enqueued and
nothing is logged: `Run` either returns at the poll `select` or begins its next pass in a
state whose record of insert calls and of jobs sent is the one the pass started with and
whose `etag` is `c1`; and when `Run` is not stopped before it fetches again, `c1` is the
cursor it passes to that next `FetchEvents` call. -/
theorem C12_unchanged_fetch_moves_only_cursor (env : ProducerEnv) (st : ProducerState)
    (fuel : Nat) (c1 : String)
    (hrun : env.ctxDone st.selects = false)
    (hFetch : env.FetchEvents st.fetches st.etag = ([], c1, none)) :
    Run env (fuel + 1) st =
      (if env.ctxDone (st.selects + 1) = true then
        ({ etag := c1, selects := st.selects + 2, fetches := st.fetches ++ [st.etag],
           inserts := st.inserts, sent := st.sent, polls := st.polls,
           logs := st.logs ++ [⟨"INFO", "producer stopping"⟩] }, true)
      else
        Run env fuel
          { etag := c1, selects := st.selects + 2, fetches := st.fetches ++ [st.etag],
            inserts := st.inserts, sent := st.sent, polls := st.polls + 1,
            logs := st.logs }) ∧
    (env.ctxDone (st.selects + 1) = false → env.ctxDone (st.selects + 2) = false →
      ∃ rest, (Run env (fuel + 2) st).1.fetches = st.fetches ++ [st.etag, c1] ++ rest) := by
  have hpass : ∀ f : Nat, Run env (f + 1) st =
      (if env.ctxDone (st.selects + 1) = true then
        ({ etag := c1, selects := st.selects + 2, fetches := st.fetches ++ [st.etag],
           inserts := st.inserts, sent := st.sent, polls := st.polls,
           logs := st.logs ++ [⟨"INFO", "producer stopping"⟩] }, true)
      else
        Run env f
          { etag := c1, selects := st.selects + 2, fetches := st.fetches ++ [st.etag],
            inserts := st.inserts, sent := st.sent, polls := st.polls + 1,
            logs := st.logs }) := by
    intro f
    rw [Run]
    simp [hrun, hFetch, processEvents]
  refine ⟨hpass fuel, ?_⟩
  intro h1 h2
  rw [hpass (fuel + 1)]
  simp only [h1, Bool.false_eq_true, if_false]
  obtain ⟨rest, hrest⟩ := Run_records_cursor env fuel
    { etag := c1, selects := st.selects + 2, fetches := st.fetches ++ [st.etag],
      inserts := st.inserts, sent := st.sent, polls := st.polls + 1, logs := st.logs } h2
  exact ⟨rest, by simpa using hrest⟩

end pubsub

namespace pubsub

/-- C12 at a producer that starts with the empty cursor against a fetcher that answers
`v2` unchanged, and is cancelled at the fifth `select`: two passes are made, the second
`FetchEvents` call gets the cursor `v2`, and neither an insert call nor a job is recorded. -/
theorem C12_unchanged_fetch_moves_only_cursor_witness :
    (∃ rest, (Run (unchangedEnv 4) 2 ProducerState.init).1.fetches = ["", "v2"] ++ rest) ∧
    (Run (unchangedEnv 4) 3 ProducerState.init).1.inserts = [] ∧
    (Run (unchangedEnv 4) 3 ProducerState.init).1.sent = [] ∧
    (Run (unchangedEnv 4) 3 ProducerState.init).1.etag = "v2" := by
  have h := C12_unchanged_fetch_moves_only_cursor (unchangedEnv 4) ProducerState.init 0 "v2"
    (by decide) rfl
  exact ⟨h.2 (by decide) (by decide), by decide, by decide, by decide⟩

end pubsub

/-! ## C14: the rate-limit window -/

namespace strconv

theorem ParseInt_cases (s : String) :
    ((ParseInt s).2 = none ∧ (ParseInt s).1 < 2 ^ 63) ∨
    ((ParseInt s).2 ≠ none ∧
      ((ParseInt s).1 = 0 ∨ (ParseInt s).1 = 2 ^ 63 - 1 ∨ (ParseInt s).1 = -(2 ^ 63))) := by
  unfold ParseInt
  cases hs : s.data with
  | nil => right; simp
  | cons c cs =>
    simp only
    rcases hu : ParseUint (if (c == '+') = true ∨ (c == '-') = true then cs else c :: cs)
      with ⟨un, err⟩
    by_cases hsyn : err = some NumError.ErrSyntax
    · right; subst hsyn; simp
    · have hm : (match (un, err) with
          | (_, some NumError.ErrSyntax) => ((0 : Int), some NumError.ErrSyntax)
          | (un, _) =>
            if ¬ (c == '-') = true ∧ un ≥ 2 ^ 63 then (2 ^ 63 - 1, some NumError.ErrRange)
            else if (c == '-') = true ∧ un > 2 ^ 63 then (-(2 ^ 63), some NumError.ErrRange)
            else (if (c == '-') = true then -(un : Int) else (un : Int), none)) =
          (if ¬ (c == '-') = true ∧ un ≥ 2 ^ 63 then (2 ^ 63 - 1, some NumError.ErrRange)
            else if (c == '-') = true ∧ un > 2 ^ 63 then (-(2 ^ 63), some NumError.ErrRange)
            else (if (c == '-') = true then -(un : Int) else (un : Int), none)) := by
        cases err with
        | none => rfl
        | some e =>
          cases e with
          | ErrSyntax => exact absurd rfl hsyn
          | ErrRange => rfl
      rw [hm]
      by_cases h1 : ¬ (c == '-') = true ∧ un ≥ 2 ^ 63
      · right; rw [if_pos h1]; simp
      · by_cases h2 : (c == '-') = true ∧ un > 2 ^ 63
        · right; rw [if_neg h1, if_pos h2]; simp
        · left
          rw [if_neg h1, if_neg h2]
          refine ⟨rfl, ?_⟩
          by_cases hneg : (c == '-') = true
          · simp only [hneg, if_true]
            have h0 : (0 : Int) ≤ (un : Int) := Int.ofNat_nonneg un
            have h63 : (0 : Int) < 2 ^ 63 := by norm_num
            omega
          · simp only [hneg]
            have hlt : un < 2 ^ 63 := by
              by_contra hge
              exact h1 ⟨hneg, Nat.le_of_not_lt hge⟩
            have h3 : ((un : Nat) : Int) < ((2 ^ 63 : Nat) : Int) := Int.ofNat_lt.mpr hlt
            simpa using h3

end strconv

namespace time

/-- For a positive `int64` timestamp and a clock within 9 * 10^27 ns of the Unix epoch,
`time.Until(time.Unix(ts, 0))` lies strictly between 0 and 5 minutes exactly when the
exact difference `ts * 10^9 - now` does, and is then that difference. -/
theorem Until_window (ts now : Int) (hts : 0 < ts) (hmax : ts < 2 ^ 63)
    (hlo : -9000000000000000000000000000 ≤ now) (hhi : now ≤ 9000000000000000000000000000) :
    ((0 < Until (Unix ts 0) now ∧ Until (Unix ts 0) now < 5 * Minute) ↔
      (0 < ts * 1000000000 - now ∧ ts * 1000000000 - now < 300000000000)) ∧
    (0 < ts * 1000000000 - now → ts * 1000000000 - now < 300000000000 →
      Until (Unix ts 0) now = ts * 1000000000 - now) := by
  have e63 : (2 : Int) ^ 63 = 9223372036854775808 := by norm_num
  have e64 : (2 : Int) ^ 64 = 18446744073709551616 := by norm_num
  rw [e63] at hmax
  have hq := Int.ediv_add_emod now 1000000000
  have hr0 := Int.emod_nonneg now (show (1000000000 : Int) ≠ 0 by norm_num)
  have hr1 := Int.emod_lt_of_pos now (show (0 : Int) < 1000000000 by norm_num)
  have hw : (ts + 62135596800 < 9223372036854775808 ∧
        wrapInt64 (ts + 0 / 1000000000 + unixToInternal) = ts + 62135596800) ∨
      (9223372036854775808 ≤ ts + 62135596800 ∧
        wrapInt64 (ts + 0 / 1000000000 + unixToInternal)
          = ts + 62135596800 - 18446744073709551616) := by
    simp only [wrapInt64, unixToInternal, e63, e64, Int.zero_ediv, add_zero]
    omega
  simp only [Until, Sub, Unix, Now, Before, Second, Minute, minDuration,
    maxDuration, e63, Int.zero_emod, decide_eq_true_eq]
  unfold Duration
  generalize now / 1000000000 = q at *
  generalize now % 1000000000 = r at *
  rcases hw with ⟨hc, hw⟩ | ⟨hc, hw⟩
  · rw [hw]
    simp only [unixToInternal]
    have hd : (ts + 62135596800 - (q + 62135596800)) * 1000000000 + (0 - r)
        = ts * 1000000000 - now := by omega
    rw [hd]
    generalize ts * 1000000000 - now = m
    constructor
    · split_ifs <;> omega
    · intro h1 h2
      split_ifs <;> omega
  · rw [hw]
    simp only [unixToInternal]
    have hd : (ts + 62135596800 - 18446744073709551616 - (q + 62135596800)) * 1000000000
        + (0 - r) = ts * 1000000000 - now - 18446744073709551616000000000 := by omega
    rw [hd]
    have hm1 : 223371974719179008000000000 ≤ ts * 1000000000 - now := by omega
    have hm2 : ts * 1000000000 - now ≤ 18223372036854775808000000000 := by omega
    generalize ts * 1000000000 - now = m at hm1 hm2 ⊢
    constructor
    · split_ifs <;> omega
    · intro h1 h2
      split_ifs <;> omega
end time

namespace github

theorem Net.le_refl (a : Net) : Net.le a a := ⟨Nat.le_refl _, List.prefix_refl _⟩

theorem Net.le_trans {a b c : Net} (h1 : Net.le a b) (h2 : Net.le b c) : Net.le a c :=
  ⟨Nat.le_trans h1.1 h2.1, List.IsPrefix.trans h1.2 h2.2⟩

theorem Net.le_sleep (a : Net) (d : time.Duration) : Net.le a (a.Sleep d) :=
  ⟨Nat.le_refl _, List.prefix_append _ _⟩

theorem retryLoop_progress {ρ : Type} (call : Net → Net × Option ρ)
    (err : ρ → Option GoError) (last : ρ → ρ) (after : ρ)
    (hcall : ∀ m, Net.le m (call m).1) :
    ∀ (todo attempt : Nat) (n : Net),
      Net.le n (retryLoop call err last after todo attempt n).1 := by
  intro todo
  induction todo with
  | zero => intro attempt n; simp only [retryLoop]; exact Net.le_refl n
  | succ todo ih =>
    intro attempt n
    simp only [retryLoop]
    have hc := hcall (n.Sleep (((1 <<< attempt : Nat) : Int) * time.Second))
    have hs := Net.le_sleep n (((1 <<< attempt : Nat) : Int) * time.Second)
    rcases hcv : call (n.Sleep (((1 <<< attempt : Nat) : Int) * time.Second)) with ⟨m1, res⟩
    rw [hcv] at hc
    have hn1 : Net.le n m1 := Net.le_trans hs hc
    cases res with
    | none => exact hn1
    | some r1 =>
      simp only
      by_cases he : err r1 = none
      · simpa [he] using hn1
      · by_cases ha : attempt = 2
        · simpa [he, ha] using hn1
        · simp only [he, ha, if_false]
          exact Net.le_trans hn1 (ih _ _)

/-- A call of `GetCommitStats` only adds to what was done: requests are never taken back
and sleeps are appended. -/
theorem GetCommitStats_progress (src : Source CommitAPIResponse) :
    ∀ (fuel : Nat) (n : Net), Net.le n (GetCommitStats src fuel n).1 := by
  intro fuel
  induction fuel with
  | zero => intro n; simp only [GetCommitStats]; exact Net.le_refl n
  | succ fuel ih =>
    intro n
    have hstep : Net.le n ⟨n.requests + 1, n.sleeps⟩ := ⟨Nat.le_succ _, List.prefix_refl _⟩
    rw [GetCommitStats]
    cases hR : src.NewRequest with
    | some e => exact Net.le_refl n
    | none =>
      simp only
      cases hDo : (src.Do n.requests).Do with
      | error e => exact hstep
      | ok resp =>
        simp only
        by_cases a : resp.StatusCode = 404
        · simpa [a] using hstep
        · by_cases b : resp.StatusCode = 403
          · simp only [a, b, if_true, if_false]
            cases hw : rateLimitWait resp.RateLimitReset (src.Do n.requests).now with
            | none => exact hstep
            | some w =>
              simp only
              exact Net.le_trans (Net.le_trans hstep (Net.le_sleep _ w)) (ih _)
          · by_cases c : resp.StatusCode = 200
            · simp only [a, b, c, if_true, if_false]
              cases resp.Body <;> exact hstep
            · by_cases d : resp.StatusCode ≥ 500
              · simp only [a, b, c, d, if_true, if_false]
                exact Net.le_trans hstep (retryLoop_progress _ _ _ _ ih _ _ _)
              · simpa [a, b, c, d] using hstep

/-- A call of `FetchEvents` only adds to what was done. -/
theorem FetchEvents_progress (src : Source (List Event)) (etag : String) :
    ∀ (fuel : Nat) (n : Net), Net.le n (FetchEvents src fuel etag n).1 := by
  intro fuel
  induction fuel with
  | zero => intro n; simp only [FetchEvents]; exact Net.le_refl n
  | succ fuel ih =>
    intro n
    have hstep : Net.le n ⟨n.requests + 1, n.sleeps⟩ := ⟨Nat.le_succ _, List.prefix_refl _⟩
    rw [FetchEvents]
    cases hR : src.NewRequest with
    | some e => exact Net.le_refl n
    | none =>
      simp only
      cases hDo : (src.Do n.requests).Do with
      | error e => exact hstep
      | ok resp =>
        simp only
        by_cases a : resp.StatusCode = 304
        · simpa [a] using hstep
        · by_cases b : resp.StatusCode = 403
          · simp only [a, b, if_true, if_false]
            cases hw : rateLimitWait resp.RateLimitReset (src.Do n.requests).now with
            | none => exact hstep
            | some w =>
              simp only
              exact Net.le_trans (Net.le_trans hstep (Net.le_sleep _ w)) (ih _)
          · by_cases c : resp.StatusCode = 200
            · simp only [a, b, c, if_true, if_false]
              cases resp.Body <;> exact hstep
            · by_cases d : resp.StatusCode ≥ 500
              · simp only [a, b, c, d, if_true, if_false]
                exact Net.le_trans hstep (retryLoop_progress _ _ _ _ ih _ _ _)
              · simpa [a, b, c, d] using hstep

end github

namespace github

/-- The test of the 403 case against the exact wait: with a clock within 9 * 10^27 ns of
the Unix epoch, `rateLimitWait` gives the wait exactly when the header is present, parses
without error to a positive timestamp, and the wait until that timestamp is strictly
between 0 and 5 minutes. -/
theorem rateLimitWait_spec (reset : String) (now : Int)
    (hlo : -9000000000000000000000000000 ≤ now) (hhi : now ≤ 9000000000000000000000000000) :
    ((reset ≠ "" ∧ (strconv.ParseInt reset).2 = none ∧ 0 < (strconv.ParseInt reset).1 ∧
        0 < resetWait (strconv.ParseInt reset).1 now ∧
        resetWait (strconv.ParseInt reset).1 now < 300000000000) →
      rateLimitWait reset now = some (resetWait (strconv.ParseInt reset).1 now)) ∧
    (¬ (reset ≠ "" ∧ (strconv.ParseInt reset).2 = none ∧ 0 < (strconv.ParseInt reset).1 ∧
        0 < resetWait (strconv.ParseInt reset).1 now ∧
        resetWait (strconv.ParseInt reset).1 now < 300000000000) →
      rateLimitWait reset now = none) := by
  have e63 : (2 : Int) ^ 63 = 9223372036854775808 := by norm_num
  by_cases hne : reset = ""
  · subst hne
    constructor
    · intro h; exact absurd rfl h.1
    · intro _; simp [rateLimitWait]
  · by_cases hpos : 0 < (strconv.ParseInt reset).1
    · have hmax : (strconv.ParseInt reset).1 < 2 ^ 63 := by
        rcases strconv.ParseInt_cases reset with h | h
        · exact h.2
        · rcases h.2 with h0 | h0 | h0 <;> rw [h0] at hpos ⊢ <;> rw [e63] <;> omega
      obtain ⟨hiff, hval⟩ := time.Until_window (strconv.ParseInt reset).1 now hpos hmax hlo hhi
      have herr : (strconv.ParseInt reset).2 ≠ none →
          ¬ (0 < (strconv.ParseInt reset).1 * 1000000000 - now ∧
            (strconv.ParseInt reset).1 * 1000000000 - now < 300000000000) := by
        intro he
        rcases strconv.ParseInt_cases reset with h | h
        · exact absurd h.1 he
        · rcases h.2 with h0 | h0 | h0 <;> rw [h0] at hpos ⊢ <;> rw [e63] at * <;> omega
      unfold resetWait
      constructor
      · intro h
        have hin := hiff.mpr ⟨h.2.2.2.1, h.2.2.2.2⟩
        simp only [rateLimitWait, ne_eq, hne, not_false_eq_true, if_true, gt_iff_lt, hpos, hin,
          and_self]
        rw [hval h.2.2.2.1 h.2.2.2.2]
      · intro h
        have hout : ¬ (0 < time.Until (time.Unix (strconv.ParseInt reset).1 0) now ∧
            time.Until (time.Unix (strconv.ParseInt reset).1 0) now < 5 * time.Minute) := by
          intro hin
          have hm := hiff.mp hin
          by_cases he : (strconv.ParseInt reset).2 = none
          · exact h ⟨hne, he, hpos, hm.1, hm.2⟩
          · exact herr he hm
        simp only [rateLimitWait, ne_eq, hne, not_false_eq_true, if_true, gt_iff_lt, hpos]
        rw [if_neg hout]
    · constructor
      · intro h; exact absurd h.2.2.1 hpos
      · intro _
        simp only [rateLimitWait, ne_eq, hne, not_false_eq_true, if_true, gt_iff_lt, hpos,
          if_false]

end github

namespace github

/-- A call of `GetCommitStats` whose request can be built sends at least one request. -/
theorem GetCommitStats_sends (src : Source CommitAPIResponse) (fuel : Nat) (n : Net)
    (hReq : src.NewRequest = none) :
    Net.le ⟨n.requests + 1, n.sleeps⟩ (GetCommitStats src (fuel + 1) n).1 := by
  have hstep : Net.le ⟨n.requests + 1, n.sleeps⟩ ⟨n.requests + 1, n.sleeps⟩ := Net.le_refl _
  rw [GetCommitStats]
  simp only [hReq]
  cases hDo : (src.Do n.requests).Do with
  | error e => exact hstep
  | ok resp =>
    simp only
    by_cases a : resp.StatusCode = 404
    · simpa [a] using hstep
    · by_cases b : resp.StatusCode = 403
      · simp only [a, b, if_true, if_false]
        cases hw : rateLimitWait resp.RateLimitReset (src.Do n.requests).now with
        | none => exact hstep
        | some w =>
          simp only
          exact Net.le_trans (Net.le_sleep _ w) (GetCommitStats_progress src fuel _)
      · by_cases c : resp.StatusCode = 200
        · simp only [a, b, c, if_true, if_false]
          cases resp.Body <;> exact hstep
        · by_cases d : resp.StatusCode ≥ 500
          · simp only [a, b, c, d, if_true, if_false]
            exact retryLoop_progress _ _ _ _ (GetCommitStats_progress src fuel) _ _ _
          · simpa [a, b, c, d] using hstep

/-- A call of `FetchEvents` whose request can be built sends at least one request. -/
theorem FetchEvents_sends (src : Source (List Event)) (etag : String) (fuel : Nat) (n : Net)
    (hReq : src.NewRequest = none) :
    Net.le ⟨n.requests + 1, n.sleeps⟩ (FetchEvents src (fuel + 1) etag n).1 := by
  have hstep : Net.le ⟨n.requests + 1, n.sleeps⟩ ⟨n.requests + 1, n.sleeps⟩ := Net.le_refl _
  rw [FetchEvents]
  simp only [hReq]
  cases hDo : (src.Do n.requests).Do with
  | error e => exact hstep
  | ok resp =>
    simp only
    by_cases a : resp.StatusCode = 304
    · simpa [a] using hstep
    · by_cases b : resp.StatusCode = 403
      · simp only [a, b, if_true, if_false]
        cases hw : rateLimitWait resp.RateLimitReset (src.Do n.requests).now with
        | none => exact hstep
        | some w =>
          simp only
          exact Net.le_trans (Net.le_sleep _ w) (FetchEvents_progress src etag fuel _)
      · by_cases c : resp.StatusCode = 200
        · simp only [a, b, c, if_true, if_false]
          cases resp.Body <;> exact hstep
        · by_cases d : resp.StatusCode ≥ 500
          · simp only [a, b, c, d, if_true, if_false]
            exact retryLoop_progress _ _ _ _ (FetchEvents_progress src etag fuel) _ _ _
          · simpa [a, b, c, d] using hstep

/-- The 403 case seen from the invocation that receives the response.  Let an invocation
of `GetCommitStats` or `FetchEvents` receive a 403 response with reset
header `reset` while the clock reads `now` (within 9 * 10^27 ns of the Unix epoch).  If
the header is present and parses to a positive timestamp whose wait is strictly between 0
and 5 minutes, the call sleeps for exactly that wait and calls itself again, which sends a
further request.  In every other case (header absent, unparsable, not positive, wait not
positive, wait of 5 minutes or more) it returns `ErrRateLimited` after that one request,
without sleeping. -/
theorem rateLimit_window_at_request (reset : String) (now : Int)
    (hlo : -9000000000000000000000000000 ≤ now) (hhi : now ≤ 9000000000000000000000000000) :
    (∀ (src : Source CommitAPIResponse) (n : Net) (fuel : Nat)
        (resp : Response CommitAPIResponse),
      src.NewRequest = none → (src.Do n.requests).Do = .ok resp → resp.StatusCode = 403 →
      resp.RateLimitReset = reset → (src.Do n.requests).now = now →
      (rateLimitWindow reset now →
        GetCommitStats src (fuel + 1) n =
          GetCommitStats src fuel
            ⟨n.requests + 1, n.sleeps ++ [resetWait (strconv.ParseInt reset).1 now]⟩ ∧
        Net.le ⟨n.requests + 2, n.sleeps ++ [resetWait (strconv.ParseInt reset).1 now]⟩
          (GetCommitStats src (fuel + 2) n).1) ∧
      (¬ rateLimitWindow reset now →
        GetCommitStats src (fuel + 1) n =
          (⟨n.requests + 1, n.sleeps⟩, some ⟨none, some GoError.ErrRateLimited⟩))) ∧
    (∀ (src : Source (List Event)) (etag : String) (n : Net) (fuel : Nat)
        (resp : Response (List Event)),
      src.NewRequest = none → (src.Do n.requests).Do = .ok resp → resp.StatusCode = 403 →
      resp.RateLimitReset = reset → (src.Do n.requests).now = now →
      (rateLimitWindow reset now →
        FetchEvents src (fuel + 1) etag n =
          FetchEvents src fuel etag
            ⟨n.requests + 1, n.sleeps ++ [resetWait (strconv.ParseInt reset).1 now]⟩ ∧
        Net.le ⟨n.requests + 2, n.sleeps ++ [resetWait (strconv.ParseInt reset).1 now]⟩
          (FetchEvents src (fuel + 2) etag n).1) ∧
      (¬ rateLimitWindow reset now →
        FetchEvents src (fuel + 1) etag n =
          (⟨n.requests + 1, n.sleeps⟩,
            some ⟨[], strings.Trim resp.ETag '\x22', some GoError.ErrRateLimited⟩))) := by
  obtain ⟨hin, hout⟩ := rateLimitWait_spec reset now hlo hhi
  constructor
  · intro src n fuel resp hReq hDo h403 hreset hnow
    have a : resp.StatusCode ≠ 404 := by omega
    have hstep : ∀ f, rateLimitWindow reset now → GetCommitStats src (f + 1) n =
        GetCommitStats src f
          ⟨n.requests + 1, n.sleeps ++ [resetWait (strconv.ParseInt reset).1 now]⟩ := by
      intro f hw
      have hw2 := hin hw
      rw [GetCommitStats]
      simp [hReq, hDo, h403, hreset, hnow, hw2, Net.Sleep]
    constructor
    · intro hw
      refine ⟨hstep fuel hw, ?_⟩
      rw [hstep (fuel + 1) hw]
      exact GetCommitStats_sends src fuel
        ⟨n.requests + 1, n.sleeps ++ [resetWait (strconv.ParseInt reset).1 now]⟩ hReq
    · intro hw
      have hw2 := hout hw
      rw [GetCommitStats]
      simp [hReq, hDo, h403, hreset, hnow, hw2]
  · intro src etag n fuel resp hReq hDo h403 hreset hnow
    have a : resp.StatusCode ≠ 304 := by omega
    have hstep : ∀ f, rateLimitWindow reset now → FetchEvents src (f + 1) etag n =
        FetchEvents src f etag
          ⟨n.requests + 1, n.sleeps ++ [resetWait (strconv.ParseInt reset).1 now]⟩ := by
      intro f hw
      have hw2 := hin hw
      rw [FetchEvents]
      simp [hReq, hDo, h403, hreset, hnow, hw2, Net.Sleep]
    constructor
    · intro hw
      refine ⟨hstep fuel hw, ?_⟩
      rw [hstep (fuel + 1) hw]
      exact FetchEvents_sends src etag fuel
        ⟨n.requests + 1, n.sleeps ++ [resetWait (strconv.ParseInt reset).1 now]⟩ hReq
    · intro hw
      have hw2 := hout hw
      rw [FetchEvents]
      simp [hReq, hDo, h403, hreset, hnow, hw2]

/-- The 403 case at a first response whose reset is 10 s ahead (the call sleeps 10 s and
sends a second request) and at one whose reset is 10 minutes ahead (the call returns
`ErrRateLimited` after its one request). -/
theorem rateLimit_window_at_request_example :
    Net.le ⟨2, [10000000000]⟩
      (GetCommitStats
        (script [rateLimited CommitAPIResponse "1700000010" 1700000000000000000]
          (okWith apiCommit)) 2 Net.start).1 ∧
    GetCommitStats
        (script [rateLimited CommitAPIResponse "1700000600" 1700000000000000000]
          (okWith apiCommit)) 1 Net.start
      = (⟨1, []⟩, some ⟨none, some GoError.ErrRateLimited⟩) := by
  constructor
  · exact ((rateLimit_window_at_request "1700000010" 1700000000000000000 (by decide) (by decide)).1
      (script [rateLimited CommitAPIResponse "1700000010" 1700000000000000000]
        (okWith apiCommit)) Net.start 0
      { StatusCode := 403, Status := "403 Forbidden", ETag := "",
        RateLimitReset := "1700000010", Body := .error (GoError.other "body not read") }
      rfl rfl rfl rfl rfl).1 (by decide) |>.2
  · exact ((rateLimit_window_at_request "1700000600" 1700000000000000000 (by decide) (by decide)).1
      (script [rateLimited CommitAPIResponse "1700000600" 1700000000000000000]
        (okWith apiCommit)) Net.start 0
      { StatusCode := 403, Status := "403 Forbidden", ETag := "",
        RateLimitReset := "1700000600", Body := .error (GoError.other "body not read") }
      rfl rfl rfl rfl rfl).2 (by decide)

/-- C14 (the code at the failing input).  A 403 response without reset header that answers
the first request of a call ends the call with `ErrRateLimited`, after that one request and
without a sleep; but a 403 response outside the window that answers a request sent from the
5xx loop does not end the call.  After 500 and a 403 without reset header (or with a reset
10 minutes ahead) the call of `GetCommitStats`, and likewise the call of `FetchEvents`,
sleeps 2 s and sends a third request, whose result it returns; and when every later answer
is such a 403, the call sends four requests and sleeps 1 s, 2 s and 4 s before it returns
`ErrRateLimited`. -/
theorem C14_rate_limited_in_retry_loop_is_retried :
    ¬ rateLimitWindow "" 1700000000000000000 ∧
    ¬ rateLimitWindow "1700000600" 1700000000000000000 ∧
    GetCommitStats
        (script [] (statusOnly CommitAPIResponse 403 "403 Forbidden")) 5 Net.start
      = ({ requests := 1, sleeps := [] }, some ⟨none, some GoError.ErrRateLimited⟩) ∧
    GetCommitStats
        (script [statusOnly CommitAPIResponse 500 "500 Internal Server Error",
            statusOnly CommitAPIResponse 403 "403 Forbidden"] (okWith apiCommit)) 5 Net.start
      = ({ requests := 3, sleeps := [1000000000, 2000000000] },
          some ⟨some (statsOf apiCommit), none⟩) ∧
    GetCommitStats
        (script [statusOnly CommitAPIResponse 500 "500 Internal Server Error",
            rateLimited CommitAPIResponse "1700000600" 1700000000000000000]
          (okWith apiCommit)) 5 Net.start
      = ({ requests := 3, sleeps := [1000000000, 2000000000] },
          some ⟨some (statsOf apiCommit), none⟩) ∧
    GetCommitStats
        (script [statusOnly CommitAPIResponse 500 "500 Internal Server Error"]
          (statusOnly CommitAPIResponse 403 "403 Forbidden")) 5 Net.start
      = ({ requests := 4, sleeps := [1000000000, 2000000000, 4000000000] },
          some ⟨none, some GoError.ErrRateLimited⟩) ∧
    FetchEvents
        (script [] (statusOnly (List Event) 403 "403 Forbidden")) 5 "" Net.start
      = ({ requests := 1, sleeps := [] }, some ⟨[], "", some GoError.ErrRateLimited⟩) ∧
    FetchEvents
        (script [statusOnly (List Event) 500 "500 Internal Server Error",
            statusOnly (List Event) 403 "403 Forbidden"]
          (okWith [pubsub.eventTwoCommits])) 5 "" Net.start
      = ({ requests := 3, sleeps := [1000000000, 2000000000] },
          some ⟨[pubsub.eventTwoCommits], "abc", none⟩) ∧
    FetchEvents
        (script [statusOnly (List Event) 500 "500 Internal Server Error"]
          (statusOnly (List Event) 403 "403 Forbidden")) 5 "" Net.start
      = ({ requests := 4, sleeps := [1000000000, 2000000000, 4000000000] },
          some ⟨[], "", some GoError.ErrRateLimited⟩) := by
  decide

end github

/-! ## C15: the configuration -/

namespace strconv

theorem foldl_digits_ge (cs : List Char) (n : Nat) :
    n ≤ cs.foldl (fun n c => n * 10 + (c.toNat - 48)) n := by
  induction cs generalizing n with
  | nil => simp
  | cons c cs ih =>
    simp only [List.foldl_cons]
    exact Nat.le_trans (by omega) (ih (n * 10 + (c.toNat - 48)))

/-- On decimal digits whose number fits in 64 bits the digit loop of `ParseUint`
computes that number, without error. -/
theorem parseUintLoop_digits (cs : List Char) (n : Nat)
    (hd : ∀ c, c ∈ cs → '0' ≤ c ∧ c ≤ '9')
    (hfit : cs.foldl (fun n c => n * 10 + (c.toNat - 48)) n ≤ 2 ^ 64 - 1) :
    parseUintLoop cs n = (cs.foldl (fun n c => n * 10 + (c.toNat - 48)) n, none) := by
  induction cs generalizing n with
  | nil => simp [parseUintLoop]
  | cons c cs ih =>
    have hc := hd c (by simp)
    simp only [List.foldl_cons] at hfit ⊢
    have hge := foldl_digits_ge cs (n * 10 + (c.toNat - 48))
    have h1 : n * 10 + (c.toNat - 48) ≤ 2 ^ 64 - 1 := Nat.le_trans hge hfit
    have e : (2 : Nat) ^ 64 - 1 = 18446744073709551615 := by norm_num
    rw [e] at h1
    have h2 : ¬ n ≥ (2 ^ 64 - 1) / 10 + 1 := by
      rw [e]; omega
    have h3 : ¬ n * 10 + (c.toNat - 48) > 2 ^ 64 - 1 := by
      rw [e]; omega
    rw [parseUintLoop]
    simp only [hc, and_self, if_true, h2, if_false, h3]
    exact ih _ (fun c1 h => hd c1 (List.mem_cons_of_mem _ h)) hfit

end strconv

namespace config

/-- A string of decimal digits that writes a number below `2^63` is parsed by `Atoi` to
that number. -/
theorem Atoi_decimal (s : String) (hs : isDecimal s) (hfit : decimalValue s.data < 2 ^ 63) :
    strconv.Atoi s = (((decimalValue s.data : Nat) : Int), none) := by
  obtain ⟨hne, hd⟩ := hs
  unfold strconv.Atoi strconv.ParseInt
  cases hdata : s.data with
  | nil => exact absurd hdata hne
  | cons c cs =>
    have hc : '0' ≤ c ∧ c ≤ '9' := hd c (by simp [hdata])
    have hplus : (c == '+') = false := by
      rw [beq_eq_false_iff_ne]
      rintro rfl
      exact absurd hc.1 (by decide)
    have hminus : (c == '-') = false := by
      rw [beq_eq_false_iff_ne]
      rintro rfl
      exact absurd hc.1 (by decide)
    have e63 : (2 : Nat) ^ 63 = 9223372036854775808 := by norm_num
    have e64 : (2 : Nat) ^ 64 - 1 = 18446744073709551615 := by norm_num
    have hv : decimalValue (c :: cs) < 2 ^ 63 := by rw [← hdata]; exact hfit
    have hloop := strconv.parseUintLoop_digits (c :: cs) 0
      (fun c1 h => hd c1 (by rw [hdata]; exact h))
      (by
        have : decimalValue (c :: cs) ≤ 2 ^ 64 - 1 := by rw [e63] at hv; rw [e64]; omega
        exact this)
    have hu : strconv.ParseUint (c :: cs) = (decimalValue (c :: cs), none) := by
      simp only [strconv.ParseUint]
      exact hloop
    simp only [hplus, hminus, Bool.false_eq_true, or_self, if_false, hu, not_false_eq_true,
      true_and, false_and]
    have hlt : ¬ decimalValue (c :: cs) ≥ 2 ^ 63 := by omega
    rw [if_neg hlt]

theorem loadedAs_of_block (v : String) (dflt field : Int) (hdflt : 0 < dflt)
    (hfield : field =
      if v ≠ "" then
        match strconv.Atoi v with
        | (n, none) => if n > 0 then n else dflt
        | (_, some _) => dflt
      else dflt) :
    loadedAs v dflt field := by
  have hempty : strconv.Atoi "" = (0, some strconv.NumError.ErrSyntax) := by decide
  refine ⟨?_, ?_, ?_, ?_⟩
  · intro n hn hpos
    have hv : v ≠ "" := by
      rintro rfl
      rw [hempty] at hn
      simp at hn
    rw [hfield, if_pos hv, hn]
    simp [hpos]
  · intro h
    rw [hfield]
    by_cases hv : v = ""
    · simp [hv]
    · rw [if_pos hv]
      rcases hA : strconv.Atoi v with ⟨n, e⟩
      rw [hA] at h
      cases e with
      | some e => rfl
      | none =>
        simp only at h ⊢
        rcases h with h | h | h
        · exact absurd h hv
        · exact absurd rfl h
        · have : ¬ n > 0 := by omega
          simp [this]
  · intro hdec hpos hfit
    have hA := Atoi_decimal v hdec hfit
    have hv : v ≠ "" := by
      rintro rfl
      exact hdec.1 rfl
    rw [hfield, if_pos hv, hA]
    have : ((decimalValue v.data : Nat) : Int) > 0 := by exact_mod_cast hpos
    simp [this]
  · rw [hfield]
    by_cases hv : v = ""
    · simp [hv, hdflt]
    · rw [if_pos hv]
      rcases hA : strconv.Atoi v with ⟨n, e⟩
      cases e with
      | some e => exact hdflt
      | none =>
        simp only
        by_cases hn : n > 0
        · simp [hn]
        · simpa [hn] using hdflt

theorem Load_PollIntervalSec (getenv : String → String) :
    (Load getenv).PollIntervalSec =
      if getenv "POLL_INTERVAL_SEC" ≠ "" then
        match strconv.Atoi (getenv "POLL_INTERVAL_SEC") with
        | (n, none) => if n > 0 then n else 60
        | (_, some _) => 60
      else 60 := by
  unfold Load
  lift_lets
  intro c0 c1 c2 c3 c4
  have h4 : c4.PollIntervalSec = c3.PollIntervalSec := by
    simp only [c4]
    split
    · split
      · split <;> rfl
      · rfl
    · rfl
  have h3 : c3.PollIntervalSec = c2.PollIntervalSec := by
    simp only [c3]
    split
    · split
      · split <;> rfl
      · rfl
    · rfl
  have h2 : c2.PollIntervalSec = c1.PollIntervalSec := by
    simp only [c2]
    split <;> rfl
  rw [h4, h3, h2]
  simp only [c1]
  split
  · split
    · split <;> rfl
    · rfl
  · rfl


theorem Load_ConsumerWorkers (getenv : String → String) :
    (Load getenv).ConsumerWorkers =
      if getenv "CONSUMER_WORKERS" ≠ "" then
        match strconv.Atoi (getenv "CONSUMER_WORKERS") with
        | (n, none) => if n > 0 then n else 3
        | (_, some _) => 3
      else 3 := by
  unfold Load
  lift_lets
  intro c0 c1 c2 c3 c4
  have h4 : c4.ConsumerWorkers = c3.ConsumerWorkers := by
    simp only [c4]
    split
    · split
      · split <;> rfl
      · rfl
    · rfl
  have h2 : c2.ConsumerWorkers = c1.ConsumerWorkers := by
    simp only [c2]
    split <;> rfl
  have h1 : c1.ConsumerWorkers = 3 := by
    simp only [c1]
    split
    · split
      · split <;> rfl
      · rfl
    · rfl
  rw [h4]
  simp only [c3]
  split
  · split
    · split
      · rfl
      · rw [h2, h1]
    · rw [h2, h1]
  · rw [h2, h1]

theorem Load_ChannelSize (getenv : String → String) :
    (Load getenv).ChannelSize =
      if getenv "CHANNEL_SIZE" ≠ "" then
        match strconv.Atoi (getenv "CHANNEL_SIZE") with
        | (n, none) => if n > 0 then n else 1000
        | (_, some _) => 1000
      else 1000 := by
  unfold Load
  lift_lets
  intro c0 c1 c2 c3 c4
  have h1 : c1.ChannelSize = 1000 := by
    simp only [c1]
    split
    · split
      · split <;> rfl
      · rfl
    · rfl
  have h2 : c2.ChannelSize = c1.ChannelSize := by
    simp only [c2]
    split <;> rfl
  have h3 : c3.ChannelSize = c2.ChannelSize := by
    simp only [c3]
    split
    · split
      · split <;> rfl
      · rfl
    · rfl
  simp only [c4]
  split
  · split
    · split
      · rfl
      · rw [h3, h2, h1]
    · rw [h3, h2, h1]
  · rw [h3, h2, h1]

/-- C15.  For every environment, `Load` sets each of `PollIntervalSec`, `ConsumerWorkers`
and `ChannelSize` to `n` when the value of `POLL_INTERVAL_SEC`, `CONSUMER_WORKERS`,
`CHANNEL_SIZE` respectively parses (`strconv.Atoi`) as an integer `n > 0`, and to the
default (60, 3, 1000) when the variable is unset or empty, does not parse, or parses to
zero or a negative number; the three loaded values are therefore strictly positive. -/
theorem C15_numeric_settings (getenv : String → String) :
    loadedAs (getenv "POLL_INTERVAL_SEC") 60 (Load getenv).PollIntervalSec ∧
    loadedAs (getenv "CONSUMER_WORKERS") 3 (Load getenv).ConsumerWorkers ∧
    loadedAs (getenv "CHANNEL_SIZE") 1000 (Load getenv).ChannelSize :=
  ⟨loadedAs_of_block (getenv "POLL_INTERVAL_SEC") 60 _ (by decide) (Load_PollIntervalSec getenv),
   loadedAs_of_block (getenv "CONSUMER_WORKERS") 3 _ (by decide) (Load_ConsumerWorkers getenv),
   loadedAs_of_block (getenv "CHANNEL_SIZE") 1000 _ (by decide) (Load_ChannelSize getenv)⟩

/-- C15 at the environments of `TestLoad_FromEnv` (120, 5 and 500 are loaded) and of
`TestLoad_InvalidValuesUseDefaults` (`invalid`, `0` and `-1` give the defaults). -/
theorem C15_numeric_settings_witness :
    (Load envFromTest).PollIntervalSec = 120 ∧ (Load envFromTest).ConsumerWorkers = 5 ∧
    (Load envFromTest).ChannelSize = 500 ∧
    (Load envInvalid).PollIntervalSec = 60 ∧ (Load envInvalid).ConsumerWorkers = 3 ∧
    (Load envInvalid).ChannelSize = 1000 := by
  have h := C15_numeric_settings envFromTest
  have g := C15_numeric_settings envInvalid
  exact ⟨h.1.1 120 (by decide) (by decide), h.2.1.1 5 (by decide) (by decide),
    h.2.2.1 500 (by decide) (by decide),
    g.1.2.1 (Or.inr (Or.inl (by decide))), g.2.1.2.1 (Or.inr (Or.inr (by decide))),
    g.2.2.2.1 (Or.inr (Or.inr (by decide)))⟩

end config

/-! ## C17, C18: the jobs of a push event -/

theorem dropWhile_ne_of_mem (q : Char) (l : List Char) (h : q ∈ l) :
    ∃ t, l.dropWhile (fun c => c != q) = q :: t := by
  induction l with
  | nil => simp at h
  | cons a l ih =>
    by_cases ha : a = q
    · subst ha
      exact ⟨l, by simp [List.dropWhile]⟩
    · have hq : q ∈ l := by
        rcases List.mem_cons.mp h with h1 | h1
        · exact absurd h1.symm ha
        · exact h1
      obtain ⟨t, ht⟩ := ih hq
      have hpa : (a != q) = true := by simpa using ha
      exact ⟨t, by
        rw [List.dropWhile_cons, if_pos hpa, ht]⟩

theorem not_mem_takeWhile_ne (q : Char) (l : List Char) :
    q ∉ l.takeWhile (fun c => c != q) := by
  induction l with
  | nil => simp
  | cons a l ih =>
    by_cases ha : a = q
    · subst ha
      simp [List.takeWhile]
    · have hpa : (a != q) = true := by simpa using ha
      rw [List.takeWhile_cons, if_pos hpa]
      intro hmem
      rcases List.mem_cons.mp hmem with h1 | h1
      · exact ha h1.symm
      · exact ih h1

/-- A string that contains a `'/'` is its part before the first `'/'`, the `'/'`, and its
part after it; and the part before has no `'/'`. -/
theorem firstSlash_split (s : String) (h : '/' ∈ s.data) :
    '/' ∉ (beforeFirstSlash s).data ∧
    beforeFirstSlash s ++ "/" ++ afterFirstSlash s = s := by
  constructor
  · exact not_mem_takeWhile_ne '/' s.data
  · apply String.ext
    obtain ⟨t, ht⟩ := dropWhile_ne_of_mem '/' s.data h
    have h2 := List.takeWhile_append_dropWhile (fun c => c != '/') s.data
    simp only [String.data_append, beforeFirstSlash, afterFirstSlash, ht, List.drop_one,
      List.tail_cons]
    rw [ht] at h2
    rw [List.append_assoc]
    exact h2

namespace pubsub

/-- The jobs that the loop body adds to the queue for an event all carry the event's
identifier and the owner and repository that `splitRepo` gives for it. -/
theorem processEvent_new_jobs (env : ProducerEnv) (e : github.Event) (st : ProducerState) :
    ∃ new : List CommitJob, (processEvent env e st).1.sent = st.sent ++ new ∧
      ∀ j, j ∈ new → j.EventID = e.ID ∧ j.Owner = (splitRepo e.Repo).1 ∧
        j.Repo = (splitRepo e.Repo).2 := by
  by_cases hType : e.Type_ = "PushEvent"
  · rcases hIns : env.InsertPushEvent st.inserts (eventToRow e) with ⟨b, err⟩
    cases err with
    | some err => exact ⟨[], by simp [processEvent, hType, hIns]⟩
    | none =>
      cases b with
      | false => exact ⟨[], by simp [processEvent, hType, hIns]⟩
      | true =>
        cases hP : env.Unmarshal e.RawPayload with
        | error err => exact ⟨[], by simp [processEvent, hType, hIns, hP]⟩
        | ok payload =>
          rw [processEvent_inserted env st e payload hType hIns hP]
          obtain ⟨k, _, hs, _, _⟩ := enqueue_prefix env e (splitRepo e.Repo).1
            (splitRepo e.Repo).2 (commitSHAs payload)
            { st with inserts := st.inserts ++ [eventToRow e],
                      logs := st.logs ++ [⟨"INFO", "push event processed"⟩] }
          refine ⟨_, hs, ?_⟩
          intro j hj
          obtain ⟨sha, _, rfl⟩ := List.mem_map.mp hj
          exact ⟨rfl, rfl, rfl⟩
  · exact ⟨[], by simp [processEvent, hType]⟩

/-- `Consumer.process` passes at most one row to `InsertCommitStats`, and its `Repo` is
the job's owner, a `'/'`, and the job's repository. -/
theorem process_new_rows (env : ConsumerEnv) (job : CommitJob) (st : ConsumerState) :
    ∃ new : List store.CommitStatsRow, (process env job st).inserts = st.inserts ++ new ∧
      ∀ row, row ∈ new → row.Repo = job.Owner ++ "/" ++ job.Repo := by
  unfold process
  rcases hA : env.GetCommitStats st.fetches job.Owner job.Repo job.SHA with ⟨stats, err⟩
  cases err with
  | some err =>
    by_cases hnf : err = GoError.ErrNotFound
    · exact ⟨[], by simp [hnf]⟩
    · exact ⟨[], by simp [hnf]⟩
  | none =>
    cases stats with
    | none => exact ⟨[], by simp⟩
    | some s =>
      simp only
      rcases hI : env.InsertCommitStats st.inserts
          { Sha := s.SHA, Repo := job.Owner ++ "/" ++ job.Repo, Author := s.Author,
            CommittedAt := s.CommittedAt, Additions := s.Additions, Deletions := s.Deletions,
            Total := s.Total, Net := s.Net } with ⟨b, e⟩
      refine ⟨[store.CommitStatsRow.mk s.SHA (job.Owner ++ "/" ++ job.Repo) s.Author
        s.CommittedAt s.Additions s.Deletions s.Total s.Net], ?_, ?_⟩
      · cases e with
        | some e => simp
        | none => cases b <;> simp
      · intro row hrow
        rw [List.mem_singleton.mp hrow]

/-- C18.  For a push event whose repository full name contains a `'/'`, `splitRepo` returns
an owner without `'/'` and a repository such that owner, `'/'` and repository make up the
full name again; hence every job that `Producer.Run` enqueues for the event has
`Owner + "/" + Repo` equal to the `Repo` that `eventToRow` writes on the event's row, and
every row that `Consumer.process` passes to `InsertCommitStats` for such a job has that
same `Repo`. -/
theorem C18_repo_round_trip (e : github.Event) (r : github.Repo)
    (hRepo : e.Repo = some r) (hSlash : '/' ∈ r.FullName.data) :
    '/' ∉ (splitRepo e.Repo).1.data ∧
    (splitRepo e.Repo).1 ++ "/" ++ (splitRepo e.Repo).2 = r.FullName ∧
    (eventToRow e).Repo = r.FullName ∧
    (∀ (env : ProducerEnv) (st : ProducerState),
      ∃ new : List CommitJob, (processEvent env e st).1.sent = st.sent ++ new ∧
        ∀ j, j ∈ new →
          ∀ (cenv : ConsumerEnv) (cst : ConsumerState),
            ∃ rows : List store.CommitStatsRow,
              (process cenv j cst).inserts = cst.inserts ++ rows ∧
              ∀ row, row ∈ rows → row.Repo = (eventToRow e).Repo) := by
  have hrow : (eventToRow e).Repo = r.FullName := by simp [eventToRow, hRepo]
  have hsplit := splitRepo_eq e
  rw [hrow] at hsplit
  obtain ⟨hfree, hjoin⟩ := firstSlash_split r.FullName hSlash
  refine ⟨?_, ?_, hrow, ?_⟩
  · rw [hsplit]; exact hfree
  · rw [hsplit]; exact hjoin
  · intro env st
    obtain ⟨new, hsent, hnew⟩ := processEvent_new_jobs env e st
    refine ⟨new, hsent, ?_⟩
    intro j hj cenv cst
    obtain ⟨rows, hins, hrows⟩ := process_new_rows cenv j cst
    refine ⟨rows, hins, ?_⟩
    intro row hr
    obtain ⟨_, ho, hp⟩ := hnew j hj
    rw [hrows row hr, ho, hp, hsplit, hrow]
    exact hjoin

end pubsub

namespace pubsub

theorem commitSHAs_of_some_sha (payload : github.PushEventPayload)
    (h : ∃ c, c ∈ payload.Commits ∧ c.SHA ≠ "") :
    commitSHAs payload =
      (payload.Commits.filter (fun c => c.SHA != "")).map (fun c => c.SHA) := by
  obtain ⟨c, hc, hne⟩ := h
  have hmem : c ∈ payload.Commits.filter (fun c => c.SHA != "") := by
    rw [List.mem_filter]
    exact ⟨hc, by simpa using hne⟩
  have hlen : ((payload.Commits.filter (fun c => c.SHA != "")).map (fun c => c.SHA)).length
      ≠ 0 := by
    rw [List.length_map]
    exact Nat.ne_of_gt (List.length_pos_of_mem hmem)
  unfold commitSHAs
  simp only []
  rw [if_neg hlen]

theorem commitSHAs_of_no_sha (payload : github.PushEventPayload)
    (h : ∀ c, c ∈ payload.Commits → c.SHA = "") :
    commitSHAs payload =
      if payload.Head ≠ "" then [payload.Head]
      else if payload.After ≠ "" then [payload.After]
      else [] := by
  have hf : payload.Commits.filter (fun c => c.SHA != "") = [] := by
    rw [List.filter_eq_nil_iff]
    intro c hc
    simp [h c hc]
  unfold commitSHAs
  simp [hf]

/-- C17 (as stated, refuted).  A newly inserted push event whose commit list is not empty
but holds one commit without SHA: the job for the head `abc123tip` is enqueued, by the
fallback.  And an event that lists two commits, one without SHA: one job is enqueued, for
two listed commits. -/
theorem C17_counterexample_commit_without_sha :
    eventEmptySha.Type_ = "PushEvent" ∧
    (envWith freshStore 9).InsertPushEvent [] (eventToRow eventEmptySha) = (true, none) ∧
    (envWith freshStore 9).Unmarshal eventEmptySha.RawPayload = .ok payloadEmptySha ∧
    payloadEmptySha.Commits = [⟨""⟩] ∧ payloadEmptySha.Commits ≠ [] ∧
    (processEvent (envWith freshStore 9) eventEmptySha ProducerState.init).1.sent
      = [⟨"e3", "owner", "repo", "abc123tip"⟩] ∧
    (envWith freshStore 9).Unmarshal eventMixed.RawPayload = .ok payloadMixed ∧
    payloadMixed.Commits.length = 2 ∧
    (processEvent (envWith freshStore 9) eventMixed ProducerState.init).1.sent
      = [⟨"e4", "owner", "repo", "sha1"⟩] := by
  decide

/-- C17 (amended).  For a newly inserted push event whose payload decodes, `Producer.Run`
falls back to the tip (head, else after) only if the payload lists no commit with a
non-empty SHA.  When it lists at least one, the jobs enqueued for the event are, in order
and one for one, those of the listed commits whose SHA is not empty: all of them when no
`select` of these sends takes `<-ctx.Done()`, and otherwise a prefix of them; none comes
from the fallback.  When every listed SHA is empty the shas to enqueue are those of the
fallback, as for an empty list. -/
theorem C17_fallback_only_without_sha (env : ProducerEnv) (st : ProducerState)
    (e : github.Event) (payload : github.PushEventPayload)
    (hType : e.Type_ = "PushEvent")
    (hIns : env.InsertPushEvent st.inserts (eventToRow e) = (true, none))
    (hPayload : env.Unmarshal e.RawPayload = .ok payload) :
    ((∃ c, c ∈ payload.Commits ∧ c.SHA ≠ "") →
      ((∀ i, i < (payload.Commits.filter (fun c => c.SHA != "")).length →
          env.ctxDone (st.selects + i) = false) →
        (processEvent env e st).1.sent =
          st.sent ++ (payload.Commits.filter (fun c => c.SHA != "")).map (fun c =>
            CommitJob.mk e.ID (splitRepo e.Repo).1 (splitRepo e.Repo).2 c.SHA) ∧
        (processEvent env e st).2 = false) ∧
      (∃ k, k ≤ (payload.Commits.filter (fun c => c.SHA != "")).length ∧
        (processEvent env e st).1.sent =
          st.sent ++ ((payload.Commits.filter (fun c => c.SHA != "")).take k).map (fun c =>
            CommitJob.mk e.ID (splitRepo e.Repo).1 (splitRepo e.Repo).2 c.SHA))) ∧
    ((∀ c, c ∈ payload.Commits → c.SHA = "") →
      commitSHAs payload =
        (if payload.Head ≠ "" then [payload.Head]
         else if payload.After ≠ "" then [payload.After]
         else [])) := by
  constructor
  · intro hsome
    rw [processEvent_inserted env st e payload hType hIns hPayload,
      commitSHAs_of_some_sha payload hsome]
    constructor
    · intro hrun
      rw [enqueue_all]
      · simp [List.map_map, Function.comp_def]
      · simpa using hrun
    · obtain ⟨k, hk, hs, _, _⟩ := enqueue_prefix env e (splitRepo e.Repo).1
        (splitRepo e.Repo).2
        ((payload.Commits.filter (fun c => c.SHA != "")).map (fun c => c.SHA))
        { st with inserts := st.inserts ++ [eventToRow e],
                  logs := st.logs ++ [⟨"INFO", "push event processed"⟩] }
      refine ⟨k, by simpa using hk, ?_⟩
      rw [hs]
      simp [← List.map_take, List.map_map, Function.comp_def]
  · exact commitSHAs_of_no_sha payload

/-- The amended C17 at the event that lists `sha1` and a commit without SHA: exactly the
job for `sha1` is enqueued. -/
theorem C17_fallback_only_without_sha_witness :
    (processEvent (envWith freshStore 9) eventMixed ProducerState.init).1.sent
      = [⟨"e4", "owner", "repo", "sha1"⟩] ∧
    (processEvent (envWith freshStore 9) eventMixed ProducerState.init).2 = false := by
  have h := ((C17_fallback_only_without_sha (envWith freshStore 9) ProducerState.init
    eventMixed payloadMixed (by decide) (by decide) (by decide)).1
    ⟨⟨"sha1"⟩, by decide, by decide⟩).1 (by decide)
  exact ⟨h.1.trans (by decide), h.2⟩

/-- C18 at the first event of `TestProducer_EnqueuesJobsForInsertedEvent`: the owner of
`owner/repo` has no `'/'`, and owner, `'/'` and repository make up `owner/repo`. -/
theorem C18_repo_round_trip_witness :
    '/' ∉ (splitRepo eventTwoCommits.Repo).1.data ∧
    (splitRepo eventTwoCommits.Repo).1 ++ "/" ++ (splitRepo eventTwoCommits.Repo).2
      = "owner/repo" ∧
    (eventToRow eventTwoCommits).Repo = "owner/repo" := by
  have h := C18_repo_round_trip eventTwoCommits ⟨"owner/repo"⟩ rfl (by decide)
  exact ⟨h.1, h.2.1, h.2.2.1⟩

end pubsub

/-! ## C16: an event that fails is skipped alone -/

namespace pubsub

theorem enqueue_sim (env : ProducerEnv) (e : github.Event) (o r : String) :
    ∀ (shas : List String) (s1 s0 : ProducerState),
      s1.sent = s0.sent → s1.selects = s0.selects →
      (enqueue env e o r shas s1).2 = (enqueue env e o r shas s0).2 ∧
      (enqueue env e o r shas s1).1.sent = (enqueue env e o r shas s0).1.sent ∧
      (enqueue env e o r shas s1).1.selects = (enqueue env e o r shas s0).1.selects ∧
      (enqueue env e o r shas s1).1.inserts = s1.inserts ∧
      (enqueue env e o r shas s0).1.inserts = s0.inserts := by
  intro shas
  induction shas with
  | nil => intro s1 s0 h1 h2; simp [enqueue, h1, h2]
  | cons sha rest ih =>
    intro s1 s0 h1 h2
    by_cases hd : env.ctxDone s0.selects = true
    · simp [enqueue, h1, h2, hd]
    · simp only [enqueue, h2, hd, h1]
      exact ih _ _ (by simp [h1]) (by simp [h2])

/-- Two runs of the loop body on the same event, from states that differ only by one
recorded insert call (and by log lines), against a store whose answer for the event does
not depend on that call: the same jobs are sent, and the same insert call is made. -/
theorem processEvent_sim (env : ProducerEnv) (base : List store.PushEventRow)
    (row : store.PushEventRow) (e : github.Event) (h : List store.PushEventRow)
    (s1 s0 : ProducerState)
    (hi1 : s1.inserts = base ++ row :: h) (hi0 : s0.inserts = base ++ h)
    (hsent : s1.sent = s0.sent) (hsel : s1.selects = s0.selects)
    (hstore : env.InsertPushEvent (base ++ row :: h) (eventToRow e)
      = env.InsertPushEvent (base ++ h) (eventToRow e)) :
    (processEvent env e s1).2 = (processEvent env e s0).2 ∧
    (processEvent env e s1).1.sent = (processEvent env e s0).1.sent ∧
    (processEvent env e s1).1.selects = (processEvent env e s0).1.selects ∧
    ∃ h1, (processEvent env e s1).1.inserts = base ++ row :: h1 ∧
      (processEvent env e s0).1.inserts = base ++ h1 ∧
      (h1 = h ∨ h1 = h ++ [eventToRow e]) := by
  by_cases hType : e.Type_ = "PushEvent"
  · have ha1 : env.InsertPushEvent s1.inserts (eventToRow e)
        = env.InsertPushEvent (base ++ h) (eventToRow e) := by rw [hi1, hstore]
    have ha0 : env.InsertPushEvent s0.inserts (eventToRow e)
        = env.InsertPushEvent (base ++ h) (eventToRow e) := by rw [hi0]
    rcases hIns : env.InsertPushEvent (base ++ h) (eventToRow e) with ⟨b, err⟩
    rw [hIns] at ha1 ha0
    cases err with
    | some err =>
      refine ⟨?_, ?_, ?_, h ++ [eventToRow e], ?_, ?_, Or.inr rfl⟩ <;>
        simp only [processEvent, hType, ha1, ha0, ne_eq, not_true_eq_false, if_false] <;>
        simp [hsent, hsel, hi1, hi0]
    | none =>
      cases b with
      | false =>
        refine ⟨?_, ?_, ?_, h ++ [eventToRow e], ?_, ?_, Or.inr rfl⟩ <;>
          simp only [processEvent, hType, ha1, ha0, ne_eq, not_true_eq_false, if_false] <;>
          simp [hsent, hsel, hi1, hi0]
      | true =>
        cases hP : env.Unmarshal e.RawPayload with
        | error err =>
          refine ⟨?_, ?_, ?_, h ++ [eventToRow e], ?_, ?_, Or.inr rfl⟩ <;>
            simp only [processEvent, hType, ha1, ha0, hP, ne_eq, not_true_eq_false,
              if_false] <;>
            simp [hsent, hsel, hi1, hi0]
        | ok payload =>
          rw [processEvent_inserted env s1 e payload hType ha1 hP,
            processEvent_inserted env s0 e payload hType ha0 hP]
          obtain ⟨g1, g2, g3, g4, g5⟩ := enqueue_sim env e (splitRepo e.Repo).1
            (splitRepo e.Repo).2 (commitSHAs payload)
            { s1 with inserts := s1.inserts ++ [eventToRow e],
                      logs := s1.logs ++ [⟨"INFO", "push event processed"⟩] }
            { s0 with inserts := s0.inserts ++ [eventToRow e],
                      logs := s0.logs ++ [⟨"INFO", "push event processed"⟩] }
            hsent hsel
          refine ⟨g1, g2, g3, h ++ [eventToRow e], ?_, ?_, Or.inr rfl⟩
          · rw [g4]; simp [hi1]
          · rw [g5]; simp [hi0]
  · refine ⟨?_, ?_, ?_, h, ?_, ?_, Or.inl rfl⟩ <;>
      simp [processEvent, hType, hsent, hsel, hi1, hi0]

theorem processEvents_sim (env : ProducerEnv) (base : List store.PushEventRow)
    (row : store.PushEventRow) :
    ∀ (evs : List github.Event) (h : List store.PushEventRow) (s1 s0 : ProducerState),
      s1.inserts = base ++ row :: h → s0.inserts = base ++ h →
      s1.sent = s0.sent → s1.selects = s0.selects →
      (∀ (h1 : List store.PushEventRow) (e1 : github.Event), e1 ∈ evs →
        env.InsertPushEvent (base ++ row :: h1) (eventToRow e1)
          = env.InsertPushEvent (base ++ h1) (eventToRow e1)) →
      (processEvents env evs s1).2 = (processEvents env evs s0).2 ∧
      (processEvents env evs s1).1.sent = (processEvents env evs s0).1.sent ∧
      ∃ h1, (processEvents env evs s1).1.inserts = base ++ row :: h1 ∧
        (processEvents env evs s0).1.inserts = base ++ h1 := by
  intro evs
  induction evs with
  | nil =>
    intro h s1 s0 hi1 hi0 hsent hsel _
    exact ⟨rfl, by simpa [processEvents] using hsent, h, by simpa [processEvents] using hi1,
      by simpa [processEvents] using hi0⟩
  | cons e rest ih =>
    intro h s1 s0 hi1 hi0 hsent hsel hstore
    have hs := processEvent_sim env base row e h s1 s0 hi1 hi0 hsent hsel
      (hstore h e (by simp))
    rcases hpe1 : processEvent env e s1 with ⟨t1, ret1⟩
    rcases hpe0 : processEvent env e s0 with ⟨t0, ret0⟩
    rw [hpe1, hpe0] at hs
    obtain ⟨p1, p2, p3, h1, p4, p5, _⟩ := hs
    dsimp only at p1 p2 p3 p4 p5
    subst p1
    cases ret1 with
    | true =>
      simp only [processEvents, hpe1, hpe0]
      exact ⟨trivial, p2, h1, p4, p5⟩
    | false =>
      simp only [processEvents, hpe1, hpe0]
      exact ih h1 t1 t0 p4 p5 p2 p3
        (fun h2 e1 he1 => hstore h2 e1 (List.mem_cons_of_mem _ he1))

end pubsub

namespace pubsub

/-- C16 (as stated, refuted).  Against the store of `postgres.go`, the batch made of a push
event `e1` whose payload is malformed followed by a push event with the same identifier
and the commits `sha1`, `sha2`: the first event is newly inserted and fails to parse, and
no job at all is enqueued, whereas the batch without the first event has the jobs for
`sha1` and `sha2` enqueued. -/
theorem C16_counterexample_same_id_later :
    eventMalformedSameID.Type_ = "PushEvent" ∧
    (envWith dedupStore 9).InsertPushEvent [] (eventToRow eventMalformedSameID)
      = (true, none) ∧
    (envWith dedupStore 9).Unmarshal eventMalformedSameID.RawPayload
      = .error (GoError.other "unexpected end of JSON input") ∧
    (processEvents (envWith dedupStore 9) [eventMalformedSameID, eventTwoCommits]
        ProducerState.init).1.sent = [] ∧
    (processEvents (envWith dedupStore 9) [eventTwoCommits] ProducerState.init).1.sent
      = [⟨"e1", "owner", "repo", "sha1"⟩, ⟨"e1", "owner", "repo", "sha2"⟩] := by
  decide

/-- C16 (amended).  Let the loop over a batch reach a push event `e` whose
`InsertPushEvent` returns an error, or which is newly inserted and whose payload fails to
parse.  Then no job is enqueued for `e`, its one insert call is recorded, and the loop
goes on with the events after `e`.  And provided the store answers the inserts of the
events after `e` as it would without the call made for `e`, the jobs enqueued for the
batch, and whether `Run` returns, are the same as for the batch without `e`, and the
insert calls are the same, in the same order, apart from the call for `e`. -/
theorem C16_failed_event_skipped_alone (env : ProducerEnv) (st st1 : ProducerState)
    (pre post : List github.Event) (e : github.Event)
    (hType : e.Type_ = "PushEvent")
    (hPre : processEvents env pre st = (st1, false))
    (hFail : (∃ b err, env.InsertPushEvent st1.inserts (eventToRow e) = (b, some err)) ∨
      (env.InsertPushEvent st1.inserts (eventToRow e) = (true, none) ∧
        ∃ err, env.Unmarshal e.RawPayload = .error err)) :
    ((processEvent env e st1).1.sent = st1.sent ∧
      (processEvent env e st1).1.inserts = st1.inserts ++ [eventToRow e] ∧
      (processEvent env e st1).1.selects = st1.selects ∧
      (processEvent env e st1).2 = false) ∧
    processEvents env (pre ++ e :: post) st
      = processEvents env post (processEvent env e st1).1 ∧
    ((∀ (h : List store.PushEventRow) (e1 : github.Event), e1 ∈ post →
        env.InsertPushEvent (st1.inserts ++ eventToRow e :: h) (eventToRow e1)
          = env.InsertPushEvent (st1.inserts ++ h) (eventToRow e1)) →
      (processEvents env (pre ++ e :: post) st).1.sent
        = (processEvents env (pre ++ post) st).1.sent ∧
      (processEvents env (pre ++ e :: post) st).2 = (processEvents env (pre ++ post) st).2 ∧
      ∃ h, (processEvents env (pre ++ e :: post) st).1.inserts
          = st1.inserts ++ eventToRow e :: h ∧
        (processEvents env (pre ++ post) st).1.inserts = st1.inserts ++ h) := by
  have hskip : (processEvent env e st1).1.sent = st1.sent ∧
      (processEvent env e st1).1.inserts = st1.inserts ++ [eventToRow e] ∧
      (processEvent env e st1).1.selects = st1.selects ∧
      (processEvent env e st1).2 = false := by
    rcases hFail with ⟨b, err, h⟩ | ⟨h, err, hP⟩
    · simp [processEvent, hType, h]
    · simp [processEvent, hType, h, hP]
  have hwith : processEvents env (pre ++ e :: post) st
      = processEvents env post (processEvent env e st1).1 := by
    rw [processEvents_append, hPre]
    simp only [processEvents]
    rcases hpe : processEvent env e st1 with ⟨t, ret⟩
    have hret : ret = false := by
      have := hskip.2.2.2
      rw [hpe] at this
      exact this
    subst hret
    rfl
  have hwithout : processEvents env (pre ++ post) st = processEvents env post st1 := by
    rw [processEvents_append, hPre]
  refine ⟨hskip, hwith, ?_⟩
  intro hstore
  rw [hwith, hwithout]
  obtain ⟨q1, q2, h, q3, q4⟩ := processEvents_sim env st1.inserts (eventToRow e) post []
    (processEvent env e st1).1 st1 (by rw [hskip.2.1]) (by simp) hskip.1 hskip.2.2.1 hstore
  exact ⟨q2, q1, h, q3, q4⟩

theorem dedupStore_other_id (base h : List store.PushEventRow) (row row1 : store.PushEventRow)
    (hid : row1.ID ≠ row.ID) :
    dedupStore (base ++ row :: h) row1 = dedupStore (base ++ h) row1 := by
  simp [dedupStore, hid]

/-- The amended C16 against the store of `postgres.go`, at the batch made of a push event
`e0` with a malformed payload followed by the event `e1` with commits `sha1`, `sha2`: the
jobs enqueued are those of the batch without `e0`. -/
theorem C16_failed_event_skipped_alone_witness :
    (processEvents (envWith dedupStore 9) ([] ++ eventMalformed :: [eventTwoCommits])
        ProducerState.init).1.sent
      = (processEvents (envWith dedupStore 9) ([] ++ [eventTwoCommits])
          ProducerState.init).1.sent := by
  have h := (C16_failed_event_skipped_alone (envWith dedupStore 9) ProducerState.init
    ProducerState.init [] [eventTwoCommits] eventMalformed (by decide) rfl
    (Or.inr ⟨by decide, GoError.other "unexpected end of JSON input", by decide⟩)).2.2
  refine (h ?_).1
  intro hist e1 he1
  have he : e1 = eventTwoCommits := by simpa using he1
  subst he
  exact dedupStore_other_id _ _ _ _ (by decide)

end pubsub

/-! ## C13: the shutdown path of `main` -/

namespace cmd.server

/-- C13 (the code on its shutdown path).  Whatever the scheduling, `main` does not close
the jobs channel exactly once after `Producer.Run` has returned.  The explicit
`close(jobs)` is executed right after `cancel()`, without waiting for `Run`: it finds
`Run` still running whenever `Run` has not returned by then, and if `Run` then sends, the
process ends with the panic `send on closed channel`.  Otherwise the channel is closed a
second time by the deferred `close(jobs)` when `main` returns, which panics with
`close of closed channel`. -/
theorem C13_jobs_closed_twice_without_waiting :
    (∀ sched : Schedule,
      (main sched).closes =
        (if sched.producerSends && decide (0 < sched.producerExit) then [true]
         else [decide (0 < sched.producerExit), decide (4 < sched.producerExit)]) ∧
      (main sched).panic =
        (if sched.producerSends && decide (0 < sched.producerExit) then
          some "send on closed channel"
         else some "close of closed channel")) ∧
    (∀ sched : Schedule, (main sched).closes ≠ [false] ∧ (main sched).panic ≠ none) ∧
    (main ⟨0, false⟩).closes = [false, false] ∧
    (main ⟨2, false⟩).closes = [true, false] ∧
    (main ⟨2, true⟩).closes = [true] := by
  have hmain : ∀ sched : Schedule,
      (main sched).closes =
        (if sched.producerSends && decide (0 < sched.producerExit) then [true]
         else [decide (0 < sched.producerExit), decide (4 < sched.producerExit)]) ∧
      (main sched).panic =
        (if sched.producerSends && decide (0 < sched.producerExit) then
          some "send on closed channel"
         else some "close of closed channel") := by
    rintro ⟨n, b⟩
    cases b <;> rcases n with _ | n <;>
      simp [main, stmt, deferCall, cancel, closeJobs, wgWait, runDeferred, producerRunning]
  refine ⟨hmain, ?_, by decide, by decide, by decide⟩
  intro sched
  obtain ⟨hc, hp⟩ := hmain sched
  rw [hc, hp]
  constructor
  · split <;> simp
  · split <;> simp

end cmd.server
